import Mathlib

/-!
# F1 Season Calculator: formal model of the combinatorial standings engine

This file is a shallow embedding of the core computation of the
F1_Season_Calculator repository: the race-subset enumerator
(`generate_race_combinations`), the standings calculator
(`calculate_standings`, built on NumPy's argsort), the bulk persistence
pass (`process_data` writing championship and position rows), and the
statistics aggregation pass (`compute_stats_for_season`).

Conventions of the embedding:

* Python/NumPy integers are modelled as unbounded `Int`; machine overflow
  is not in play for any claim.
* The comma-joined TEXT columns (`rounds`, `standings`, `points`) are kept
  in decoded form (`List Nat`, `List String`, `List Int`): driver codes are
  comma- and whitespace-free, so the join/split pair used by the code is a
  bijection and the decoded form is faithful.
* `np.argsort` (default `kind='quicksort'`) is modelled by NumPy's portable
  introspective argsort (`npysort` `aquicksort_`/`aheapsort_`): median-of-3
  quicksort on the index array, switching to insertion sort for partitions
  of at most 16 elements and to heapsort when the depth budget
  `2 * floor(log2 n)` is exhausted.  All loops are written with explicit
  structural fuel (always supplied sufficiently) so that the model computes
  by kernel reduction.
-/

namespace F1

/-! ## Combination enumerator (championship/commands.py, lines 33-36) -/

/-- Model of `itertools.combinations(pool, r)` as a list of the emitted
tuples (each tuple a `List Nat`), in the documented emission order:
combinations are emitted in lexicographic order of the chosen positions
of the pool. -/
def itertoolsCombinations : List Nat → Nat → List (List Nat)
  | _, 0 => [[]]
  | [], _ + 1 => []
  | x :: xs, r + 1 =>
      (itertoolsCombinations xs r).map (fun s => x :: s) ++
        itertoolsCombinations xs (r + 1)

/-- Model of `generate_race_combinations(num_races)`: for `r` in
`1..num_races`, yield `itertools.combinations(range(num_races), r)`. -/
def generate_race_combinations (numRaces : Nat) : List (List Nat) :=
  ((List.range numRaces).map
    (fun r => itertoolsCombinations (List.range numRaces) (r + 1))).flatten

/-- The ordering on subsets asserted by the spec for the enumerator's
output: ascending cardinality groups, lexicographic index order within a
group. -/
def SubsetOrder (s t : List Nat) : Prop :=
  s.length < t.length ∨ (s.length = t.length ∧ List.Lex (· < ·) s t)

/-! ## NumPy argsort model

`calculate_standings` calls `np.argsort(-subset_scores)` with the default
`kind='quicksort'`.  NumPy implements that kind, for numeric dtypes, as the
portable introspective argsort `aquicksort_` of `npysort`: median-of-3
quicksort over the index array, with partitions of at most 16 elements
finished by a stable insertion sort, and a switch to `aheapsort_` when the
depth budget `2 * floor(log2 n)` is spent.  The index array is modelled as a
function `Nat → Nat` (initially the identity, i.e. `np.arange(n)`), values
as a fixed function `v : Nat → Int`.  Every loop carries explicit structural
fuel; the entry points supply fuel that is provably sufficient, so the fueled
form computes by kernel reduction and agrees with the C loops. -/

/-- Pointwise update of a function-modelled array. -/
def setAt (a : Nat → Nat) (i x : Nat) : Nat → Nat :=
  fun k => if k = i then x else a k

/-- The `INTP_SWAP(*pi, *pj)` macro: exchange two slots of the index array. -/
def aswap (a : Nat → Nat) (i j : Nat) : Nat → Nat :=
  fun k => if k = i then a j else if k = j then a i else a k

/-- Inner shift loop of the insertion sort in `aquicksort_`:
`while (pj > pl && LT(vp, v[*pk])) *pj-- = *pk--;` followed by `*pj = vi`.
`fuel = pj - pl` is exact: when the fuel runs out `pj = pl` and the loop
guard is false anyway. -/
def insShift (v : Nat → Int) (vi : Nat) (pl : Nat) :
    (Nat → Nat) → Nat → Nat → Nat → Nat
  | a, pj, 0 => setAt a pj vi
  | a, pj, fuel + 1 =>
      if pl < pj ∧ v vi < v (a (pj - 1)) then
        insShift v vi pl (setAt a pj (a (pj - 1))) (pj - 1) fuel
      else setAt a pj vi

/-- Outer loop of the insertion sort over the segment `[pl, pr]`:
`for (pi = pl + 1; pi <= pr; ++pi)`. -/
def insSortGo (v : Nat → Int) (pl pr : Nat) :
    (Nat → Nat) → Nat → Nat → Nat → Nat
  | a, _, 0 => a
  | a, pi, fuel + 1 =>
      if pi ≤ pr then
        insSortGo v pl pr (insShift v (a pi) pl a pi (pi - pl)) (pi + 1) fuel
      else a

/-- Insertion sort of the index-array segment `[pl, pr]` by value. -/
def insSortSeg (v : Nat → Int) (a : Nat → Nat) (pl pr : Nat) : Nat → Nat :=
  insSortGo v pl pr a (pl + 1) (pr - pl)

/-- Upward partition scan `do ++pi; while (LT(v[*pi], vp));`, started at
`cur`.  The C loop relies on a sentinel (`v[a (stop)] = vp` at
`stop = pr - 1`) to terminate; the explicit `cur < stop` bound never binds
when that sentinel invariant holds, and the fuel `stop - cur` is exact. -/
def scanUp (v : Nat → Int) (a : Nat → Nat) (vp : Int) (stop : Nat) :
    Nat → Nat → Nat
  | cur, 0 => cur
  | cur, fuel + 1 =>
      if cur < stop ∧ v (a cur) < vp then scanUp v a vp stop (cur + 1) fuel
      else cur

/-- Downward partition scan `do --pj; while (LT(vp, v[*pj]));`, with the
symmetric sentinel at `floor = pl`. -/
def scanDown (v : Nat → Int) (a : Nat → Nat) (vp : Int) (floor : Nat) :
    Nat → Nat → Nat
  | cur, 0 => cur
  | cur, fuel + 1 =>
      if floor < cur ∧ vp < v (a cur) then scanDown v a vp floor (cur - 1) fuel
      else cur

/-- Hoare partition exchange loop of `aquicksort_` (pivot value `vp` parked
at slot `pr - 1`).  Returns the final array and the final `pi`. -/
def partLoop (v : Nat → Int) (vp : Int) (pl pr : Nat) :
    (Nat → Nat) → Nat → Nat → Nat → (Nat → Nat) × Nat
  | a, p_i, _, 0 => (a, p_i)
  | a, p_i, p_j, fuel + 1 =>
      let i2 := scanUp v a vp (pr - 1) (p_i + 1) (pr - 1 - (p_i + 1))
      let j2 := scanDown v a vp pl (p_j - 1) (p_j - 1 - pl)
      if j2 ≤ i2 then (a, i2)
      else partLoop v vp pl pr (aswap a i2 j2) i2 j2 fuel

/-- One full partition step of `aquicksort_` on the segment `[pl, pr]`:
median-of-3 pivot selection with its three conditional swaps, pivot parked
at `pr - 1`, exchange loop, final swap of `*pi` with `*(pr - 1)`. -/
def partitionSeg (v : Nat → Int) (a : Nat → Nat) (pl pr : Nat) :
    (Nat → Nat) × Nat :=
  let pm := pl + (pr - pl) / 2
  let a0 := if v (a pm) < v (a pl) then aswap a pm pl else a
  let a1 := if v (a0 pr) < v (a0 pm) then aswap a0 pr pm else a0
  let a2 := if v (a1 pm) < v (a1 pl) then aswap a1 pm pl else a1
  let vp := v (a2 pm)
  let a3 := aswap a2 pm (pr - 1)
  let r := partLoop v vp pl pr a3 pl (pr - 1) (pr - 1 - pl)
  (aswap r.1 r.2 (pr - 1), r.2)

/-- One-based slot access of `aheapsort_` (which works on `tosort - 1`). -/
def heapGet (a : Nat → Nat) (pl i : Nat) : Nat := a (pl + i - 1)

/-- One-based slot update of `aheapsort_`. -/
def heapSet (a : Nat → Nat) (pl i : Nat) (x : Nat) : Nat → Nat :=
  setAt a (pl + i - 1) x

/-- The child selection of the `aheapsort_` sift loop:
`if (j < n && LT(v[a[j]], v[a[j+1]])) j += 1;`. -/
def heapChild (v : Nat → Int) (pl n j : Nat) (a : Nat → Nat) : Nat :=
  if j < n ∧ v (heapGet a pl j) < v (heapGet a pl (j + 1)) then j + 1 else j

/-- The sift loop of `aheapsort_`: carry the hole `i` and the displaced
index `tmp` down the heap of size `n`, then drop `tmp` into the hole.
In `aheapsort_` the child pointer `j` starts at `2 * i ≥ 2` and at least
doubles each round, so fuel `n + 1` never runs out for `n ≥ 1`. -/
def siftDown (v : Nat → Int) (pl : Nat) (tmp n : Nat) :
    (Nat → Nat) → Nat → Nat → Nat → Nat → Nat
  | a, i, _, 0 => heapSet a pl i tmp
  | a, i, j, fuel + 1 =>
      if j ≤ n then
        if v tmp < v (heapGet a pl (heapChild v pl n j a)) then
          siftDown v pl tmp n
            (heapSet a pl i (heapGet a pl (heapChild v pl n j a)))
            (heapChild v pl n j a) (2 * heapChild v pl n j a) fuel
        else heapSet a pl i tmp
      else heapSet a pl i tmp

/-- Heap construction phase of `aheapsort_`:
`for (l = n >> 1; l > 0; --l)` sift slot `l` down. -/
def buildHeapGo (v : Nat → Int) (pl n : Nat) : (Nat → Nat) → Nat → Nat → Nat
  | a, 0 => a
  | a, l + 1 =>
      buildHeapGo v pl n
        (siftDown v pl (heapGet a pl (l + 1)) n a (l + 1) (2 * (l + 1)) (n + 1)) l

/-- Extraction phase of `aheapsort_`: repeatedly move the root to the end of
the shrinking heap and re-sift. -/
def extractGo (v : Nat → Int) (pl : Nat) : (Nat → Nat) → Nat → Nat → Nat
  | a, 0 => a
  | a, 1 => a
  | a, m + 2 =>
      let tmp := heapGet a pl (m + 2)
      let a1 := heapSet a pl (m + 2) (heapGet a pl 1)
      let a2 := siftDown v pl tmp (m + 1) a1 1 2 (m + 2)
      extractGo v pl a2 (m + 1)

/-- Model of `aheapsort_(vv, tosort + pl, n)`: heapsort of the index-array
segment starting at `pl`, of length `n`. -/
def heapsortSeg (v : Nat → Int) (a : Nat → Nat) (pl n : Nat) : Nat → Nat :=
  extractGo v pl (buildHeapGo v pl n a (n / 2)) n

/-- Main introsort loop of `aquicksort_` on the segment `[pl, pr]`, carrying
the global depth budget `dl` exactly as the C code does (the budget is
post-decremented once per partition attempt across the whole run, in the
code's depth-first, smaller-partition-first traversal order; the larger
partition is pushed and resumed after the smaller one finishes).  A segment
of at most 16 slots (`pr - pl ≤ 15`, `SMALL_QUICKSORT`) is insertion
sorted; an exhausted budget heap sorts the current segment.  Fuel bounds the
recursion depth; `fuel ≥ pr - pl + 1` is always sufficient because each
sub-segment is strictly shorter. -/
def qsLoop (v : Nat → Int) : (Nat → Nat) → Nat → Nat → Int → Nat →
    (Nat → Nat) × Int
  | a, _, _, dl, 0 => (a, dl)
  | a, pl, pr, dl, fuel + 1 =>
      if 15 < pr - pl then
        if dl < 0 then (heapsortSeg v a pl (pr - pl + 1), dl - 1)
        else
          let pres := partitionSeg v a pl pr
          if pres.2 - pl < pr - pres.2 then
            let r1 := qsLoop v pres.1 pl (pres.2 - 1) (dl - 1) fuel
            qsLoop v r1.1 (pres.2 + 1) pr r1.2 fuel
          else
            let r1 := qsLoop v pres.1 (pres.2 + 1) pr (dl - 1) fuel
            qsLoop v r1.1 pl (pres.2 - 1) r1.2 fuel
      else (insSortSeg v a pl pr, dl)

/-- Model of `np.argsort` (default `kind='quicksort'`) on the value vector
`v` restricted to indices `0..n-1`: the final index array, as a function
(slot `k` holds the index placed at rank `k`). -/
def argsortNp (v : Nat → Int) (n : Nat) : Nat → Nat :=
  if n ≤ 1 then id
  else (qsLoop v id 0 (n - 1) (2 * Nat.log2 n) n).1

/-- Two index arrays are related by a permutation of the slot range
`[pl, pr]` (slots outside are untouched).  Every phase of the introsort
relates its input and output arrays this way. -/
def SegPerm (pl pr : Nat) (a b : Nat → Nat) : Prop :=
  ∃ π : Nat → Nat, Function.Bijective π ∧
    (∀ k, k < pl ∨ pr < k → π k = k) ∧ ∀ k, b k = a (π k)

/-- The transposition of two slots, as a function on slot numbers. -/
def swapFn (i j : Nat) : Nat → Nat :=
  fun k => if k = i then j else if k = j then i else k

/-- Membership in the binary-heap subtree rooted at the one-based slot `i`:
`k` lies in the subtree iff repeatedly halving `k` reaches `i`.  Used to
delimit the slots a sift pass can touch. -/
def inSub (i k : Nat) : Prop := ∃ m : Nat, k / 2 ^ m = i

/-! ## Standings calculator (championship/commands.py, lines 40-53) -/

/-- One driver's slice of `scores[:, race_subset].sum(axis=1)`: the sum of
the row's entries at the subset's columns. -/
def rowSum (row : List Int) (race_subset : List Nat) : Int :=
  (race_subset.map (fun c => row.getD c 0)).sum

/-- The per-driver sums `subset_scores` of `calculate_standings`. -/
def subsetScoresOf (scores : List (List Int)) (race_subset : List Nat) :
    List Int :=
  scores.map (fun row => rowSum row race_subset)

/-- Model of `calculate_standings(drivers, scores, race_subset)`: sum each
row over the subset's columns, argsort the negated sums (NumPy default
quicksort), return the drivers and the sums gathered through the resulting
index order. -/
def calculate_standings (drivers : List String) (scores : List (List Int))
    (race_subset : List Nat) : List String × List Int :=
  let t := subsetScoresOf scores race_subset
  let a := argsortNp (fun i => -(t.getD i 0)) t.length
  ((List.range t.length).map fun k => drivers.getD (a k) "",
   (List.range t.length).map fun k => t.getD (a k) 0)

/-! ## Persistence model (championship/commands.py 57-177, db.py 284-404)

The storage is modelled at row level, with the comma-joined TEXT columns in
decoded form.  `championship_results.championship_id` is `INTEGER PRIMARY
KEY AUTOINCREMENT`: SQLite assigns one larger than the largest id that has
ever existed in the table, a high-water mark (`sqlite_sequence`) that
survives `DELETE FROM` and is only reset when the database file itself is
removed.  The model keeps that high-water mark in `champSeq`.
`position_results` has `PRIMARY KEY (championship_id, driver_code)`, so a
duplicate pair makes the insert fail (`IntegrityError`).  `process_data`
wraps the whole run in one transaction committed only at the end, so a
Python exception mid-run leaves the tables unchanged; the model's `Except`
error results therefore carry no partial state. -/

/-- The Python exceptions the modelled paths can raise. -/
inductive PyExc where
  | IndexError
  | IntegrityError
  | EmptyDataError
  | ZeroDivisionError
deriving DecidableEq, Repr

/-- Decidable equality for `Except` results, used to evaluate the model at
concrete inputs. -/
instance {ε α : Type} [DecidableEq ε] [DecidableEq α] :
    DecidableEq (Except ε α) := fun x y =>
  match x, y with
  | .ok a, .ok b =>
      if h : a = b then .isTrue (by rw [h])
      else .isFalse (fun he => h (Except.ok.inj he))
  | .error e, .error f =>
      if h : e = f then .isTrue (by rw [h])
      else .isFalse (fun he => h (Except.error.inj he))
  | .ok _, .error _ => .isFalse (fun he => Except.noConfusion he)
  | .error _, .ok _ => .isFalse (fun he => Except.noConfusion he)

/-- The `season` DEFAULT of every table (multi-season migration default). -/
def defaultSeason : Nat := 2025

/-- A row of `championship_results` (TEXT columns decoded). -/
structure ChampionshipRow where
  championship_id : Nat
  season : Nat
  num_races : Nat
  rounds : List Nat
  standings : List String
  winner : String
  points : List Int
deriving DecidableEq, Repr

/-- A row of `position_results`. -/
structure PositionRow where
  championship_id : Nat
  driver_code : String
  position : Nat
  points : Int
  season : Nat
deriving DecidableEq, Repr

/-- A row of `driver_statistics` (the `computed_at` wall-clock timestamp is
not modelled). -/
structure StatRow where
  driver_code : String
  season : Nat
  highest_position : Nat
  highest_position_max_races : Nat
  highest_position_championship_id : Nat
  best_margin : Option Int
  best_margin_championship_id : Option Nat
  win_count : Nat
deriving DecidableEq, Repr

/-- A row of `win_probability_cache`. -/
structure ProbRow where
  driver_code : String
  num_races : Nat
  win_count : Nat
  total_at_length : Nat
  season : Nat
deriving DecidableEq, Repr

/-- The database state: the four tables (rows in rowid order) and the
AUTOINCREMENT high-water mark of `championship_results`. -/
structure DbState where
  championship_results : List ChampionshipRow
  position_results : List PositionRow
  driver_statistics : List StatRow
  win_probability_cache : List ProbRow
  champSeq : Nat
deriving DecidableEq, Repr

/-- A freshly created database file (`init_db` on a removed file): empty
tables and a reset AUTOINCREMENT sequence. -/
def freshDb : DbState := ⟨[], [], [], [], 0⟩

/-- Model of `init_db(clear_existing=True)`: the database file (with its
WAL/SHM companions) is deleted and the schema recreated, so everything —
the AUTOINCREMENT sequence included — resets. -/
def init_db_clear (_ : DbState) : DbState := freshDb

/-- Model of `clear_season_data(season)` (db.py 744-789): `DELETE FROM` each
of the four tables for that season.  `DELETE` does not touch
`sqlite_sequence`, so `champSeq` survives. -/
def clear_season_data (season : Nat) (st : DbState) : DbState :=
  { championship_results :=
      st.championship_results.filter (fun r => r.season ≠ season)
    position_results := st.position_results.filter (fun r => r.season ≠ season)
    driver_statistics := st.driver_statistics.filter (fun r => r.season ≠ season)
    win_probability_cache :=
      st.win_probability_cache.filter (fun r => r.season ≠ season)
    champSeq := st.champSeq }

/-- `SELECT COALESCE(MAX(championship_id), 0) FROM championship_results`. -/
def maxChampId (rows : List ChampionshipRow) : Nat :=
  rows.foldl (fun m r => max m r.championship_id) 0

/-- One tuple of `championship_data_batch` (before the id is assigned). -/
structure ChampItem where
  num_races : Nat
  rounds : List Nat
  standings : List String
  winner : String
  points : List Int
deriving DecidableEq, Repr

/-- Insert one championship row: AUTOINCREMENT assigns `champSeq + 1`. -/
def insertChamp (st : DbState) (it : ChampItem) : DbState :=
  { st with
    championship_results := st.championship_results ++
      [⟨st.champSeq + 1, defaultSeason, it.num_races, it.rounds, it.standings,
        it.winner, it.points⟩]
    champSeq := st.champSeq + 1 }

/-- Model of `save_to_database`: one `executemany` insert of the batch. -/
def save_to_database (st : DbState) (batch : List ChampItem) : DbState :=
  batch.foldl insertChamp st

/-- Insert one position row, enforcing the
`PRIMARY KEY (championship_id, driver_code)` constraint. -/
def insertPositionRow (st : DbState) (p : PositionRow) :
    Except PyExc DbState :=
  if st.position_results.any (fun q =>
      q.championship_id == p.championship_id && q.driver_code == p.driver_code)
    then .error .IntegrityError
  else .ok { st with position_results := st.position_results ++ [p] }

/-- Model of `save_position_results`: insert the batch row by row. -/
def save_position_results (st : DbState) (batch : List PositionRow) :
    Except PyExc DbState :=
  batch.foldl (fun acc p => acc.bind (fun s => insertPositionRow s p)) (.ok st)

/-- The position rows generated for one flushed batch: championship `j` of
the batch gets id `startId + j`, and each driver of its standings one row
with its 1-based rank and its points. -/
def posRowsOfBatch (startId : Nat)
    (standingsBatch : List (List String × List Int)) : List PositionRow :=
  standingsBatch.enum.flatMap (fun ji =>
    (ji.2.1.zip ji.2.2).enum.map (fun pe =>
      ⟨startId + ji.1, pe.2.1, pe.1 + 1, pe.2.2, defaultSeason⟩))

/-- The batched main loop of `process_data` (Step 3/4): accumulate one
`ChampItem` and one standings pair per combination, flush both tables when
`(i + 1) % batch_size == 0`, advance `next_championship_id` by the flushed
batch length, and flush the remainder at the end.  `winner =
sorted_drivers[0]` raises `IndexError` on an empty standings array, and
Python's `%` by zero raises `ZeroDivisionError`. -/
def processGo (batch_size : Nat) (drivers : List String)
    (scores : List (List Int)) :
    List (List Nat) → Nat → Nat → List ChampItem →
      List (List String × List Int) → DbState → Except PyExc DbState
  | [], _, next_id, champB, standB, st =>
      if champB.isEmpty then .ok st
      else
        (save_position_results (save_to_database st champB)
          (posRowsOfBatch next_id standB))
  | subset :: rest, i, next_id, champB, standB, st =>
      let r := calculate_standings drivers scores subset
      match r.1 with
      | [] => .error .IndexError
      | w :: _ =>
          let champB2 := champB ++
            [⟨subset.length, subset.map (· + 1), r.1, w, r.2⟩]
          let standB2 := standB ++ [(r.1, r.2)]
          if batch_size = 0 then .error .ZeroDivisionError
          else if (i + 1) % batch_size = 0 then
            (save_position_results (save_to_database st champB2)
                (posRowsOfBatch next_id standB2)).bind
              (fun st2 => processGo batch_size drivers scores rest (i + 1)
                (next_id + champB2.length) [] [] st2)
          else processGo batch_size drivers scores rest (i + 1) next_id
            champB2 standB2 st

/-- The array-level body of `process_data`: read `next_championship_id`
from the current table maximum, then run the batched loop over
`generate_race_combinations`. -/
def processArrays (drivers : List String) (scores : List (List Int))
    (numRaces batch_size : Nat) (st : DbState) : Except PyExc DbState :=
  processGo batch_size drivers scores (generate_race_combinations numRaces) 0
    (maxChampId st.championship_results + 1) [] [] st

/-- Flush one pending batch: the championship rows in one `executemany`,
then the derived position rows. -/
def applyBatch (st : DbState) (champB : List ChampItem)
    (standB : List (List String × List Int)) (next_id : Nat) :
    Except PyExc DbState :=
  save_position_results (save_to_database st champB)
    (posRowsOfBatch next_id standB)

/-- The batching-free reference form of the main loop (the spec's "batching
affects only when rows are flushed"): every combination is flushed
immediately.  `processGo` with any `batch_size ≥ 1` is proved equal to
it. -/
def processFlat (drivers : List String) (scores : List (List Int)) :
    List (List Nat) → Nat → DbState → Except PyExc DbState
  | [], _, st => .ok st
  | subset :: rest, next_id, st =>
      let r := calculate_standings drivers scores subset
      match r.1 with
      | [] => .error .IndexError
      | w :: _ =>
          (applyBatch st [⟨subset.length, subset.map (· + 1), r.1, w, r.2⟩]
            [(r.1, r.2)] next_id).bind
            (fun st2 => processFlat drivers scores rest (next_id + 1) st2)

/-- The Position Records carrying one Championship Record's id. -/
def championPositions (st : DbState) (c : ChampionshipRow) :
    List PositionRow :=
  st.position_results.filter
    (fun p => p.championship_id == c.championship_id)

/-- The spec's Position-Record invariant for one Championship Record: as
many position rows as the record's standings entries, positions exactly
`1..n` (in order), each driver code at most once, and each row's points
equal to the championship's points entry at `position - 1`. -/
def GoodChamp (st : DbState) (c : ChampionshipRow) : Prop :=
  (championPositions st c).length = c.standings.length ∧
  (championPositions st c).map (fun p => p.position)
    = List.range' 1 c.standings.length ∧
  ((championPositions st c).map (fun p => p.driver_code)).Nodup ∧
  ∀ p ∈ championPositions st c, p.points = c.points.getD (p.position - 1) 0

/-! ## Input loader (championship/commands.py, lines 17-29, 100-110) -/

/-- A parsed CSV table: the header row and, per data row, the driver cell
and the score cells.  A score cell is `none` when `pd.to_numeric(...,
errors='coerce')` turns it into NaN (non-numeric or blank). -/
structure CsvTable where
  header : List String
  rows : List (String × List (Option Int))
deriving DecidableEq, Repr

/-- The states the source file can be in.  A fully empty file makes
`pd.read_csv` itself raise `EmptyDataError`; a header-only file parses into
a table with zero data rows. -/
inductive SourceFile where
  | missing
  | emptyFile
  | table (t : CsvTable)

/-- Whitespace trimming on the character list (the model of `str.strip`;
written over `List Char` so that it reduces in the kernel). -/
def trimChars (l : List Char) : List Char :=
  ((l.dropWhile Char.isWhitespace).reverse.dropWhile Char.isWhitespace).reverse

/-- The `str.strip().str.upper()` normalisation of a driver cell (driver
codes are ASCII, where `Char.toUpper` agrees with Python `upper`). -/
def pyStripUpper (s : String) : String :=
  ⟨(trimChars s.data).map Char.toUpper⟩

/-- Model of `read_csv(file_path)` once `pd.read_csv` produced a frame:
first column stripped/upper-cased as drivers, remaining cells coerced to
numbers with NaN filled by 0. -/
def read_csv (t : CsvTable) : List String × List (List Int) :=
  (t.rows.map (fun r => pyStripUpper r.1),
   t.rows.map (fun r => r.2.map (fun c => c.getD 0)))

/-- Model of `process_data(batch_size)`: a missing file prints a message and
returns cleanly (no exception, no writes); an empty file propagates
pandas' `EmptyDataError` before any write; otherwise the loader runs and
`num_races` is the score-column count of the frame. -/
def process_data (src : SourceFile) (batch_size : Nat) (st : DbState) :
    Except PyExc DbState :=
  match src with
  | .missing => .ok st
  | .emptyFile => .error .EmptyDataError
  | .table t =>
      let ds := read_csv t
      processArrays ds.1 ds.2 (t.header.length - 1) batch_size st

/-! ## Statistics aggregator (db.py, `compute_stats_for_season`, 500-687)

The aggregation pass is modelled as a pure function of the database state.
Python dict iteration preserves insertion order, so `driver_stats` is an
association list updated in place and extended at the end.  SQL result
orders: a `LIMIT 1` or plain scan returns rowid (insertion) order; `ORDER
BY championship_id DESC` sorts descending by id (ids are unique in any
state the pipeline produces); `GROUP BY` output order is unspecified by
SQL and modelled as first-occurrence order, which no claim depends on.
The `win_probability_cache` primary key is not re-checked on insert here
(the pipeline never produces duplicates for it). -/

/-- One value of the in-memory `driver_stats` dict. -/
structure StatInfo where
  highest_position : Nat
  highest_position_max_races : Nat
  highest_position_championship_id : Nat
  best_margin : Option Int
  best_margin_championship_id : Option Nat
  win_count : Nat
deriving DecidableEq, Repr

/-- Dict lookup `driver_stats[d]`. -/
def statsFind (stats : List (String × StatInfo)) (d : String) :
    Option StatInfo :=
  (stats.find? (fun e => e.1 == d)).map (fun e => e.2)

/-- In-place dict update `driver_stats[d] = f(driver_stats[d])`. -/
def statsUpdate (stats : List (String × StatInfo)) (d : String)
    (f : StatInfo → StatInfo) : List (String × StatInfo) :=
  stats.map (fun e => if e.1 == d then (e.1, f e.2) else e)

/-- The per-driver body of the highest-position scan (db.py 556-577): a new
driver is inserted with the current position; a strictly better position
replaces it; an equal position in a longer season updates the
representative season length and championship id. -/
def scanDriver (cid nr : Nat) (stats : List (String × StatInfo)) (pos : Nat)
    (d : String) : List (String × StatInfo) :=
  match statsFind stats d with
  | none => stats ++ [(d, ⟨pos, nr, cid, none, none, 0⟩)]
  | some s =>
      if pos < s.highest_position then
        statsUpdate stats d (fun s => { s with
          highest_position := pos
          highest_position_max_races := nr
          highest_position_championship_id := cid })
      else if pos = s.highest_position ∧ s.highest_position_max_races < nr then
        statsUpdate stats d (fun s => { s with
          highest_position_max_races := nr
          highest_position_championship_id := cid })
      else stats

/-- Scan one championship row: `enumerate(standings, start=1)`. -/
def scanRow (stats : List (String × StatInfo)) (row : ChampionshipRow) :
    List (String × StatInfo) :=
  row.standings.enum.foldl
    (fun acc pe => scanDriver row.championship_id row.num_races acc
      (pe.1 + 1) pe.2) stats

/-- Descending insertion by championship id (model of `ORDER BY
championship_id DESC`; ids are unique in pipeline-produced states). -/
def insertByIdDesc (x : ChampionshipRow) :
    List ChampionshipRow → List ChampionshipRow
  | [] => [x]
  | y :: ys =>
      if y.championship_id ≤ x.championship_id then x :: y :: ys
      else y :: insertByIdDesc x ys

/-- Sort championship rows descending by id. -/
def sortByIdDesc (l : List ChampionshipRow) : List ChampionshipRow :=
  l.foldr insertByIdDesc []

/-- The per-length query of the highest-position scan (db.py 542-548):
`WHERE num_races = ? AND season = ? ORDER BY championship_id DESC LIMIT
10000`. -/
def scanQuery (table : List ChampionshipRow) (season nr : Nat) :
    List ChampionshipRow :=
  (sortByIdDesc (table.filter
    (fun c => c.num_races == nr && c.season == season))).take 10000

/-- The early-exit test: `drivers_to_find` is empty exactly when every
driver of the sample row has been seen at position 1. -/
def allFoundP1 (all_drivers : List String)
    (stats : List (String × StatInfo)) : Bool :=
  all_drivers.all (fun d =>
    match statsFind stats d with
    | some s => s.highest_position == 1
    | none => false)

/-- The `for num_races in range(max_races, 0, -1)` loop with its early
`break`. -/
def scanLengths (table : List ChampionshipRow) (season : Nat)
    (all_drivers : List String) :
    Nat → List (String × StatInfo) → List (String × StatInfo)
  | 0, stats => stats
  | nr + 1, stats =>
      if allFoundP1 all_drivers stats then stats
      else scanLengths table season all_drivers nr
        ((scanQuery table season (nr + 1)).foldl scanRow stats)

/-- One row of the best-margin pass (db.py 604-618). -/
def marginStep (winners : List String) (stats : List (String × StatInfo))
    (row : ChampionshipRow) : List (String × StatInfo) :=
  if winners.contains row.winner then
    match row.points with
    | p0 :: p1 :: _ =>
        let margin := p0 - p1
        match statsFind stats row.winner with
        | some s =>
            match s.best_margin with
            | none => statsUpdate stats row.winner (fun s => { s with
                best_margin := some margin
                best_margin_championship_id := some row.championship_id })
            | some cur =>
                if cur < margin then
                  statsUpdate stats row.winner (fun s => { s with
                    best_margin := some margin
                    best_margin_championship_id := some row.championship_id })
                else stats
        | none => stats
    | _ => stats
  else stats

/-- The distinct `(winner, num_races)` group keys of `GROUP BY winner,
num_races`, in first-occurrence order. -/
def groupPairs (rows : List ChampionshipRow) : List (String × Nat) :=
  rows.foldl (fun acc r =>
    if acc.contains (r.winner, r.num_races) then acc
    else acc ++ [(r.winner, r.num_races)]) []

/-- `wins_per_length`: per group key, the number of wins. -/
def winsPerLength (rows : List ChampionshipRow) :
    List ((String × Nat) × Nat) :=
  (groupPairs rows).map (fun p =>
    (p, rows.countP (fun r => r.winner == p.1 && r.num_races == p.2)))

/-- The distinct season lengths of `GROUP BY num_races`, in first-occurrence
order. -/
def distinctLengths (rows : List ChampionshipRow) : List Nat :=
  rows.foldl (fun acc r =>
    if acc.contains r.num_races then acc else acc ++ [r.num_races]) []

/-- `totals_dict`: per season length, the number of championships. -/
def totalsPerLength (rows : List ChampionshipRow) : List (Nat × Nat) :=
  (distinctLengths rows).map (fun n =>
    (n, rows.countP (fun r => r.num_races == n)))

/-- `cache_data`: the grouped win counts joined with the totals, then a
zero-filled row for every `(driver, length)` pair not already present. -/
def cacheRowsOf (seasonRows : List ChampionshipRow)
    (all_drivers : List String) (season : Nat) : List ProbRow :=
  let totals := totalsPerLength seasonRows
  let wins := winsPerLength seasonRows
  let base : List ProbRow := wins.map (fun pw =>
    ⟨pw.1.1, pw.1.2, pw.2, (totals.lookup pw.1.2).getD 0, season⟩)
  let existing := wins.map (fun pw => pw.1)
  let extra : List ProbRow := all_drivers.flatMap (fun d =>
    totals.filterMap (fun nt =>
      if existing.contains (d, nt.1) then none
      else some ⟨d, nt.1, 0, nt.2, season⟩))
  base ++ extra

/-- Model of `compute_stats_for_season(db, season)`.  Returns the new state
and whether the no-data warning was reported (in which case the function
returned before any write).  On data: highest positions via the batched
descending scan, win counts via the season-wide group count, best margins,
then delete-and-insert of `driver_statistics` and `win_probability_cache`
for that season. -/
def compute_stats_for_season (st : DbState) (season : Nat) :
    DbState × Bool :=
  let seasonRows := st.championship_results.filter (fun c => c.season == season)
  match seasonRows with
  | [] => (st, true)
  | sample :: _ =>
      let all_drivers := sample.standings
      let maxRaces := (seasonRows.map (fun c => c.num_races)).foldl max 0
      let stats1 := scanLengths st.championship_results season all_drivers
        maxRaces []
      let stats2 := stats1.map (fun e => (e.1, { e.2 with
        win_count := seasonRows.countP (fun r => r.winner == e.1) }))
      let winners := (stats2.filter
        (fun e => e.2.highest_position == 1)).map (fun e => e.1)
      let stats3 := seasonRows.foldl (marginStep winners) stats2
      let statRows : List StatRow := stats3.map (fun e =>
        ⟨e.1, season, e.2.highest_position, e.2.highest_position_max_races,
          e.2.highest_position_championship_id, e.2.best_margin,
          e.2.best_margin_championship_id, e.2.win_count⟩)
      ({ st with
          driver_statistics :=
            st.driver_statistics.filter (fun r => r.season ≠ season) ++ statRows
          win_probability_cache :=
            st.win_probability_cache.filter (fun r => r.season ≠ season) ++
              cacheRowsOf seasonRows all_drivers season },
        false)

/-! ## Concrete scenarios used by counterexamples and witnesses -/

/-- Scenario A input (spec §8): drivers VER, NOR, LEC; two races. -/
def scenarioA : CsvTable :=
  ⟨["Driver", "1", "2"],
   [("VER", [some 25, some 18]),
    ("NOR", [some 18, some 25]),
    ("LEC", [some 15, some 15])]⟩

/-- The database state Scenario A produces on a fresh database. -/
def scenarioAState : DbState :=
  { championship_results :=
      [⟨1, 2025, 1, [1], ["VER", "NOR", "LEC"], "VER", [25, 18, 15]⟩,
       ⟨2, 2025, 1, [2], ["NOR", "VER", "LEC"], "NOR", [25, 18, 15]⟩,
       ⟨3, 2025, 2, [1, 2], ["VER", "NOR", "LEC"], "VER", [43, 43, 30]⟩]
    position_results :=
      [⟨1, "VER", 1, 25, 2025⟩, ⟨1, "NOR", 2, 18, 2025⟩,
       ⟨1, "LEC", 3, 15, 2025⟩, ⟨2, "NOR", 1, 25, 2025⟩,
       ⟨2, "VER", 2, 18, 2025⟩, ⟨2, "LEC", 3, 15, 2025⟩,
       ⟨3, "VER", 1, 43, 2025⟩, ⟨3, "NOR", 2, 43, 2025⟩,
       ⟨3, "LEC", 3, 30, 2025⟩]
    driver_statistics := []
    win_probability_cache := []
    champSeq := 3 }

/-- The full-season championship row of Scenario A. -/
def c3A : ChampionshipRow :=
  ⟨3, 2025, 2, [1, 2], ["VER", "NOR", "LEC"], "VER", [43, 43, 30]⟩

/-- A one-driver, one-race input used to probe id reassignment. -/
def oneDriverTable : CsvTable := ⟨["Driver", "1"], [("A", [some 1])]⟩

/-- The first processing run of the one-driver input on a fresh database. -/
def oneDriverRun1 : Except PyExc DbState :=
  process_data (.table oneDriverTable) 100000 freshDb

/-- Re-run after clearing the 2025 season with `clear_season_data` (a
`DELETE FROM`, which leaves the AUTOINCREMENT sequence behind). -/
def oneDriverRun2 : Except PyExc DbState :=
  match oneDriverRun1 with
  | .ok st =>
      process_data (.table oneDriverTable) 100000
        (clear_season_data defaultSeason st)
  | .error e => .error e

/-- Seventeen driver codes with identical scores: the smallest size at
which NumPy's default quicksort leaves its stable insertion-sort regime. -/
def tiedDrivers17 : List String :=
  ["D00", "D01", "D02", "D03", "D04", "D05", "D06", "D07", "D08", "D09",
   "D10", "D11", "D12", "D13", "D14", "D15", "D16"]

/-- One race, every driver on 1 point: every pair of drivers is tied. -/
def tiedScores17 : List (List Int) := List.replicate 17 [1]

/-- The oldest championship record of the C5 counterexample: driver B wins
(position 1) — and this is the only record where B is first. -/
def c5Row1 : ChampionshipRow := ⟨1, 2025, 1, [1], ["B", "A"], "B", [1]⟩

/-- Ten thousand newer records of the same season length where B is
second: ids 2 through 10001. -/
def c5Bulk : List ChampionshipRow :=
  (List.range 10000).map
    (fun i => (⟨i + 2, 2025, 1, [1], ["A", "B"], "A", [1]⟩ :
      ChampionshipRow))

/-- A stored season with 10001 records of one length: one more than the
scan batch of the statistics pass. -/
def c5State : DbState := ⟨c5Row1 :: c5Bulk, [], [], [], 10001⟩

/-! ## Lemmas about the combination enumerator -/

theorem length_itertoolsCombinations :
    ∀ (l : List Nat) (r : Nat),
      (itertoolsCombinations l r).length = l.length.choose r := by
  intro l
  induction l with
  | nil => intro r; cases r <;> simp [itertoolsCombinations]
  | cons x xs ih =>
      intro r
      cases r with
      | zero => simp [itertoolsCombinations]
      | succ r =>
          simp [itertoolsCombinations, ih, Nat.choose_succ_succ, Nat.add_comm]

theorem mem_itertoolsCombinations :
    ∀ {l s : List Nat} {r : Nat},
      s ∈ itertoolsCombinations l r ↔ s.Sublist l ∧ s.length = r := by
  intro l
  induction l with
  | nil =>
      intro s r
      cases r with
      | zero =>
          simp only [itertoolsCombinations, List.mem_singleton,
            List.sublist_nil, List.length_eq_zero]
          tauto
      | succ r =>
          simp only [itertoolsCombinations, List.not_mem_nil, false_iff,
            not_and, List.sublist_nil]
          rintro rfl
          simp
  | cons x xs ih =>
      intro s r
      cases r with
      | zero =>
          simp only [itertoolsCombinations, List.mem_singleton,
            List.length_eq_zero]
          constructor
          · rintro rfl; simp
          · rintro ⟨_, rfl⟩; rfl
      | succ r =>
          simp only [itertoolsCombinations, List.mem_append, List.mem_map]
          constructor
          · rintro (⟨t, ht, rfl⟩ | hs)
            · rcases ih.mp ht with ⟨hsub, hlen⟩
              exact ⟨List.Sublist.cons₂ x hsub, by simp [hlen]⟩
            · rcases ih.mp hs with ⟨hsub, hlen⟩
              exact ⟨hsub.cons x, hlen⟩
          · rintro ⟨hsub, hlen⟩
            rcases List.sublist_cons_iff.mp hsub with h | ⟨t, rfl, ht⟩
            · exact Or.inr (ih.mpr ⟨h, hlen⟩)
            · exact Or.inl ⟨t, ih.mpr ⟨ht, by simpa using hlen⟩, rfl⟩

theorem nodup_itertoolsCombinations :
    ∀ {l : List Nat}, l.Nodup → ∀ (r : Nat),
      (itertoolsCombinations l r).Nodup := by
  intro l
  induction l with
  | nil => intro _ r; cases r <;> simp [itertoolsCombinations]
  | cons x xs ih =>
      intro hnd r
      rcases List.nodup_cons.mp hnd with ⟨hx, hxs⟩
      cases r with
      | zero => simp [itertoolsCombinations]
      | succ r =>
          simp only [itertoolsCombinations]
          refine List.Nodup.append ?_ (ih hxs (r + 1)) ?_
          · exact (ih hxs r).map (fun a b h => by injection h)
          · intro s hs hs'
            rcases List.mem_map.mp hs with ⟨t, _, rfl⟩
            rcases mem_itertoolsCombinations.mp hs' with ⟨hsub, _⟩
            exact hx (hsub.subset (by simp))

theorem sublist_of_pairwise_subset :
    ∀ (t s : List Nat), s.Pairwise (· < ·) → t.Pairwise (· < ·) →
      (∀ a ∈ s, a ∈ t) → s.Sublist t := by
  intro t
  induction t with
  | nil =>
      intro s _ _ hsub
      cases s with
      | nil => simp
      | cons a as => exact absurd (hsub a (by simp)) (by simp)
  | cons y ys ih =>
      intro s hs ht hsub
      cases s with
      | nil => simp
      | cons a as =>
          rcases List.pairwise_cons.mp hs with ⟨ha, has⟩
          rcases List.pairwise_cons.mp ht with ⟨hy, hys⟩
          by_cases hay : a = y
          · subst hay
            refine List.Sublist.cons₂ a (ih as has hys ?_)
            intro b hb
            have hba : a < b := ha b hb
            have hmem : b ∈ a :: ys := hsub b (List.mem_cons_of_mem a hb)
            rcases List.mem_cons.mp hmem with rfl | h
            · omega
            · assumption
          · have hays : a ∈ ys := by
              rcases List.mem_cons.mp (hsub a (by simp)) with h | h
              · exact absurd h hay
              · exact h
            refine List.Sublist.cons y (ih (a :: as) hs hys ?_)
            intro b hb
            rcases List.mem_cons.mp hb with rfl | hb
            · exact hays
            · have hab : a < b := ha b hb
              have hya : y < a := hy a hays
              have hmem : b ∈ y :: ys := hsub b (List.mem_cons_of_mem a hb)
              rcases List.mem_cons.mp hmem with rfl | h
              · omega
              · assumption

theorem lex_lt_irrefl : ∀ s : List Nat, ¬ List.Lex (· < ·) s s := by
  intro s
  induction s with
  | nil => intro h; cases h
  | cons x xs ih =>
      intro h
      cases h with
      | cons h => exact ih h
      | rel h => omega

theorem pairwise_lex_itertoolsCombinations :
    ∀ (l : List Nat) (r : Nat), l.Pairwise (· < ·) →
      (itertoolsCombinations l r).Pairwise (List.Lex (· < ·)) := by
  intro l
  induction l with
  | nil => intro r _; cases r <;> simp [itertoolsCombinations]
  | cons x xs ih =>
      intro r hl
      rcases List.pairwise_cons.mp hl with ⟨hx, hxs⟩
      cases r with
      | zero => simp [itertoolsCombinations]
      | succ r =>
          simp only [itertoolsCombinations]
          rw [List.pairwise_append]
          refine ⟨?_, ih (r + 1) hxs, ?_⟩
          · rw [List.pairwise_map]
            exact (ih r hxs).imp (fun h => List.Lex.cons h)
          · intro a ha b hb
            rcases List.mem_map.mp ha with ⟨t, _, rfl⟩
            rcases mem_itertoolsCombinations.mp hb with ⟨hsub, hlen⟩
            cases b with
            | nil => simp at hlen
            | cons y t' =>
                exact List.Lex.rel (hx y (hsub.subset (by simp)))

theorem mem_generate_race_combinations {N : Nat} {s : List Nat} :
    s ∈ generate_race_combinations N ↔
      s.Sublist (List.range N) ∧ 1 ≤ s.length := by
  constructor
  · intro hs
    rw [generate_race_combinations, List.mem_flatten] at hs
    obtain ⟨g, hg, hsg⟩ := hs
    rcases List.mem_map.mp hg with ⟨r, _, rfl⟩
    rcases mem_itertoolsCombinations.mp hsg with ⟨hsub, hlen⟩
    exact ⟨hsub, by omega⟩
  · rintro ⟨hsub, hlen⟩
    rw [generate_race_combinations, List.mem_flatten]
    refine ⟨itertoolsCombinations (List.range N) s.length, ?_, ?_⟩
    · refine List.mem_map.mpr ⟨s.length - 1, ?_, ?_⟩
      · refine List.mem_range.mpr ?_
        have hle := hsub.length_le
        simp only [List.length_range] at hle
        omega
      · congr 1
        omega
    · exact mem_itertoolsCombinations.mpr ⟨hsub, rfl⟩

theorem pairwise_subsetOrder_generate (N : Nat) :
    (generate_race_combinations N).Pairwise SubsetOrder := by
  rw [generate_race_combinations, List.pairwise_flatten]
  constructor
  · intro g hg
    rcases List.mem_map.mp hg with ⟨r, _, rfl⟩
    refine List.Pairwise.imp_of_mem ?_
      (pairwise_lex_itertoolsCombinations _ _ (List.pairwise_lt_range N))
    intro a b ha hb hlex
    rcases mem_itertoolsCombinations.mp ha with ⟨_, hla⟩
    rcases mem_itertoolsCombinations.mp hb with ⟨_, hlb⟩
    exact Or.inr ⟨by rw [hla, hlb], hlex⟩
  · rw [List.pairwise_map]
    refine List.Pairwise.imp_of_mem ?_ (List.pairwise_lt_range N)
    intro r1 r2 _ _ hlt x hx y hy
    rcases mem_itertoolsCombinations.mp hx with ⟨_, hlx⟩
    rcases mem_itertoolsCombinations.mp hy with ⟨_, hly⟩
    exact Or.inl (by omega)

theorem nodup_generate_race_combinations (N : Nat) :
    (generate_race_combinations N).Nodup := by
  refine List.Pairwise.imp ?_ (pairwise_subsetOrder_generate N)
  intro a b h
  rintro rfl
  rcases h with h | ⟨_, h⟩
  · omega
  · exact lex_lt_irrefl a h

theorem length_generate_race_combinations (N : Nat) :
    (generate_race_combinations N).length = 2 ^ N - 1 := by
  rw [generate_race_combinations, List.length_flatten, List.map_map]
  have h1 : List.map (List.length ∘ fun r => itertoolsCombinations (List.range N) (r + 1))
        (List.range N)
      = List.map (fun r => N.choose (r + 1)) (List.range N) := by
    apply List.map_congr_left
    intro r _
    simp [length_itertoolsCombinations]
  rw [h1]
  have h2 : ((List.range N).map (fun r => N.choose (r + 1))).sum
      = ∑ i ∈ Finset.range N, N.choose (i + 1) := by
    simp [Finset.sum_range, Finset.range, Multiset.range]
  rw [h2]
  have h3 := Nat.sum_range_choose N
  rw [Finset.sum_range_succ'] at h3
  have hpos : 1 ≤ 2 ^ N := Nat.one_le_two_pow
  simp only [Nat.choose_zero_right] at h3
  omega

/-- C1: for every `N ≥ 0`, `generate_race_combinations N` yields exactly
`2 ^ N - 1` subsets, each a non-empty strictly increasing list of distinct
0-based indices below `N`; every non-empty subset of `{0..N-1}` is produced
exactly once (no duplicates, and every strictly increasing non-empty list of
indices below `N` occurs); the output is grouped by ascending cardinality and
lexicographically ordered within each size group (`SubsetOrder` pairwise);
and `N = 0` yields the empty sequence. -/
theorem C1_generate_race_combinations_enumeration (N : Nat) :
    (generate_race_combinations N).length = 2 ^ N - 1 ∧
    (∀ s ∈ generate_race_combinations N,
        s ≠ [] ∧ s.Pairwise (· < ·) ∧ ∀ i ∈ s, i < N) ∧
    (generate_race_combinations N).Nodup ∧
    (∀ s : List Nat, s ≠ [] → s.Pairwise (· < ·) → (∀ i ∈ s, i < N) →
        s ∈ generate_race_combinations N) ∧
    (generate_race_combinations N).Pairwise SubsetOrder ∧
    generate_race_combinations 0 = [] := by
  refine ⟨length_generate_race_combinations N, ?_,
    nodup_generate_race_combinations N, ?_, pairwise_subsetOrder_generate N, rfl⟩
  · intro s hs
    rcases mem_generate_race_combinations.mp hs with ⟨hsub, hlen⟩
    refine ⟨?_, List.Pairwise.sublist hsub (List.pairwise_lt_range N), ?_⟩
    · rintro rfl
      simp at hlen
    · intro i hi
      exact List.mem_range.mp (hsub.subset hi)
  · intro s hne hpw hbound
    refine mem_generate_race_combinations.mpr ⟨?_, ?_⟩
    · exact sublist_of_pairwise_subset _ _ hpw (List.pairwise_lt_range N)
        (fun a ha => List.mem_range.mpr (hbound a ha))
    · cases s with
      | nil => exact absurd rfl hne
      | cons a as => simp

/-! ## Batching algebra: processGo equals the flat reference -/

theorem except_bind_ok (e : Except PyExc DbState) :
    e.bind Except.ok = e := by
  cases e <;> rfl

theorem except_bind_assoc (e : Except PyExc DbState)
    (f g : DbState → Except PyExc DbState) :
    (e.bind f).bind g = e.bind (fun s => (f s).bind g) := by
  cases e <;> rfl

theorem save_position_results_start (e : Except PyExc DbState)
    (ys : List PositionRow) :
    ys.foldl (fun acc p => acc.bind (fun s => insertPositionRow s p)) e
      = e.bind (fun s => save_position_results s ys) := by
  induction ys generalizing e with
  | nil => cases e <;> rfl
  | cons y ys ih =>
      cases e with
      | ok s => rfl
      | error er =>
          show List.foldl _ (Except.error er) ys = _
          exact ih _

theorem save_position_results_cons (st : DbState) (y : PositionRow)
    (ys : List PositionRow) :
    save_position_results st (y :: ys)
      = (insertPositionRow st y).bind (fun s => save_position_results s ys) := by
  show List.foldl _ (insertPositionRow st y) ys = _
  exact save_position_results_start _ _

theorem save_position_results_append (st : DbState)
    (xs ys : List PositionRow) :
    save_position_results st (xs ++ ys)
      = (save_position_results st xs).bind
          (fun s => save_position_results s ys) := by
  show List.foldl _ _ (xs ++ ys) = _
  rw [List.foldl_append]
  exact save_position_results_start _ _

theorem insertPositionRow_insertChamp (st : DbState) (it : ChampItem)
    (p : PositionRow) :
    insertPositionRow (insertChamp st it) p
      = (insertPositionRow st p).map (fun s => insertChamp s it) := by
  simp only [insertPositionRow, insertChamp]
  split <;> rfl

theorem save_position_results_insertChamp (st : DbState) (it : ChampItem)
    (ys : List PositionRow) :
    save_position_results (insertChamp st it) ys
      = (save_position_results st ys).map (fun s => insertChamp s it) := by
  induction ys generalizing st with
  | nil => rfl
  | cons y ys ih =>
      rw [save_position_results_cons, save_position_results_cons,
        insertPositionRow_insertChamp]
      cases insertPositionRow st y with
      | ok s => exact ih s
      | error e => rfl

theorem posRowsOfBatch_append (startId : Nat)
    (sB : List (List String × List Int)) (pair : List String × List Int) :
    posRowsOfBatch startId (sB ++ [pair])
      = posRowsOfBatch startId sB
          ++ posRowsOfBatch (startId + sB.length) [pair] := by
  simp only [posRowsOfBatch, List.enum_append, List.flatMap_append]
  congr 1

theorem save_to_database_append (st : DbState) (xs : List ChampItem)
    (it : ChampItem) :
    save_to_database st (xs ++ [it])
      = insertChamp (save_to_database st xs) it := by
  simp [save_to_database, List.foldl_append]

theorem applyBatch_single (st : DbState) (it : ChampItem)
    (pair : List String × List Int) (next : Nat) :
    applyBatch st [it] [pair] next
      = (save_position_results st (posRowsOfBatch next [pair])).map
          (fun s => insertChamp s it) := by
  simp only [applyBatch, save_to_database, List.foldl_cons, List.foldl_nil]
  rw [save_position_results_insertChamp]

theorem applyBatch_snoc (st : DbState) (champB : List ChampItem)
    (standB : List (List String × List Int)) (it : ChampItem)
    (pair : List String × List Int) (next : Nat)
    (hlen : champB.length = standB.length) :
    applyBatch st (champB ++ [it]) (standB ++ [pair]) next
      = (applyBatch st champB standB next).bind
          (fun s => applyBatch s [it] [pair] (next + champB.length)) := by
  simp only [applyBatch, save_to_database_append, posRowsOfBatch_append]
  rw [save_position_results_insertChamp, hlen]
  generalize save_to_database st champB = S
  cases hA : save_position_results S (posRowsOfBatch next standB) with
  | error e =>
      have : save_position_results S
          (posRowsOfBatch next standB ++ posRowsOfBatch (next + standB.length) [pair])
          = Except.error e := by
        rw [save_position_results_append, hA]
        rfl
      rw [this]
      rfl
  | ok s =>
      have : save_position_results S
          (posRowsOfBatch next standB ++ posRowsOfBatch (next + standB.length) [pair])
          = save_position_results s (posRowsOfBatch (next + standB.length) [pair]) := by
        rw [save_position_results_append, hA]
        rfl
      rw [this]
      show _ = (applyBatch s [it] [pair] (next + standB.length))
      rw [applyBatch_single]

theorem calculate_standings_length (drivers : List String)
    (scores : List (List Int)) (subset : List Nat) :
    (calculate_standings drivers scores subset).1.length = scores.length ∧
    (calculate_standings drivers scores subset).2.length = scores.length := by
  simp [calculate_standings, subsetScoresOf]

theorem applyBatch_def (st : DbState) (cB : List ChampItem)
    (sB : List (List String × List Int)) (n : Nat) :
    save_position_results (save_to_database st cB) (posRowsOfBatch n sB)
      = applyBatch st cB sB n := rfl

theorem processGo_eq_flat (drivers : List String) (scores : List (List Int))
    (hs : scores ≠ []) :
    ∀ (combos : List (List Nat)) (b i next : Nat) (champB : List ChampItem)
      (standB : List (List String × List Int)) (st : DbState),
      1 ≤ b → champB.length = standB.length →
      processGo b drivers scores combos i next champB standB st
        = (applyBatch st champB standB next).bind
            (fun s => processFlat drivers scores combos
              (next + champB.length) s) := by
  intro combos
  induction combos with
  | nil =>
      intro b i next champB standB st hb hlen
      show (if champB.isEmpty then Except.ok st else _) = _
      by_cases hE : champB.isEmpty
      · have h1 : champB = [] := List.isEmpty_iff.mp hE
        have h2 : standB = [] := by
          rw [h1] at hlen
          exact (List.length_eq_zero.mp hlen.symm)
        subst h1 h2
        rfl
      · simp only [hE, if_false]
        show applyBatch st champB standB next = _
        rw [show (fun s => processFlat drivers scores [] (next + champB.length) s)
            = Except.ok from rfl]
        rw [except_bind_ok]
  | cons subset rest ih =>
      intro b i next champB standB st hb hlen
      have hlen1 := (calculate_standings_length drivers scores subset).1
      show (match (calculate_standings drivers scores subset).1 with
        | [] => _ | w :: _ => _) = _
      cases hsd : (calculate_standings drivers scores subset).1 with
      | nil =>
          rw [hsd] at hlen1
          exact absurd (List.length_eq_zero.mp hlen1.symm) hs
      | cons w tail =>
          have hb0 : ¬ b = 0 := by omega
          simp only [hb0, if_false]
          have hsnoc := applyBatch_snoc st champB standB
            ⟨subset.length, subset.map (· + 1), w :: tail, w,
              (calculate_standings drivers scores subset).2⟩
            (w :: tail, (calculate_standings drivers scores subset).2)
            next hlen
          have hflat : processFlat drivers scores (subset :: rest)
                (next + champB.length)
              = fun s => (applyBatch s
                  [⟨subset.length, subset.map (· + 1), w :: tail, w,
                    (calculate_standings drivers scores subset).2⟩]
                  [(w :: tail, (calculate_standings drivers scores subset).2)]
                  (next + champB.length)).bind
                  (fun s2 => processFlat drivers scores rest
                    (next + champB.length + 1) s2) := by
            funext s
            show (match (calculate_standings drivers scores subset).1 with
              | [] => _ | w :: _ => _) = _
            rw [hsd]
          have ihx : ∀ st2 : DbState,
              processGo b drivers scores rest (i + 1)
                  (next + champB.length + 1) [] [] st2
                = processFlat drivers scores rest
                    (next + champB.length + 1) st2 := by
            intro st2
            rw [ih b (i + 1) (next + champB.length + 1) [] [] st2 hb rfl]
            rfl
          by_cases hmod : (i + 1) % b = 0
          · simp only [hmod, if_true]
            rw [applyBatch_def, hsnoc, except_bind_assoc]
            simp only [hflat, List.length_append, List.length_cons,
              List.length_nil, Nat.zero_add, ← Nat.add_assoc, ihx]
          · simp only [hmod, if_false]
            have hi := ih b (i + 1) next
              (champB ++ [⟨subset.length, subset.map (· + 1), w :: tail, w,
                (calculate_standings drivers scores subset).2⟩])
              (standB ++ [(w :: tail,
                (calculate_standings drivers scores subset).2)])
              st hb (by simp [hlen])
            rw [hi, hsnoc, except_bind_assoc]
            simp only [hflat, List.length_append, List.length_cons,
              List.length_nil, Nat.zero_add, ← Nat.add_assoc]

theorem processArrays_eq_flat (drivers : List String)
    (scores : List (List Int)) (numRaces b : Nat) (st : DbState)
    (hb : 1 ≤ b) (hs : scores ≠ []) :
    processArrays drivers scores numRaces b st
      = processFlat drivers scores (generate_race_combinations numRaces)
          (maxChampId st.championship_results + 1) st := by
  show processGo b drivers scores (generate_race_combinations numRaces) 0
      (maxChampId st.championship_results + 1) [] [] st = _
  rw [processGo_eq_flat drivers scores hs (generate_race_combinations numRaces)
    b 0 (maxChampId st.championship_results + 1) [] [] st hb rfl]
  rfl

theorem processGo_nil_scores (drivers : List String) (b i next : Nat)
    (st : DbState) :
    ∀ combos : List (List Nat),
      processGo b drivers [] combos i next [] [] st
        = match combos with
          | [] => .ok st
          | _ :: _ => .error .IndexError := by
  intro combos
  cases combos with
  | nil => rfl
  | cons s rest => rfl

/-- C10: the persisted result of `process_data` does not depend on the
batch size: for any two batch sizes at least 1 and any input and starting
storage state, the two runs produce identical results (same rows, same
order, same championship-id assignment); batching only changes when rows
are flushed. -/
theorem C10_batching_invariance (src : SourceFile) (b1 b2 : Nat)
    (st : DbState) (h1 : 1 ≤ b1) (h2 : 1 ≤ b2) :
    process_data src b1 st = process_data src b2 st := by
  cases src with
  | missing => rfl
  | emptyFile => rfl
  | table t =>
      show processArrays (read_csv t).1 (read_csv t).2 (t.header.length - 1)
          b1 st
        = processArrays (read_csv t).1 (read_csv t).2 (t.header.length - 1)
          b2 st
      by_cases hsc : (read_csv t).2 = []
      · rw [hsc]
        show processGo b1 _ [] _ 0 _ [] [] st = processGo b2 _ [] _ 0 _ [] [] st
        rw [processGo_nil_scores, processGo_nil_scores]
      · rw [processArrays_eq_flat _ _ _ _ _ h1 hsc,
          processArrays_eq_flat _ _ _ _ _ h2 hsc]

/-- Witness for C10 at a concrete input and two concrete batch sizes. -/
theorem C10_batching_invariance_witness :
    process_data (.table scenarioA) 1 freshDb
      = process_data (.table scenarioA) 3 freshDb :=
  C10_batching_invariance (.table scenarioA) 1 3 freshDb
    (by decide) (by decide)

/-! ## Position-table invariant machinery (towards C4) -/

theorem insertPositionRow_ok (S S1 : DbState) (p : PositionRow)
    (h : insertPositionRow S p = .ok S1) :
    S1 = { S with position_results := S.position_results ++ [p] } ∧
    ∀ q ∈ S.position_results,
      ¬(q.championship_id = p.championship_id ∧
        q.driver_code = p.driver_code) := by
  unfold insertPositionRow at h
  split at h
  · cases h
  · next hc =>
      refine ⟨(Except.ok.inj h).symm, ?_⟩
      intro q hq hkey
      apply hc
      rw [List.any_eq_true]
      exact ⟨q, hq, by simp [hkey.1, hkey.2]⟩

theorem save_position_results_ok_state :
    ∀ (rows : List PositionRow) (S S2 : DbState),
      save_position_results S rows = .ok S2 →
      S2 = { S with position_results := S.position_results ++ rows } := by
  intro rows
  induction rows with
  | nil =>
      intro S S2 h
      have h2 := Except.ok.inj h
      rw [← h2]
      simp
  | cons y ys ih =>
      intro S S2 h
      rw [save_position_results_cons] at h
      cases hy : insertPositionRow S y with
      | error e => rw [hy] at h; cases h
      | ok S1 =>
          rw [hy] at h
          have h1 := (insertPositionRow_ok S S1 y hy).1
          have h2 := ih S1 S2 h
          rw [h2, h1]
          simp

theorem save_position_results_ok_conflict_free :
    ∀ (rows : List PositionRow) (S S2 : DbState),
      save_position_results S rows = .ok S2 →
      ∀ q ∈ rows, ∀ p ∈ S.position_results,
        ¬(p.championship_id = q.championship_id ∧
          p.driver_code = q.driver_code) := by
  intro rows
  induction rows with
  | nil =>
      intro S S2 _ q hq
      cases hq
  | cons y ys ih =>
      intro S S2 h q hq p hp
      rw [save_position_results_cons] at h
      cases hy : insertPositionRow S y with
      | error e => rw [hy] at h; cases h
      | ok S1 =>
          rw [hy] at h
          obtain ⟨hS1, hfree⟩ := insertPositionRow_ok S S1 y hy
          rcases List.mem_cons.mp hq with rfl | hq2
          · exact hfree p hp
          · exact ih S1 S2 h q hq2 p
              (by rw [hS1]; exact List.mem_append_left _ hp)

theorem save_position_results_ok_pairwise :
    ∀ (rows : List PositionRow) (S S2 : DbState),
      save_position_results S rows = .ok S2 →
      rows.Pairwise (fun p q =>
        ¬(p.championship_id = q.championship_id ∧
          p.driver_code = q.driver_code)) := by
  intro rows
  induction rows with
  | nil => intro S S2 _; exact List.Pairwise.nil
  | cons y ys ih =>
      intro S S2 h
      rw [save_position_results_cons] at h
      cases hy : insertPositionRow S y with
      | error e => rw [hy] at h; cases h
      | ok S1 =>
          rw [hy] at h
          obtain ⟨hS1, _⟩ := insertPositionRow_ok S S1 y hy
          refine List.pairwise_cons.mpr ⟨?_, ih S1 S2 h⟩
          intro q hq
          exact save_position_results_ok_conflict_free ys S1 S2 h q hq y
            (by rw [hS1]; exact List.mem_append_right _ (by simp))

theorem posRowsOfBatch_single (next : Nat) (sd : List String)
    (ss : List Int) :
    posRowsOfBatch next [(sd, ss)]
      = (sd.zip ss).enum.map (fun pe =>
          ⟨next, pe.2.1, pe.1 + 1, pe.2.2, defaultSeason⟩) := by
  simp [posRowsOfBatch, List.enum]

theorem enumFrom_map_pos {α : Type} :
    ∀ (z : List α) (n : Nat),
      (List.enumFrom n z).map (fun pe => pe.1 + 1)
        = List.range' (n + 1) z.length := by
  intro z
  induction z with
  | nil => intro n; rfl
  | cons a l ih =>
      intro n
      show (n + 1) :: (List.enumFrom (n + 1) l).map (fun pe => pe.1 + 1) = _
      rw [ih (n + 1), List.length_cons, List.range'_succ]

theorem enumFrom_fst_ge {α : Type} :
    ∀ (z : List α) (n : Nat), ∀ pe ∈ List.enumFrom n z, n ≤ pe.1 := by
  intro z
  induction z with
  | nil => intro n pe hpe; cases hpe
  | cons a l ih =>
      intro n pe hpe
      rcases List.mem_cons.mp hpe with rfl | hpe2
      · exact Nat.le_refl n
      · exact Nat.le_of_succ_le (ih (n + 1) pe hpe2)

theorem enumFrom_zip_snd :
    ∀ (sd : List String) (ss : List Int) (n : Nat),
      ∀ pe ∈ List.enumFrom n (sd.zip ss), pe.2.2 = ss.getD (pe.1 - n) 0 := by
  intro sd
  induction sd with
  | nil => intro ss n pe hpe; cases hpe
  | cons a sd ih =>
      intro ss n pe hpe
      cases ss with
      | nil => cases hpe
      | cons b ss =>
          rcases List.mem_cons.mp hpe with rfl | hpe2
          · simp
          · have hge := enumFrom_fst_ge _ (n + 1) pe hpe2
            have := ih ss (n + 1) pe hpe2
            rw [this]
            have hsub : pe.1 - n = (pe.1 - (n + 1)) + 1 := by omega
            rw [hsub]
            rfl

theorem GoodChamp_congr (st1 st2 : DbState) (c : ChampionshipRow)
    (h : championPositions st2 c = championPositions st1 c)
    (hg : GoodChamp st1 c) : GoodChamp st2 c := by
  unfold GoodChamp at *
  rw [h]
  exact hg

theorem applyOne_ok_invariants (st Smid : DbState) (item : ChampItem)
    (next n : Nat)
    (hnext : next = st.champSeq + 1)
    (hcid : ∀ c ∈ st.championship_results, c.championship_id ≤ st.champSeq)
    (hpid : ∀ p ∈ st.position_results, p.championship_id ≤ st.champSeq)
    (hgood : ∀ c ∈ st.championship_results,
      GoodChamp st c ∧ c.standings.length = n)
    (hi1 : item.standings.length = n) (hi2 : item.points.length = n)
    (hA : applyBatch st [item] [(item.standings, item.points)] next
      = .ok Smid) :
    (next + 1 = Smid.champSeq + 1) ∧
    (∀ c ∈ Smid.championship_results, c.championship_id ≤ Smid.champSeq) ∧
    (∀ p ∈ Smid.position_results, p.championship_id ≤ Smid.champSeq) ∧
    (∀ c ∈ Smid.championship_results,
      GoodChamp Smid c ∧ c.standings.length = n) := by
  have hA2 : save_position_results (insertChamp st item)
      (posRowsOfBatch next [(item.standings, item.points)]) = .ok Smid := hA
  rw [posRowsOfBatch_single] at hA2
  have hstate := save_position_results_ok_state _ _ _ hA2
  have hpairw := save_position_results_ok_pairwise _ _ _ hA2
  have hrowsid : ∀ p ∈ (item.standings.zip item.points).enum.map
      (fun pe => (⟨next, pe.2.1, pe.1 + 1, pe.2.2, defaultSeason⟩ :
        PositionRow)), p.championship_id = next := by
    intro p hp
    rcases List.mem_map.mp hp with ⟨pe, _, rfl⟩
    rfl
  have hSmidpos : Smid.position_results
      = st.position_results ++ (item.standings.zip item.points).enum.map
          (fun pe => ⟨next, pe.2.1, pe.1 + 1, pe.2.2, defaultSeason⟩) := by
    rw [hstate]
    rfl
  have hSmidch : Smid.championship_results
      = st.championship_results ++
          [⟨st.champSeq + 1, defaultSeason, item.num_races, item.rounds,
            item.standings, item.winner, item.points⟩] := by
    rw [hstate]
    rfl
  have hSmidseq : Smid.champSeq = st.champSeq + 1 := by
    rw [hstate]
    rfl
  have hzlen : (item.standings.zip item.points).length
      = item.standings.length := by
    rw [List.length_zip, hi1, hi2]
    exact Nat.min_self n
  refine ⟨by omega, ?_, ?_, ?_⟩
  · intro c hc
    rw [hSmidch] at hc
    rw [hSmidseq]
    rcases List.mem_append.mp hc with hc | hc
    · exact Nat.le_succ_of_le (hcid c hc)
    · rcases List.mem_singleton.mp hc with rfl
      exact Nat.le_refl _
  · intro p hp
    rw [hSmidpos] at hp
    rw [hSmidseq]
    rcases List.mem_append.mp hp with hp | hp
    · exact Nat.le_succ_of_le (hpid p hp)
    · rw [hrowsid p hp, hnext]
  · intro c hc
    rw [hSmidch] at hc
    rcases List.mem_append.mp hc with hc | hc
    · have hfilter : championPositions Smid c = championPositions st c := by
        unfold championPositions
        rw [hSmidpos, List.filter_append]
        have hnil : ((item.standings.zip item.points).enum.map
            (fun pe => (⟨next, pe.2.1, pe.1 + 1, pe.2.2, defaultSeason⟩ :
              PositionRow))).filter
            (fun p => p.championship_id == c.championship_id) = [] := by
          rw [List.filter_eq_nil_iff]
          intro p hp
          rw [hrowsid p hp]
          have := hcid c hc
          simp only [beq_iff_eq]
          omega
        rw [hnil, List.append_nil]
      exact ⟨GoodChamp_congr st Smid c hfilter (hgood c hc).1,
        (hgood c hc).2⟩
    · rcases List.mem_singleton.mp hc with rfl
      have hfilter : championPositions Smid
          ⟨st.champSeq + 1, defaultSeason, item.num_races, item.rounds,
            item.standings, item.winner, item.points⟩
          = (item.standings.zip item.points).enum.map
              (fun pe => ⟨next, pe.2.1, pe.1 + 1, pe.2.2, defaultSeason⟩) := by
        unfold championPositions
        rw [hSmidpos, List.filter_append]
        have hnil : st.position_results.filter
            (fun p => p.championship_id == st.champSeq + 1) = [] := by
          rw [List.filter_eq_nil_iff]
          intro p hp
          have := hpid p hp
          simp only [beq_iff_eq]
          omega
        have hall : ((item.standings.zip item.points).enum.map
            (fun pe => (⟨next, pe.2.1, pe.1 + 1, pe.2.2, defaultSeason⟩ :
              PositionRow))).filter
            (fun p => p.championship_id == st.champSeq + 1)
            = (item.standings.zip item.points).enum.map
              (fun pe => ⟨next, pe.2.1, pe.1 + 1, pe.2.2, defaultSeason⟩) := by
          rw [List.filter_eq_self]
          intro p hp
          rw [hrowsid p hp, hnext]
          simp
        rw [hnil, hall, List.nil_append]
      constructor
      · refine ⟨?_, ?_, ?_, ?_⟩
        · rw [hfilter, List.length_map, List.enum_length]
          exact hzlen
        · rw [hfilter, List.map_map]
          show ((item.standings.zip item.points).enum.map
            (fun pe => pe.1 + 1)) = _
          show (List.enumFrom 0 (item.standings.zip item.points)).map
            (fun pe => pe.1 + 1) = _
          rw [enumFrom_map_pos]
          rw [hzlen]
        · rw [hfilter]
          have hpd : List.Pairwise
              (fun p q : PositionRow => p.driver_code ≠ q.driver_code)
              ((item.standings.zip item.points).enum.map
                (fun pe => ⟨next, pe.2.1, pe.1 + 1, pe.2.2, defaultSeason⟩)) := by
            refine List.Pairwise.imp_of_mem ?_ hpairw
            intro p q hp hq hnk hdc
            exact hnk ⟨by rw [hrowsid p hp, hrowsid q hq], hdc⟩
          exact List.pairwise_map.mpr hpd
        · rw [hfilter]
          intro p hp
          rcases List.mem_map.mp hp with ⟨pe, hpe, rfl⟩
          show pe.2.2 = item.points.getD (pe.1 + 1 - 1) 0
          have hsnd := enumFrom_zip_snd item.standings item.points 0 pe hpe
          simp only [Nat.add_sub_cancel]
          simpa using hsnd
      · exact hi1

theorem processFlat_preserves (drivers : List String)
    (scores : List (List Int)) :
    ∀ (combos : List (List Nat)) (next : Nat) (st st2 : DbState),
      processFlat drivers scores combos next st = .ok st2 →
      next = st.champSeq + 1 →
      (∀ c ∈ st.championship_results, c.championship_id ≤ st.champSeq) →
      (∀ p ∈ st.position_results, p.championship_id ≤ st.champSeq) →
      (∀ c ∈ st.championship_results,
        GoodChamp st c ∧ c.standings.length = scores.length) →
      ∀ c ∈ st2.championship_results,
        GoodChamp st2 c ∧ c.standings.length = scores.length := by
  intro combos
  induction combos with
  | nil =>
      intro next st st2 h _ _ _ hgood
      have h2 := Except.ok.inj h
      rw [← h2]
      exact hgood
  | cons subset rest ih =>
      intro next st st2 h hnext hcid hpid hgood
      cases hsd : (calculate_standings drivers scores subset).1 with
      | nil =>
          have hstep : processFlat drivers scores (subset :: rest) next st
              = .error .IndexError := by
            show (match (calculate_standings drivers scores subset).1 with
              | [] => _ | w :: _ => _) = _
            rw [hsd]
          rw [hstep] at h
          cases h
      | cons w tail =>
          have hstep : processFlat drivers scores (subset :: rest) next st
              = (applyBatch st
                  [⟨subset.length, subset.map (· + 1), w :: tail, w,
                    (calculate_standings drivers scores subset).2⟩]
                  [(w :: tail,
                    (calculate_standings drivers scores subset).2)] next).bind
                  (fun s2 => processFlat drivers scores rest (next + 1) s2) := by
            show (match (calculate_standings drivers scores subset).1 with
              | [] => _ | w :: _ => _) = _
            rw [hsd]
          rw [hstep] at h
          cases hA : applyBatch st
              [⟨subset.length, subset.map (· + 1), w :: tail, w,
                (calculate_standings drivers scores subset).2⟩]
              [(w :: tail,
                (calculate_standings drivers scores subset).2)] next with
          | error e =>
              rw [hA] at h
              exact Except.noConfusion h
          | ok Smid =>
              rw [hA] at h
              have h2 : processFlat drivers scores rest (next + 1) Smid
                  = .ok st2 := h
              have hitem1 : ((⟨subset.length, subset.map (· + 1), w :: tail, w,
                  (calculate_standings drivers scores subset).2⟩ :
                    ChampItem)).standings.length = scores.length := by
                show (w :: tail).length = scores.length
                rw [← hsd]
                exact (calculate_standings_length drivers scores subset).1
              have hitem2 : ((⟨subset.length, subset.map (· + 1), w :: tail, w,
                  (calculate_standings drivers scores subset).2⟩ :
                    ChampItem)).points.length = scores.length :=
                (calculate_standings_length drivers scores subset).2
              have hinv := applyOne_ok_invariants st Smid
                ⟨subset.length, subset.map (· + 1), w :: tail, w,
                  (calculate_standings drivers scores subset).2⟩
                next scores.length hnext hcid hpid hgood hitem1 hitem2 hA
              exact ih (next + 1) Smid st2 h2 hinv.1 hinv.2.1 hinv.2.2.1
                hinv.2.2.2

theorem processArrays_nil_scores (drivers : List String)
    (numRaces b : Nat) (st : DbState) :
    processArrays drivers [] numRaces b st
      = match generate_race_combinations numRaces with
        | [] => .ok st
        | _ :: _ => .error .IndexError := by
  show processGo b drivers [] (generate_race_combinations numRaces) 0 _
    [] [] st = _
  rw [processGo_nil_scores]

theorem processGo_zero_batch (drivers : List String)
    (scores : List (List Int)) (s : List Nat) (rest : List (List Nat))
    (i next : Nat) (st : DbState) (st2 : DbState) :
    processGo 0 drivers scores (s :: rest) i next [] [] st ≠ .ok st2 := by
  intro h
  cases hsd : (calculate_standings drivers scores s).1 with
  | nil =>
      have hstep : processGo 0 drivers scores (s :: rest) i next [] [] st
          = .error .IndexError := by
        show (match (calculate_standings drivers scores s).1 with
          | [] => _ | w :: _ => _) = _
        rw [hsd]
      rw [hstep] at h
      cases h
  | cons w tail =>
      have hstep : processGo 0 drivers scores (s :: rest) i next [] [] st
          = .error .ZeroDivisionError := by
        show (match (calculate_standings drivers scores s).1 with
          | [] => _ | w :: _ => _) = _
        rw [hsd]
        rfl
      rw [hstep] at h
      cases h

/-- C4: after a completed run of the persistence pass on a fresh database,
every persisted Championship Record has exactly `num_drivers` Position
Records carrying its championship id, with positions exactly
`1..num_drivers`, no driver code twice, and each Position Record's points
equal to the championship's points entry at `position - 1`. -/
theorem C4_position_records (drivers : List String)
    (scores : List (List Int)) (numRaces b : Nat) (st : DbState)
    (hds : scores.length = drivers.length)
    (hok : processArrays drivers scores numRaces b freshDb = .ok st) :
    ∀ c ∈ st.championship_results,
      (championPositions st c).length = drivers.length ∧
      (championPositions st c).map (fun p => p.position)
        = List.range' 1 drivers.length ∧
      ((championPositions st c).map (fun p => p.driver_code)).Nodup ∧
      ∀ p ∈ championPositions st c,
        p.points = c.points.getD (p.position - 1) 0 := by
  by_cases hsc : scores = []
  · subst hsc
    rw [processArrays_nil_scores] at hok
    cases hg : generate_race_combinations numRaces with
    | nil =>
        rw [hg] at hok
        have h2 := Except.ok.inj hok
        rw [← h2]
        intro c hc
        cases hc
    | cons s rest =>
        rw [hg] at hok
        cases hok
  · by_cases hb : 1 ≤ b
    · rw [processArrays_eq_flat _ _ _ _ _ hb hsc] at hok
      have hmain := processFlat_preserves drivers scores
        (generate_race_combinations numRaces)
        (maxChampId freshDb.championship_results + 1) freshDb st hok rfl
        (by intro c hc; cases hc) (by intro p hp; cases hp)
        (by intro c hc; cases hc)
      intro c hc
      obtain ⟨⟨h1, h2, h3, h4⟩, h5⟩ := hmain c hc
      rw [h5, hds] at h1 h2
      exact ⟨h1, h2, h3, h4⟩
    · have hb0 : b = 0 := by omega
      subst hb0
      cases hg : generate_race_combinations numRaces with
      | nil =>
          have hzero : processArrays drivers scores numRaces 0 freshDb
              = .ok freshDb := by
            show processGo 0 drivers scores
              (generate_race_combinations numRaces) 0 _ [] [] freshDb = _
            rw [hg]
            rfl
          rw [hzero] at hok
          have h2 := Except.ok.inj hok
          rw [← h2]
          intro c hc
          cases hc
      | cons s rest =>
          exfalso
          have hform : processArrays drivers scores numRaces 0 freshDb
              = processGo 0 drivers scores (s :: rest) 0
                  (maxChampId freshDb.championship_results + 1) [] []
                  freshDb := by
            show processGo 0 _ _ (generate_race_combinations numRaces) _ _
              [] [] _ = _
            rw [hg]
          rw [hform] at hok
          exact processGo_zero_batch drivers scores s rest 0 _ freshDb st hok

/-- Witness for C4 at Scenario A's full-season championship record. -/
theorem C4_position_records_witness :
    (championPositions scenarioAState c3A).length = 3 ∧
    (championPositions scenarioAState c3A).map (fun p => p.position)
      = [1, 2, 3] ∧
    ((championPositions scenarioAState c3A).map
      (fun p => p.driver_code)).Nodup ∧
    ∀ p ∈ championPositions scenarioAState c3A,
      p.points = c3A.points.getD (p.position - 1) 0 :=
  C4_position_records (read_csv scenarioA).1 (read_csv scenarioA).2 2 100000
    scenarioAState rfl (by decide) c3A (by decide)

/-! ## C7: Scenario A end to end -/

/-- C7: on drivers `[VER, NOR, LEC]` with race points `VER=[25,18]`,
`NOR=[18,25]`, `LEC=[15,15]`, the pipeline produces exactly the three
championship scenarios: rounds `[1]` with standings VER, NOR, LEC and
points 25, 18, 15 (winner VER); rounds `[2]` with standings NOR, VER, LEC
and points 25, 18, 15 (winner NOR); rounds `[1, 2]` with standings VER,
NOR, LEC and points 43, 43, 30 — the 43-point tie broken with VER before
NOR — winner VER. -/
theorem C7_scenario_A_pipeline :
    process_data (.table scenarioA) 100000 freshDb =
      .ok { championship_results :=
              [⟨1, 2025, 1, [1], ["VER", "NOR", "LEC"], "VER", [25, 18, 15]⟩,
               ⟨2, 2025, 1, [2], ["NOR", "VER", "LEC"], "NOR", [25, 18, 15]⟩,
               ⟨3, 2025, 2, [1, 2], ["VER", "NOR", "LEC"], "VER",
                 [43, 43, 30]⟩]
            position_results :=
              [⟨1, "VER", 1, 25, 2025⟩, ⟨1, "NOR", 2, 18, 2025⟩,
               ⟨1, "LEC", 3, 15, 2025⟩, ⟨2, "NOR", 1, 25, 2025⟩,
               ⟨2, "VER", 2, 18, 2025⟩, ⟨2, "LEC", 3, 15, 2025⟩,
               ⟨3, "VER", 1, 43, 2025⟩, ⟨3, "NOR", 2, 43, 2025⟩,
               ⟨3, "LEC", 3, 30, 2025⟩]
            driver_statistics := []
            win_probability_cache := []
            champSeq := 3 } := by
  decide

/-! ## C8: aggregation with no data -/

/-- C8: invoked for a season with zero championship records, the
aggregation pass reports the no-data warning, performs no writes and
returns cleanly: the state comes back unchanged with the warning flag. -/
theorem C8_no_data_aggregation (st : DbState) (season : Nat)
    (h : st.championship_results.filter (fun c => c.season == season) = []) :
    compute_stats_for_season st season = (st, true) := by
  unfold compute_stats_for_season
  rw [h]

/-- Witness for C8 at a concrete empty database. -/
theorem C8_no_data_aggregation_witness :
    compute_stats_for_season freshDb 2025 = (freshDb, true) :=
  C8_no_data_aggregation freshDb 2025 rfl

/-! ## C6: determinism of the re-run after clearing -/

/-- Counterexample to C6 as stated: clearing the prior output of the data
scope with `clear_season_data` (a `DELETE FROM`) does not reset the
AUTOINCREMENT sequence, so re-running the identical one-driver input
assigns championship_id 2 instead of 1 — the reproduced Championship table
differs from the first run's, and the re-run's Position table references
championship_id 1 while its Championship table holds id 2. -/
theorem C6_counterexample_delete_clear :
    oneDriverRun1 =
      .ok { championship_results := [⟨1, 2025, 1, [1], ["A"], "A", [1]⟩]
            position_results := [⟨1, "A", 1, 1, 2025⟩]
            driver_statistics := []
            win_probability_cache := []
            champSeq := 1 } ∧
    oneDriverRun2 =
      .ok { championship_results := [⟨2, 2025, 1, [1], ["A"], "A", [1]⟩]
            position_results := [⟨1, "A", 1, 1, 2025⟩]
            driver_statistics := []
            win_probability_cache := []
            champSeq := 2 } ∧
    oneDriverRun1 ≠ oneDriverRun2 := by
  refine ⟨by decide, by decide, by decide⟩

/-- C6 amended: the pipeline is a pure function of its input, so re-running
the full process on identical input after clearing all prior output by
deleting the database file (`init_db --clear`, which also resets the
AUTOINCREMENT sequence) reproduces Championship and Position tables
identical to a run from a fresh database, assigned championship_id values
included.  (Clearing with `DELETE FROM` instead preserves the sequence and
shifts the ids: see the counterexample.) -/
theorem C6_amended_file_clear_determinism (src : SourceFile) (b : Nat)
    (st : DbState) :
    process_data src b (init_db_clear st) = process_data src b freshDb := rfl

/-! ## C9: loader failure behaviour -/

/-- Counterexample to C9 as stated: a source table with zero data rows does
not make the Input Loader fail — `read_csv` returns empty arrays — and a
missing (unreadable) source file makes `process_data` return cleanly with a
message rather than fail; the eventual failure on a zero-row table with one
race column is an `IndexError` at winner extraction, not a loader error. -/
theorem C9_zero_rows_load_cleanly :
    read_csv ⟨["Driver", "1"], []⟩ = ([], []) ∧
    process_data .missing 100000 freshDb = .ok freshDb ∧
    process_data (.table ⟨["Driver", "1"], []⟩) 100000 freshDb =
      .error .IndexError := by
  refine ⟨rfl, rfl, by decide⟩

/-- C9 amended: there is no `InputError` in the code.  A missing source
file returns cleanly with no writes; a completely empty file propagates
pandas' `EmptyDataError` before any write; a header-only table (zero data
rows) loads into empty arrays without failing, and processing then raises
`IndexError` at winner extraction (before any row is committed) whenever at
least one race column exists.  In every case the tables are untouched. -/
theorem C9_loader_failure_modes (hdr : List String) (st : DbState) (b : Nat)
    (h : 2 ≤ hdr.length) :
    process_data .missing b st = .ok st ∧
    process_data .emptyFile b st = .error .EmptyDataError ∧
    read_csv ⟨hdr, []⟩ = ([], []) ∧
    process_data (.table ⟨hdr, []⟩) b st = .error .IndexError := by
  refine ⟨rfl, rfl, rfl, ?_⟩
  show processArrays [] [] (hdr.length - 1) b st = .error .IndexError
  obtain ⟨s, rest, hgen⟩ :
      ∃ s rest, generate_race_combinations (hdr.length - 1) = s :: rest := by
    have hlen := length_generate_race_combinations (hdr.length - 1)
    cases hg : generate_race_combinations (hdr.length - 1) with
    | nil =>
        rw [hg] at hlen
        have h1 : 1 ≤ hdr.length - 1 := by omega
        have h2 : 1 < 2 ^ (hdr.length - 1) := by
          calc 1 < 2 ^ 1 := by norm_num
          _ ≤ 2 ^ (hdr.length - 1) := Nat.pow_le_pow_right (by norm_num) h1
        simp at hlen
        omega
    | cons s rest => exact ⟨s, rest, rfl⟩
  rw [processArrays, hgen]
  simp [processGo, calculate_standings, subsetScoresOf]

/-- Witness for C9 amended at a concrete header and database. -/
theorem C9_loader_failure_modes_witness :
    process_data .missing 100000 freshDb = .ok freshDb ∧
    process_data .emptyFile 100000 freshDb = .error .EmptyDataError ∧
    read_csv ⟨["Driver", "1"], []⟩ = ([], []) ∧
    process_data (.table ⟨["Driver", "1"], []⟩) 100000 freshDb =
      .error .IndexError :=
  C9_loader_failure_modes ["Driver", "1"] freshDb 100000 (by decide)

/-! ## Introsort verification, part 1: slot permutations

Every phase of the modelled `aquicksort_`/`aheapsort_` only permutes the
contents of the slot segment it works on.  `SegPerm pl pr a b` captures
this; the lemmas below establish it for every loop of the model. -/

theorem segPerm_refl (pl pr : Nat) (a : Nat → Nat) : SegPerm pl pr a a :=
  ⟨id, Function.bijective_id, fun _ _ => rfl, fun _ => rfl⟩

theorem segPerm_trans {pl pr : Nat} {a b c : Nat → Nat}
    (h1 : SegPerm pl pr a b) (h2 : SegPerm pl pr b c) : SegPerm pl pr a c := by
  obtain ⟨p1, hb1, hf1, he1⟩ := h1
  obtain ⟨p2, hb2, hf2, he2⟩ := h2
  refine ⟨p1 ∘ p2, hb1.comp hb2, ?_, ?_⟩
  · intro k hk
    show p1 (p2 k) = k
    rw [hf2 k hk, hf1 k hk]
  · intro k
    show c k = a (p1 (p2 k))
    rw [he2 k, he1 (p2 k)]

theorem segPerm_mono {pl pr pl' pr' : Nat} {a b : Nat → Nat}
    (h : SegPerm pl pr a b) (h1 : pl' ≤ pl) (h2 : pr ≤ pr') :
    SegPerm pl' pr' a b := by
  obtain ⟨π, hb, hf, he⟩ := h
  exact ⟨π, hb, fun k hk => hf k (by omega), he⟩

theorem swapFn_involutive (i j : Nat) : Function.Involutive (swapFn i j) := by
  intro k
  unfold swapFn
  by_cases h1 : k = i
  · by_cases h2 : j = i <;> simp [h1, h2]
  · by_cases h2 : k = j
    · simp [h1, h2]
    · simp [h1, h2]

theorem aswap_eq_comp (a : Nat → Nat) (i j : Nat) :
    aswap a i j = fun k => a (swapFn i j k) := by
  funext k
  unfold aswap swapFn
  split_ifs <;> rfl

theorem segPerm_aswap (pl pr : Nat) (a : Nat → Nat) (i j : Nat)
    (hi1 : pl ≤ i) (hi2 : i ≤ pr) (hj1 : pl ≤ j) (hj2 : j ≤ pr) :
    SegPerm pl pr a (aswap a i j) := by
  refine ⟨swapFn i j, (swapFn_involutive i j).bijective, ?_, ?_⟩
  · intro k hk
    unfold swapFn
    rw [if_neg (by omega), if_neg (by omega)]
  · intro k
    rw [aswap_eq_comp]

theorem segPerm_outside {pl pr : Nat} {a b : Nat → Nat}
    (h : SegPerm pl pr a b) : ∀ k, k < pl ∨ pr < k → b k = a k := by
  obtain ⟨π, _, hf, he⟩ := h
  intro k hk
  rw [he k, hf k hk]

theorem segPerm_inside {pl pr : Nat} {a b : Nat → Nat}
    (h : SegPerm pl pr a b) :
    ∀ k, pl ≤ k → k ≤ pr → ∃ m, pl ≤ m ∧ m ≤ pr ∧ b k = a m := by
  obtain ⟨π, hb, hf, he⟩ := h
  intro k h1 h2
  by_cases hin : pl ≤ π k ∧ π k ≤ pr
  · exact ⟨π k, hin.1, hin.2, he k⟩
  · exfalso
    have hout : π k < pl ∨ pr < π k := by omega
    have hfix := hf (π k) hout
    have := hb.injective hfix
    omega

theorem segPerm_forall_seg {pl pr : Nat} {a b : Nat → Nat}
    (v : Nat → Int) (P : Int → Prop) (h : SegPerm pl pr a b)
    (hall : ∀ k, pl ≤ k → k ≤ pr → P (v (a k))) :
    ∀ k, pl ≤ k → k ≤ pr → P (v (b k)) := by
  intro k h1 h2
  obtain ⟨m, hm1, hm2, he⟩ := segPerm_inside h k h1 h2
  rw [he]
  exact hall m hm1 hm2

theorem setAt_self (a : Nat → Nat) (p : Nat) : setAt a p (a p) = a := by
  funext k
  unfold setAt
  split_ifs with h
  · rw [h]
  · rfl

theorem segPerm_comp_swap (pl pr : Nat) (a : Nat → Nat) (p q : Nat)
    (hp1 : pl ≤ p) (hp2 : p ≤ pr) (hq1 : pl ≤ q) (hq2 : q ≤ pr) :
    SegPerm pl pr a (fun k => a (swapFn p q k)) := by
  refine ⟨swapFn p q, (swapFn_involutive p q).bijective, ?_, fun _ => rfl⟩
  intro k hk
  unfold swapFn
  rw [if_neg (by omega), if_neg (by omega)]

theorem setAt_hole_swap (a : Nat → Nat) (p q : Nat) (x : Nat) (_ : p ≠ q) :
    setAt (setAt a p (a q)) q x = fun k => (setAt a p x) (swapFn p q k) := by
  funext k
  unfold setAt swapFn
  split_ifs <;> first | rfl | omega

theorem setAt_setAt_swap (a : Nat → Nat) (p q : Nat) (_ : p ≠ q) :
    setAt (setAt a q (a p)) p (a q) = aswap a p q := by
  funext k
  unfold setAt aswap
  split_ifs <;> first | rfl | omega

theorem insShift_segPerm (v : Nat → Int) (vi pl pr : Nat) :
    ∀ (fuel : Nat) (a : Nat → Nat) (pj : Nat), pj ≤ pr →
      SegPerm pl pr (setAt a pj vi) (insShift v vi pl a pj fuel) := by
  intro fuel
  induction fuel with
  | zero =>
      intro a pj _
      exact segPerm_refl pl pr (setAt a pj vi)
  | succ fuel ih =>
      intro a pj hpj
      show SegPerm pl pr _
        (if pl < pj ∧ v vi < v (a (pj - 1)) then _ else _)
      split_ifs with hc
      · have hne : pj ≠ pj - 1 := by omega
        have hstep := segPerm_comp_swap pl pr (setAt a pj vi) pj (pj - 1)
          (by omega) hpj (by omega) (by omega)
        rw [← setAt_hole_swap a pj (pj - 1) vi hne] at hstep
        exact segPerm_trans hstep
          (ih (setAt a pj (a (pj - 1))) (pj - 1) (by omega))
      · exact segPerm_refl pl pr (setAt a pj vi)

theorem insSortGo_segPerm (v : Nat → Int) (pl pr : Nat) :
    ∀ (fuel : Nat) (a : Nat → Nat) (pi : Nat),
      SegPerm pl pr a (insSortGo v pl pr a pi fuel) := by
  intro fuel
  induction fuel with
  | zero => intro a pi; exact segPerm_refl pl pr a
  | succ fuel ih =>
      intro a pi
      show SegPerm pl pr a (if pi ≤ pr then _ else _)
      split_ifs with hc
      · refine segPerm_trans ?_ (ih (insShift v (a pi) pl a pi (pi - pl)) (pi + 1))
        have := insShift_segPerm v (a pi) pl pr (pi - pl) a pi hc
        rw [setAt_self] at this
        exact this
      · exact segPerm_refl pl pr a

theorem insSortSeg_segPerm (v : Nat → Int) (a : Nat → Nat) (pl pr : Nat) :
    SegPerm pl pr a (insSortSeg v a pl pr) :=
  insSortGo_segPerm v pl pr (pr - pl) a (pl + 1)

theorem siftDown_segPerm (v : Nat → Int) (pl tmp n : Nat) :
    ∀ (fuel : Nat) (a : Nat → Nat) (i j : Nat), 1 ≤ i → i ≤ n → i < j →
      SegPerm pl (pl + n - 1) (heapSet a pl i tmp)
        (siftDown v pl tmp n a i j fuel) := by
  intro fuel
  induction fuel with
  | zero =>
      intro a i j _ _ _
      exact segPerm_refl _ _ _
  | succ fuel ih =>
      intro a i j h1 h2 h3
      have hjlo : j ≤ heapChild v pl n j a := by
        unfold heapChild
        split_ifs <;> omega
      have hjhi : j ≤ n → heapChild v pl n j a ≤ n := by
        intro hj
        unfold heapChild
        split_ifs <;> omega
      show SegPerm _ _ _ (if j ≤ n then _ else _)
      split_ifs with hj hv
      · set j2 := heapChild v pl n j a with hj2def
        have hj2n : j2 ≤ n := hjhi hj
        have hij2 : i < j2 := by omega
        have hIH := ih (heapSet a pl i (heapGet a pl j2)) j2 (2 * j2)
          (by omega) hj2n (by omega)
        have hne : pl + i - 1 ≠ pl + j2 - 1 := by omega
        have hkey : heapSet (heapSet a pl i (heapGet a pl j2)) pl j2 tmp
            = fun k => (heapSet a pl i tmp) (swapFn (pl + i - 1)
                (pl + j2 - 1) k) :=
          setAt_hole_swap a (pl + i - 1) (pl + j2 - 1) tmp hne
        rw [hkey] at hIH
        refine segPerm_trans ?_ hIH
        exact segPerm_comp_swap pl (pl + n - 1) (heapSet a pl i tmp)
          (pl + i - 1) (pl + j2 - 1) (by omega) (by omega) (by omega)
          (by omega)
      · exact segPerm_refl _ _ _
      · exact segPerm_refl _ _ _

theorem buildHeapGo_segPerm (v : Nat → Int) (pl n : Nat) :
    ∀ (l : Nat) (a : Nat → Nat), l ≤ n →
      SegPerm pl (pl + n - 1) a (buildHeapGo v pl n a l) := by
  intro l
  induction l with
  | zero => intro a _; exact segPerm_refl _ _ _
  | succ l ih =>
      intro a hl
      show SegPerm _ _ _ (buildHeapGo v pl n
        (siftDown v pl (heapGet a pl (l + 1)) n a (l + 1) (2 * (l + 1))
          (n + 1)) l)
      refine segPerm_trans ?_ (ih _ (by omega))
      have := siftDown_segPerm v pl (heapGet a pl (l + 1)) n (n + 1) a
        (l + 1) (2 * (l + 1)) (by omega) hl (by omega)
      rw [show heapSet a pl (l + 1) (heapGet a pl (l + 1)) = a from
        setAt_self a (pl + (l + 1) - 1)] at this
      exact this

theorem extractGo_segPerm (v : Nat → Int) (pl n : Nat) :
    ∀ (m : Nat) (a : Nat → Nat), m ≤ n →
      SegPerm pl (pl + n - 1) a (extractGo v pl a m) := by
  intro m
  induction m using Nat.strong_induction_on with
  | _ m ih =>
      cases m with
      | zero => intro a _; exact segPerm_refl _ _ _
      | succ m0 =>
          cases m0 with
          | zero => intro a _; exact segPerm_refl _ _ _
          | succ m1 =>
              intro a hm
              show SegPerm _ _ _ (extractGo v pl
                (siftDown v pl (heapGet a pl (m1 + 2)) (m1 + 1)
                  (heapSet a pl (m1 + 2) (heapGet a pl 1)) 1 2 (m1 + 2))
                (m1 + 1))
              refine segPerm_trans ?_ (ih (m1 + 1) (by omega) _ (by omega))
              have hsift := siftDown_segPerm v pl (heapGet a pl (m1 + 2))
                (m1 + 1) (m1 + 2)
                (heapSet a pl (m1 + 2) (heapGet a pl 1)) 1 2
                (by omega) (by omega) (by omega)
              have hne : pl ≠ pl + (m1 + 2) - 1 := by omega
              have hswap : heapSet (heapSet a pl (m1 + 2) (heapGet a pl 1))
                  pl 1 (heapGet a pl (m1 + 2))
                  = aswap a (pl + 1 - 1) (pl + (m1 + 2) - 1) := by
                have := setAt_setAt_swap a (pl + 1 - 1) (pl + (m1 + 2) - 1)
                  (by omega)
                show setAt (setAt a (pl + (m1 + 2) - 1)
                  (a (pl + 1 - 1))) (pl + 1 - 1)
                  (a (pl + (m1 + 2) - 1)) = _
                exact this
              rw [hswap] at hsift
              refine segPerm_trans ?_ (segPerm_mono hsift (Nat.le_refl pl)
                (by omega))
              exact segPerm_aswap pl (pl + n - 1) a (pl + 1 - 1)
                (pl + (m1 + 2) - 1) (by omega) (by omega) (by omega)
                (by omega)

theorem heapsortSeg_segPerm (v : Nat → Int) (a : Nat → Nat) (pl n : Nat) :
    SegPerm pl (pl + n - 1) a (heapsortSeg v a pl n) :=
  segPerm_trans (buildHeapGo_segPerm v pl n (n / 2) a (by omega))
    (extractGo_segPerm v pl n n _ (Nat.le_refl n))

theorem scanUp_ge (v : Nat → Int) (a : Nat → Nat) (vp : Int) (stop : Nat) :
    ∀ (fuel cur : Nat), cur ≤ scanUp v a vp stop cur fuel := by
  intro fuel
  induction fuel with
  | zero => intro cur; exact Nat.le_refl cur
  | succ fuel ih =>
      intro cur
      show cur ≤ (if cur < stop ∧ v (a cur) < vp then _ else _)
      split_ifs with h
      · exact Nat.le_trans (by omega) (ih (cur + 1))
      · exact Nat.le_refl cur

theorem scanUp_le (v : Nat → Int) (a : Nat → Nat) (vp : Int) (stop : Nat) :
    ∀ (fuel cur : Nat), scanUp v a vp stop cur fuel ≤ max cur stop := by
  intro fuel
  induction fuel with
  | zero => intro cur; exact Nat.le_max_left cur stop
  | succ fuel ih =>
      intro cur
      show (if cur < stop ∧ v (a cur) < vp then _ else _) ≤ max cur stop
      split_ifs with h
      · have := ih (cur + 1)
        omega
      · exact Nat.le_max_left cur stop

theorem scanDown_le (v : Nat → Int) (a : Nat → Nat) (vp : Int)
    (floor : Nat) : ∀ (fuel cur : Nat),
    scanDown v a vp floor cur fuel ≤ cur := by
  intro fuel
  induction fuel with
  | zero => intro cur; exact Nat.le_refl cur
  | succ fuel ih =>
      intro cur
      show (if floor < cur ∧ vp < v (a cur) then _ else _) ≤ cur
      split_ifs with h
      · exact Nat.le_trans (ih (cur - 1)) (by omega)
      · exact Nat.le_refl cur

theorem partLoop_spec (v : Nat → Int) (vp : Int) (pl pr : Nat) :
    ∀ (fuel : Nat) (a : Nat → Nat) (p_i p_j : Nat),
      pl ≤ p_i → p_i < pr → p_j ≤ pr →
      SegPerm pl pr a (partLoop v vp pl pr a p_i p_j fuel).1 ∧
        pl ≤ (partLoop v vp pl pr a p_i p_j fuel).2 ∧
        (partLoop v vp pl pr a p_i p_j fuel).2 ≤ pr := by
  intro fuel
  induction fuel with
  | zero =>
      intro a p_i p_j h1 h2 h3
      exact ⟨segPerm_refl _ _ _, h1, Nat.le_of_lt h2⟩
  | succ fuel ih =>
      intro a p_i p_j h1 h2 h3
      simp only [partLoop]
      set i2 := scanUp v a vp (pr - 1) (p_i + 1) (pr - 1 - (p_i + 1))
        with hi2def
      set j2 := scanDown v a vp pl (p_j - 1) (p_j - 1 - pl) with hj2def
      have hi2ge : p_i + 1 ≤ i2 := by
        rw [hi2def]; exact scanUp_ge v a vp (pr - 1) _ (p_i + 1)
      have hi2le : i2 ≤ max (p_i + 1) (pr - 1) := by
        rw [hi2def]; exact scanUp_le v a vp (pr - 1) _ (p_i + 1)
      have hj2le : j2 ≤ p_j - 1 := by
        rw [hj2def]; exact scanDown_le v a vp pl _ (p_j - 1)
      split_ifs with hc
      · exact ⟨segPerm_refl _ _ _, by omega, by omega⟩
      · have hrec := ih (aswap a i2 j2) i2 j2 (by omega) (by omega)
          (by omega)
        refine ⟨segPerm_trans ?_ hrec.1, hrec.2.1, hrec.2.2⟩
        exact segPerm_aswap pl pr a i2 j2 (by omega) (by omega) (by omega)
          (by omega)

theorem partitionSeg_spec (v : Nat → Int) (a : Nat → Nat) (pl pr : Nat)
    (h : pl < pr) :
    SegPerm pl pr a (partitionSeg v a pl pr).1 ∧
      pl ≤ (partitionSeg v a pl pr).2 ∧
      (partitionSeg v a pl pr).2 ≤ pr := by
  simp only [partitionSeg]
  set pm := pl + (pr - pl) / 2 with hpm
  have hpm2 : pm ≤ pr := by omega
  set a0 := if v (a pm) < v (a pl) then aswap a pm pl else a with ha0
  set a1 := if v (a0 pr) < v (a0 pm) then aswap a0 pr pm else a0 with ha1
  set a2 := if v (a1 pm) < v (a1 pl) then aswap a1 pm pl else a1 with ha2
  set a3 := aswap a2 pm (pr - 1) with ha3
  set r := partLoop v (v (a2 pm)) pl pr a3 pl (pr - 1) (pr - 1 - pl)
    with hr
  have h0 : SegPerm pl pr a a0 := by
    rw [ha0]
    split_ifs with hc
    · exact segPerm_aswap pl pr a pm pl (by omega) hpm2 (by omega) (by omega)
    · exact segPerm_refl _ _ _
  have h1 : SegPerm pl pr a0 a1 := by
    rw [ha1]
    split_ifs with hc
    · exact segPerm_aswap pl pr a0 pr pm (by omega) (by omega) (by omega)
        hpm2
    · exact segPerm_refl _ _ _
  have h2 : SegPerm pl pr a1 a2 := by
    rw [ha2]
    split_ifs with hc
    · exact segPerm_aswap pl pr a1 pm pl (by omega) hpm2 (by omega)
        (by omega)
    · exact segPerm_refl _ _ _
  have h3 : SegPerm pl pr a2 a3 := by
    rw [ha3]
    exact segPerm_aswap pl pr a2 pm (pr - 1) (by omega) hpm2 (by omega)
      (by omega)
  have hp : SegPerm pl pr a3 r.1 ∧ pl ≤ r.2 ∧ r.2 ≤ pr := by
    rw [hr]
    exact partLoop_spec v (v (a2 pm)) pl pr (pr - 1 - pl) a3 pl (pr - 1)
      (Nat.le_refl pl) h (by omega)
  have h4 : SegPerm pl pr r.1 (aswap r.1 r.2 (pr - 1)) :=
    segPerm_aswap pl pr r.1 r.2 (pr - 1) hp.2.1 hp.2.2 (by omega) (by omega)
  exact ⟨segPerm_trans h0 (segPerm_trans h1 (segPerm_trans h2
    (segPerm_trans h3 (segPerm_trans hp.1 h4)))), hp.2.1, hp.2.2⟩

theorem qsLoop_segPerm (v : Nat → Int) :
    ∀ (fuel : Nat) (a : Nat → Nat) (pl pr : Nat) (dl : Int),
      SegPerm pl pr a (qsLoop v a pl pr dl fuel).1 := by
  intro fuel
  induction fuel with
  | zero => intro a pl pr dl; exact segPerm_refl _ _ _
  | succ fuel ih =>
      intro a pl pr dl
      simp only [qsLoop]
      split_ifs with h16 hdl hside
      · have hh := heapsortSeg_segPerm v a pl (pr - pl + 1)
        rw [show pl + (pr - pl + 1) - 1 = pr from by omega] at hh
        exact hh
      · obtain ⟨hperm, hlo, hhi⟩ := partitionSeg_spec v a pl pr (by omega)
        refine segPerm_trans hperm (segPerm_trans
          (segPerm_mono (ih _ pl ((partitionSeg v a pl pr).2 - 1) (dl - 1))
            (Nat.le_refl pl) (by omega))
          (segPerm_mono (ih _ ((partitionSeg v a pl pr).2 + 1) pr _)
            (by omega) (Nat.le_refl pr)))
      · obtain ⟨hperm, hlo, hhi⟩ := partitionSeg_spec v a pl pr (by omega)
        refine segPerm_trans hperm (segPerm_trans
          (segPerm_mono (ih _ ((partitionSeg v a pl pr).2 + 1) pr (dl - 1))
            (by omega) (Nat.le_refl pr))
          (segPerm_mono (ih _ pl ((partitionSeg v a pl pr).2 - 1) _)
            (Nat.le_refl pl) (by omega)))
      · exact insSortSeg_segPerm v a pl pr

theorem argsortNp_segPerm (v : Nat → Int) (n : Nat) :
    SegPerm 0 (n - 1) id (argsortNp v n) := by
  unfold argsortNp
  split_ifs with h
  · exact segPerm_refl _ _ _
  · exact qsLoop_segPerm v n id 0 (n - 1) (2 * Nat.log2 n)

theorem argsortNp_bijective (v : Nat → Int) (n : Nat) :
    Function.Bijective (argsortNp v n) := by
  obtain ⟨π, hb, hf, he⟩ := argsortNp_segPerm v n
  have he2 : argsortNp v n = π := funext fun k => he k
  rw [he2]
  exact hb

theorem argsortNp_fix (v : Nat → Int) (n k : Nat) (h : n - 1 < k) :
    argsortNp v n k = k :=
  segPerm_outside (argsortNp_segPerm v n) k (Or.inr h)

theorem argsortNp_lt (v : Nat → Int) (n k : Nat) (h : k < n) :
    argsortNp v n k < n := by
  by_contra hge
  have hm : argsortNp v n (argsortNp v n k) = argsortNp v n k :=
    argsortNp_fix v n (argsortNp v n k) (by omega)
  have := (argsortNp_bijective v n).injective hm
  omega

theorem setAt_get_same (a : Nat → Nat) (p x : Nat) : setAt a p x p = x := by
  unfold setAt
  rw [if_pos rfl]

theorem setAt_get_other (a : Nat → Nat) (p x k : Nat) (h : k ≠ p) :
    setAt a p x k = a k := by
  unfold setAt
  rw [if_neg h]

theorem insShift_outside (v : Nat → Int) (vi pl : Nat) :
    ∀ (fuel : Nat) (a : Nat → Nat) (pj k : Nat), pl ≤ pj →
      pj < k ∨ k < pl → insShift v vi pl a pj fuel k = a k := by
  intro fuel
  induction fuel with
  | zero =>
      intro a pj k hp hk
      exact setAt_get_other a pj vi k (by omega)
  | succ fuel ih =>
      intro a pj k hp hk
      have heq : insShift v vi pl a pj (fuel + 1) k =
          (if pl < pj ∧ v vi < v (a (pj - 1)) then
            insShift v vi pl (setAt a pj (a (pj - 1))) (pj - 1) fuel
          else setAt a pj vi) k := rfl
      rw [heq]
      split_ifs with hc
      · rw [ih (setAt a pj (a (pj - 1))) (pj - 1) k (by omega) (by omega)]
        exact setAt_get_other a pj (a (pj - 1)) k (by omega)
      · exact setAt_get_other a pj vi k (by omega)

theorem insShift_sorted (v : Nat → Int) (vi pl : Nat) :
    ∀ (fuel : Nat) (a : Nat → Nat) (pj : Nat), pl ≤ pj → pj - pl ≤ fuel →
      (∀ i j, pl ≤ i → i ≤ j → j + 1 ≤ pj → v (a i) ≤ v (a j)) →
      (∀ i j, pl ≤ i → i ≤ j → j ≤ pj →
        v (insShift v vi pl a pj fuel i) ≤ v (insShift v vi pl a pj fuel j))
      ∧ (∀ k, pl ≤ k → k ≤ pj →
        v (insShift v vi pl a pj fuel k) ≤ v vi ∨
        ∃ m, pl ≤ m ∧ m + 1 ≤ pj ∧
          v (insShift v vi pl a pj fuel k) = v (a m)) := by
  intro fuel
  induction fuel with
  | zero =>
      intro a pj hp hf hsort
      have hpj : pj = pl := by omega
      constructor
      · intro i j h1 h2 h3
        have hi : i = j := by omega
        rw [hi]
      · intro k h1 h2
        have hk : k = pj := by omega
        left
        rw [hk,
          show insShift v vi pl a pj 0 pj = vi from setAt_get_same a pj vi]
  | succ fuel ih =>
      intro a pj hp hf hsort
      have heq : insShift v vi pl a pj (fuel + 1) =
          if pl < pj ∧ v vi < v (a (pj - 1)) then
            insShift v vi pl (setAt a pj (a (pj - 1))) (pj - 1) fuel
          else setAt a pj vi := rfl
      rw [heq]
      split_ifs with hc
      · obtain ⟨ih1, ih2⟩ := ih (setAt a pj (a (pj - 1))) (pj - 1)
          (by omega) (by omega)
          (by
            intro i j h1 h2 h3
            rw [setAt_get_other a pj _ i (by omega),
              setAt_get_other a pj _ j (by omega)]
            exact hsort i j h1 h2 (by omega))
        have hout : insShift v vi pl (setAt a pj (a (pj - 1))) (pj - 1)
            fuel pj = a (pj - 1) := by
          rw [insShift_outside v vi pl fuel (setAt a pj (a (pj - 1)))
            (pj - 1) pj (by omega) (by omega)]
          exact setAt_get_same a pj (a (pj - 1))
        constructor
        · intro i j h1 h2 h3
          by_cases hj : j = pj
          · rw [hj, hout]
            by_cases hi : i = pj
            · rw [hi, hout]
            · have hile : i ≤ pj - 1 := by omega
              rcases ih2 i h1 hile with hle | ⟨m, hm1, hm2, hme⟩
              · exact le_trans hle (le_of_lt hc.2)
              · rw [hme, setAt_get_other a pj _ m (by omega)]
                by_cases hmj : m = pj - 1
                · rw [hmj]
                · exact hsort m (pj - 1) hm1 (by omega) (by omega)
          · exact ih1 i j h1 h2 (by omega)
        · intro k h1 h2
          by_cases hk : k = pj
          · rw [hk, hout]
            right
            exact ⟨pj - 1, by omega, by omega, rfl⟩
          · rcases ih2 k h1 (by omega) with hle | ⟨m, hm1, hm2, hme⟩
            · exact Or.inl hle
            · right
              refine ⟨m, hm1, by omega, ?_⟩
              rw [hme, setAt_get_other a pj _ m (by omega)]
      · have hv2 : pl < pj → v (a (pj - 1)) ≤ v vi := by
          intro hlt
          by_contra hgt
          exact hc ⟨hlt, by omega⟩
        constructor
        · intro i j h1 h2 h3
          by_cases hj : j = pj
          · rw [hj, setAt_get_same a pj vi]
            by_cases hi : i = pj
            · rw [hi, setAt_get_same a pj vi]
            · have hplpj : pl < pj := by omega
              rw [setAt_get_other a pj vi i (by omega)]
              refine le_trans ?_ (hv2 hplpj)
              by_cases hij : i = pj - 1
              · rw [hij]
              · exact hsort i (pj - 1) h1 (by omega) (by omega)
          · rw [setAt_get_other a pj vi i (by omega),
              setAt_get_other a pj vi j (by omega)]
            exact hsort i j h1 h2 (by omega)
        · intro k h1 h2
          by_cases hk : k = pj
          · rw [hk, setAt_get_same a pj vi]
            exact Or.inl (le_refl _)
          · right
            refine ⟨k, h1, by omega, ?_⟩
            rw [setAt_get_other a pj vi k (by omega)]

theorem insSortGo_sorted (v : Nat → Int) (pl pr : Nat) :
    ∀ (fuel : Nat) (a : Nat → Nat) (pi : Nat), pl + 1 ≤ pi →
      pr + 1 ≤ pi + fuel →
      (∀ i j, pl ≤ i → i ≤ j → j + 1 ≤ pi → v (a i) ≤ v (a j)) →
      ∀ i j, pl ≤ i → i ≤ j → j ≤ pr →
        v (insSortGo v pl pr a pi fuel i) ≤
          v (insSortGo v pl pr a pi fuel j) := by
  intro fuel
  induction fuel with
  | zero =>
      intro a pi hp hfuel hsort i j h1 h2 h3
      exact hsort i j h1 h2 (by omega)
  | succ fuel ih =>
      intro a pi hp hfuel hsort i j h1 h2 h3
      have heq : insSortGo v pl pr a pi (fuel + 1) =
          if pi ≤ pr then
            insSortGo v pl pr (insShift v (a pi) pl a pi (pi - pl)) (pi + 1)
              fuel
          else a := rfl
      rw [heq]
      split_ifs with hc
      · refine ih (insShift v (a pi) pl a pi (pi - pl)) (pi + 1) (by omega)
          (by omega) ?_ i j h1 h2 h3
        intro i' j' h1' h2' h3'
        exact (insShift_sorted v (a pi) pl (pi - pl) a pi (by omega)
          (le_refl _) (fun i'' j'' g1 g2 g3 => hsort i'' j'' g1 g2 g3)).1
          i' j' h1' h2' (by omega)
      · exact hsort i j h1 h2 (by omega)

theorem inSub_self (i : Nat) : inSub i i :=
  ⟨0, by simp⟩

theorem inSub_le {i k : Nat} (h : inSub i k) : i ≤ k := by
  obtain ⟨m, hm⟩ := h
  rw [← hm]
  exact Nat.div_le_self k (2 ^ m)

theorem inSub_lower {i k : Nat} (h : inSub i k) : k = i ∨ 2 * i ≤ k := by
  obtain ⟨m, hm⟩ := h
  cases m with
  | zero =>
      left
      simpa using hm
  | succ m0 =>
      right
      have h1 := Nat.div_mul_le_self k (2 ^ (m0 + 1))
      rw [hm] at h1
      have h2 : 2 ≤ 2 ^ (m0 + 1) := by
        calc (2 : Nat) = 2 ^ 1 := (pow_one 2).symm
        _ ≤ 2 ^ (m0 + 1) := Nat.pow_le_pow_right (by omega) (by omega)
      calc 2 * i = i * 2 := Nat.mul_comm 2 i
      _ ≤ i * 2 ^ (m0 + 1) := Nat.mul_le_mul_left i h2
      _ ≤ k := h1

theorem inSub_trans {i j k : Nat} (h1 : inSub i j) (h2 : inSub j k) :
    inSub i k := by
  obtain ⟨m1, hm1⟩ := h1
  obtain ⟨m2, hm2⟩ := h2
  exact ⟨m2 + m1, by rw [pow_add, ← Nat.div_div_eq_div_mul, hm2, hm1]⟩

theorem inSub_child {i j : Nat} (h : j / 2 = i) : inSub i j :=
  ⟨1, by rw [pow_one, h]⟩

theorem heapChild_cases (v : Nat → Int) (pl n j : Nat) (a : Nat → Nat) :
    heapChild v pl n j a = j ∨ (j < n ∧ heapChild v pl n j a = j + 1) := by
  unfold heapChild
  split_ifs with h
  · exact Or.inr ⟨h.1, rfl⟩
  · exact Or.inl rfl

theorem heapChild_ge_left (v : Nat → Int) (pl n j : Nat) (a : Nat → Nat) :
    v (heapGet a pl j) ≤ v (heapGet a pl (heapChild v pl n j a)) := by
  unfold heapChild
  split_ifs with h
  · exact le_of_lt h.2
  · exact le_refl _

theorem heapChild_ge_right (v : Nat → Int) (pl n j : Nat) (a : Nat → Nat)
    (h1 : j + 1 ≤ n) :
    v (heapGet a pl (j + 1)) ≤ v (heapGet a pl (heapChild v pl n j a)) := by
  unfold heapChild
  split_ifs with h
  · exact le_refl _
  · have h2 : ¬ v (heapGet a pl j) < v (heapGet a pl (j + 1)) := by
      intro hv
      exact h ⟨by omega, hv⟩
    omega

theorem heapGet_heapSet_same (a : Nat → Nat) (pl i x : Nat) :
    heapGet (heapSet a pl i x) pl i = x :=
  setAt_get_same a (pl + i - 1) x

theorem heapGet_heapSet_other (a : Nat → Nat) (pl i x k : Nat)
    (hk : 1 ≤ k) (hi : 1 ≤ i) (h : k ≠ i) :
    heapGet (heapSet a pl i x) pl k = heapGet a pl k :=
  setAt_get_other a (pl + i - 1) x (pl + k - 1) (by omega)

theorem siftDown_untouched (v : Nat → Int) (pl tmp n : Nat) :
    ∀ (fuel : Nat) (a : Nat → Nat) (i : Nat), 1 ≤ i →
      ∀ k, 1 ≤ k → ¬ inSub i k →
        heapGet (siftDown v pl tmp n a i (2 * i) fuel) pl k
          = heapGet a pl k := by
  intro fuel
  induction fuel with
  | zero =>
      intro a i hi k hk hnk
      exact heapGet_heapSet_other a pl i tmp k hk hi
        (fun he => hnk (he ▸ inSub_self i))
  | succ fuel ih =>
      intro a i hi k hk hnk
      have heq : siftDown v pl tmp n a i (2 * i) (fuel + 1) =
          if 2 * i ≤ n then
            if v tmp <
                v (heapGet a pl (heapChild v pl n (2 * i) a)) then
              siftDown v pl tmp n
                (heapSet a pl i
                  (heapGet a pl (heapChild v pl n (2 * i) a)))
                (heapChild v pl n (2 * i) a)
                (2 * heapChild v pl n (2 * i) a) fuel
            else heapSet a pl i tmp
          else heapSet a pl i tmp := rfl
      rw [heq]
      have hki : k ≠ i := fun he => hnk (he ▸ inSub_self i)
      split_ifs with hn hv
      · have hcc := heapChild_cases v pl n (2 * i) a
        have hjc2 : heapChild v pl n (2 * i) a / 2 = i := by omega
        have hjc1 : 1 ≤ heapChild v pl n (2 * i) a := by omega
        have hsub : inSub i (heapChild v pl n (2 * i) a) :=
          inSub_child hjc2
        rw [ih _ (heapChild v pl n (2 * i) a) hjc1 k hk
          (fun h2 => hnk (inSub_trans hsub h2))]
        exact heapGet_heapSet_other a pl i _ k hk hi hki
      · exact heapGet_heapSet_other a pl i tmp k hk hi hki
      · exact heapGet_heapSet_other a pl i tmp k hk hi hki

theorem siftDown_heap (v : Nat → Int) (pl tmp n : Nat) :
    ∀ (fuel : Nat) (a : Nat → Nat) (i : Nat), 1 ≤ i → n + 1 ≤ fuel + i →
      (∀ k, 2 ≤ k → k ≤ n → i + 1 ≤ k / 2 →
        v (heapGet a pl k) ≤ v (heapGet a pl (k / 2))) →
      (∀ k, 2 ≤ k → k ≤ n → i ≤ k / 2 →
        v (heapGet (siftDown v pl tmp n a i (2 * i) fuel) pl k) ≤
          v (heapGet (siftDown v pl tmp n a i (2 * i) fuel) pl (k / 2)))
      ∧ (∀ M : Int, v tmp ≤ M →
        (∀ c, 2 ≤ c → c ≤ n → c / 2 = i → v (heapGet a pl c) ≤ M) →
        v (heapGet (siftDown v pl tmp n a i (2 * i) fuel) pl i) ≤ M) := by
  intro fuel
  induction fuel with
  | zero =>
      intro a i hi hfuel hP1
      constructor
      · intro k hk2 hkn hki
        omega
      · intro M hM hch
        rw [show siftDown v pl tmp n a i (2 * i) 0 = heapSet a pl i tmp
          from rfl]
        rw [heapGet_heapSet_same]
        exact hM
  | succ fuel ih =>
      intro a i hi hfuel hP1
      have heq : siftDown v pl tmp n a i (2 * i) (fuel + 1) =
          if 2 * i ≤ n then
            if v tmp <
                v (heapGet a pl (heapChild v pl n (2 * i) a)) then
              siftDown v pl tmp n
                (heapSet a pl i
                  (heapGet a pl (heapChild v pl n (2 * i) a)))
                (heapChild v pl n (2 * i) a)
                (2 * heapChild v pl n (2 * i) a) fuel
            else heapSet a pl i tmp
          else heapSet a pl i tmp := rfl
      rw [heq]
      split_ifs with hn hv
      · -- move case: the larger child rises into the hole, sift recurses
        set jc := heapChild v pl n (2 * i) a with hjcdef
        have hcc : jc = 2 * i ∨ (2 * i < n ∧ jc = 2 * i + 1) := by
          rw [hjcdef]
          exact heapChild_cases v pl n (2 * i) a
        have hjc2 : jc / 2 = i := by omega
        have hjcn : jc ≤ n := by omega
        have hjc1 : 2 ≤ jc := by omega
        have hchL : v (heapGet a pl (2 * i)) ≤ v (heapGet a pl jc) := by
          rw [hjcdef]
          exact heapChild_ge_left v pl n (2 * i) a
        have hchR : 2 * i + 1 ≤ n →
            v (heapGet a pl (2 * i + 1)) ≤ v (heapGet a pl jc) := by
          intro hb
          rw [hjcdef]
          exact heapChild_ge_right v pl n (2 * i) a hb
        have hsub : inSub i jc := inSub_child hjc2
        have hP1' : ∀ k, 2 ≤ k → k ≤ n → jc + 1 ≤ k / 2 →
            v (heapGet (heapSet a pl i (heapGet a pl jc)) pl k) ≤
              v (heapGet (heapSet a pl i (heapGet a pl jc)) pl (k / 2)) := by
          intro k hk2 hkn hkj
          rw [heapGet_heapSet_other a pl i _ k (by omega) hi (by omega),
            heapGet_heapSet_other a pl i _ (k / 2) (by omega) hi (by omega)]
          exact hP1 k hk2 hkn (by omega)
        obtain ⟨q1, q2⟩ := ih (heapSet a pl i (heapGet a pl jc)) jc
          (by omega) (by omega) hP1'
        have hbI : heapGet (siftDown v pl tmp n
            (heapSet a pl i (heapGet a pl jc)) jc (2 * jc) fuel) pl i
            = heapGet a pl jc := by
          rw [siftDown_untouched v pl tmp n fuel
            (heapSet a pl i (heapGet a pl jc)) jc (by omega) i hi
            (fun hcon => by have := inSub_le hcon; omega)]
          exact heapGet_heapSet_same a pl i _
        have hbjc : v (heapGet (siftDown v pl tmp n
            (heapSet a pl i (heapGet a pl jc)) jc (2 * jc) fuel) pl jc)
            ≤ v (heapGet a pl jc) := by
          refine q2 (v (heapGet a pl jc)) (le_of_lt hv) ?_
          intro c hc2 hcn hcj
          rw [heapGet_heapSet_other a pl i _ c (by omega) hi (by omega)]
          have h := hP1 c hc2 hcn (by omega)
          rw [hcj] at h
          exact h
        constructor
        · intro k hk2 hkn hki
          by_cases hkjc : jc ≤ k / 2
          · exact q1 k hk2 hkn hkjc
          · by_cases hkpar : k / 2 = i
            · -- k is a child of the hole
              have hkor : k = 2 * i ∨ k = 2 * i + 1 := by omega
              rw [hkpar, hbI]
              by_cases hkeq : k = jc
              · rw [hkeq]
                exact hbjc
              · have hnots : ¬ inSub jc k := by
                  intro hcon
                  rcases inSub_lower hcon with h | h <;> omega
                rw [siftDown_untouched v pl tmp n fuel
                  (heapSet a pl i (heapGet a pl jc)) jc (by omega) k
                  (by omega) hnots,
                  heapGet_heapSet_other a pl i _ k (by omega) hi
                    (by omega)]
                rcases hkor with hk | hk
                · rw [hk]
                  exact hchL
                · rw [hk]
                  exact hchR (by omega)
            · -- parent strictly between the hole and the risen child
              have hgap1 : i + 1 ≤ k / 2 := by omega
              have hgap2 : k / 2 + 1 ≤ jc := by omega
              have hnk : ¬ inSub jc k := by
                intro hcon
                rcases inSub_lower hcon with h | h <;> omega
              have hnk2 : ¬ inSub jc (k / 2) := by
                intro hcon
                have := inSub_le hcon
                omega
              rw [siftDown_untouched v pl tmp n fuel
                  (heapSet a pl i (heapGet a pl jc)) jc (by omega) k
                  (by omega) hnk,
                siftDown_untouched v pl tmp n fuel
                  (heapSet a pl i (heapGet a pl jc)) jc (by omega) (k / 2)
                  (by omega) hnk2,
                heapGet_heapSet_other a pl i _ k (by omega) hi (by omega),
                heapGet_heapSet_other a pl i _ (k / 2) (by omega) hi
                  (by omega)]
              exact hP1 k hk2 hkn hgap1
        · intro M hM hch
          rw [hbI]
          exact hch jc hjc1 hjcn hjc2
      · -- place case: tmp is at least both children, drop it into the hole
        constructor
        · intro k hk2 hkn hki
          by_cases hkpar : k / 2 = i
          · have hkor : k = 2 * i ∨ k = 2 * i + 1 := by omega
            rw [hkpar, heapGet_heapSet_same,
              heapGet_heapSet_other a pl i tmp k (by omega) hi (by omega)]
            have hchL := heapChild_ge_left v pl n (2 * i) a
            rcases hkor with hk | hk
            · rw [hk]
              omega
            · have hchR := heapChild_ge_right v pl n (2 * i) a (by omega)
              rw [hk]
              omega
          · rw [heapGet_heapSet_other a pl i tmp k (by omega) hi
                (by omega),
              heapGet_heapSet_other a pl i tmp (k / 2) (by omega) hi
                (by omega)]
            exact hP1 k hk2 hkn (by omega)
        · intro M hM hch
          rw [heapGet_heapSet_same]
          exact hM
      · -- the hole is a leaf of the heap
        constructor
        · intro k hk2 hkn hki
          omega
        · intro M hM hch
          rw [heapGet_heapSet_same]
          exact hM

theorem buildHeapGo_heap (v : Nat → Int) (pl n : Nat) :
    ∀ (l : Nat) (a : Nat → Nat),
      (∀ k, 2 ≤ k → k ≤ n → l + 1 ≤ k / 2 →
        v (heapGet a pl k) ≤ v (heapGet a pl (k / 2))) →
      ∀ k, 2 ≤ k → k ≤ n →
        v (heapGet (buildHeapGo v pl n a l) pl k) ≤
          v (heapGet (buildHeapGo v pl n a l) pl (k / 2)) := by
  intro l
  induction l with
  | zero =>
      intro a hpre k hk2 hkn
      exact hpre k hk2 hkn (by omega)
  | succ l ih =>
      intro a hpre k hk2 hkn
      have heq : buildHeapGo v pl n a (l + 1) = buildHeapGo v pl n
          (siftDown v pl (heapGet a pl (l + 1)) n a (l + 1) (2 * (l + 1))
            (n + 1)) l := rfl
      rw [heq]
      refine ih _ ?_ k hk2 hkn
      intro k' hk2' hkn' hl'
      exact (siftDown_heap v pl (heapGet a pl (l + 1)) n (n + 1) a (l + 1)
        (by omega) (by omega)
        (fun c hc2 hcn hcl => hpre c hc2 hcn (by omega))).1
        k' hk2' hkn' (by omega)

theorem heap_root_max (v : Nat → Int) (pl n : Nat) (a : Nat → Nat)
    (hheap : ∀ k, 2 ≤ k → k ≤ n →
      v (heapGet a pl k) ≤ v (heapGet a pl (k / 2))) :
    ∀ k, 1 ≤ k → k ≤ n → v (heapGet a pl k) ≤ v (heapGet a pl 1) := by
  intro k
  induction k using Nat.strong_induction_on with
  | _ k ih =>
      intro hk1 hkn
      by_cases hk : k = 1
      · rw [hk]
      · refine le_trans (hheap k (by omega) hkn) ?_
        exact ih (k / 2) (by omega) (by omega) (by omega)

theorem extractGo_sorted (v : Nat → Int) (pl n : Nat) :
    ∀ (m : Nat) (a : Nat → Nat), m ≤ n →
      (∀ k, 2 ≤ k → k ≤ m →
        v (heapGet a pl k) ≤ v (heapGet a pl (k / 2))) →
      (∀ p q, m + 1 ≤ p → p ≤ q → q ≤ n →
        v (heapGet a pl p) ≤ v (heapGet a pl q)) →
      (∀ k p, 1 ≤ k → k ≤ m → m + 1 ≤ p → p ≤ n →
        v (heapGet a pl k) ≤ v (heapGet a pl p)) →
      ∀ p q, 1 ≤ p → p ≤ q → q ≤ n →
        v (heapGet (extractGo v pl a m) pl p) ≤
          v (heapGet (extractGo v pl a m) pl q) := by
  intro m
  induction m using Nat.strong_induction_on with
  | _ m ih =>
      cases m with
      | zero =>
          intro a hm hI1 hI2 hI3 p q hp hpq hq
          exact hI2 p q (by omega) hpq hq
      | succ m0 =>
          cases m0 with
          | zero =>
              intro a hm hI1 hI2 hI3 p q hp hpq hq
              by_cases hp1 : p = 1
              · by_cases hq1 : q = 1
                · rw [hp1, hq1]
                · rw [hp1]
                  exact hI3 1 q (by omega) (by omega) (by omega) hq
              · exact hI2 p q (by omega) hpq hq
          | succ m1 =>
              intro a hm hI1 hI2 hI3 p q hp hpq hq
              have heq : extractGo v pl a (m1 + 2) = extractGo v pl
                  (siftDown v pl (heapGet a pl (m1 + 2)) (m1 + 1)
                    (heapSet a pl (m1 + 2) (heapGet a pl 1)) 1 2 (m1 + 2))
                  (m1 + 1) := rfl
              rw [heq]
              have hmax := heap_root_max v pl (m1 + 2) a hI1
              have hP1 : ∀ k, 2 ≤ k → k ≤ m1 + 1 → 1 + 1 ≤ k / 2 →
                  v (heapGet (heapSet a pl (m1 + 2) (heapGet a pl 1)) pl k)
                    ≤ v (heapGet (heapSet a pl (m1 + 2) (heapGet a pl 1))
                      pl (k / 2)) := by
                intro k hk2 hkn hkl
                rw [heapGet_heapSet_other a pl (m1 + 2) _ k (by omega)
                    (by omega) (by omega),
                  heapGet_heapSet_other a pl (m1 + 2) _ (k / 2) (by omega)
                    (by omega) (by omega)]
                exact hI1 k hk2 (by omega)
              have hsd := siftDown_heap v pl (heapGet a pl (m1 + 2))
                (m1 + 1) (m1 + 2) (heapSet a pl (m1 + 2) (heapGet a pl 1))
                1 (by omega) (by omega) hP1
              rw [show (2 : Nat) * 1 = 2 from rfl] at hsd
              obtain ⟨q1, q2⟩ := hsd
              have hperm := siftDown_segPerm v pl (heapGet a pl (m1 + 2))
                (m1 + 1) (m1 + 2) (heapSet a pl (m1 + 2) (heapGet a pl 1))
                1 2 (by omega) (by omega) (by omega)
              -- every slot of the shrunk heap stays at most the old root
              have hupper : ∀ k, 1 ≤ k → k ≤ m1 + 1 →
                  v (heapGet (siftDown v pl (heapGet a pl (m1 + 2))
                    (m1 + 1) (heapSet a pl (m1 + 2) (heapGet a pl 1)) 1 2
                    (m1 + 2)) pl k) ≤ v (heapGet a pl 1) := by
                intro k hk1 hkn
                have hall : ∀ s, pl ≤ s → s ≤ pl + (m1 + 1) - 1 →
                    v ((heapSet (heapSet a pl (m1 + 2) (heapGet a pl 1))
                      pl 1 (heapGet a pl (m1 + 2))) s) ≤
                      v (heapGet a pl 1) := by
                  intro s hs1 hs2
                  by_cases hsp : s = pl
                  · rw [hsp,
                      show (heapSet (heapSet a pl (m1 + 2)
                          (heapGet a pl 1)) pl 1
                          (heapGet a pl (m1 + 2))) pl
                        = heapGet a pl (m1 + 2) from
                        setAt_get_same _ (pl + 1 - 1) _]
                    exact hmax (m1 + 2) (by omega) (by omega)
                  · rw [show (heapSet (heapSet a pl (m1 + 2)
                          (heapGet a pl 1)) pl 1
                          (heapGet a pl (m1 + 2))) s
                        = (heapSet a pl (m1 + 2) (heapGet a pl 1)) s from
                        setAt_get_other _ (pl + 1 - 1) _ s (by omega),
                      show (heapSet a pl (m1 + 2) (heapGet a pl 1)) s
                        = a s from
                        setAt_get_other _ (pl + (m1 + 2) - 1) _ s (by omega)]
                    have h2 := hmax (s - pl + 1) (by omega) (by omega)
                    have h3 : heapGet a pl (s - pl + 1) = a s := by
                      show a (pl + (s - pl + 1) - 1) = a s
                      rw [show pl + (s - pl + 1) - 1 = s from by omega]
                    rw [h3] at h2
                    exact h2
                have h3 := segPerm_forall_seg v
                  (fun x => x ≤ v (heapGet a pl 1)) hperm hall
                  (pl + k - 1) (by omega) (by omega)
                exact h3
              -- slots beyond the shrunk heap hold at least the old root
              have htail : ∀ p, m1 + 2 ≤ p → p ≤ n →
                  v (heapGet a pl 1) ≤
                    v (heapGet (siftDown v pl (heapGet a pl (m1 + 2))
                      (m1 + 1) (heapSet a pl (m1 + 2) (heapGet a pl 1)) 1 2
                      (m1 + 2)) pl p) := by
                intro p hp2 hpn
                have hout := segPerm_outside hperm (pl + p - 1)
                  (Or.inr (by omega))
                show v (heapGet a pl 1) ≤
                  v ((siftDown v pl (heapGet a pl (m1 + 2)) (m1 + 1)
                    (heapSet a pl (m1 + 2) (heapGet a pl 1)) 1 2 (m1 + 2))
                    (pl + p - 1))
                rw [hout,
                  show (heapSet (heapSet a pl (m1 + 2) (heapGet a pl 1))
                      pl 1 (heapGet a pl (m1 + 2))) (pl + p - 1)
                    = (heapSet a pl (m1 + 2) (heapGet a pl 1)) (pl + p - 1)
                    from setAt_get_other _ (pl + 1 - 1) _ _ (by omega)]
                by_cases hpe : p = m1 + 2
                · rw [show (heapSet a pl (m1 + 2) (heapGet a pl 1))
                      (pl + p - 1) = heapGet a pl 1 from by
                    rw [hpe]
                    exact setAt_get_same _ (pl + (m1 + 2) - 1) _]
                · rw [show (heapSet a pl (m1 + 2) (heapGet a pl 1))
                      (pl + p - 1)
                      = a (pl + p - 1) from
                      setAt_get_other _ (pl + (m1 + 2) - 1) _ _ (by omega)]
                  have h4 := hI3 1 p (by omega) (by omega) (by omega) hpn
                  exact h4
              refine ih (m1 + 1) (by omega) _ (by omega) ?_ ?_ ?_ p q hp
                hpq hq
              · intro k hk2 hkn
                exact q1 k hk2 hkn (by omega)
              · intro p' q' hp' hpq' hq'
                by_cases hpe : p' = m1 + 2
                · have h5 := htail p' (by omega) (by omega)
                  have h6 : v (heapGet (siftDown v pl
                      (heapGet a pl (m1 + 2)) (m1 + 1)
                      (heapSet a pl (m1 + 2) (heapGet a pl 1)) 1 2
                      (m1 + 2)) pl p') ≤ v (heapGet a pl 1) := by
                    have hout := segPerm_outside hperm (pl + p' - 1)
                      (Or.inr (by omega))
                    show v ((siftDown v pl (heapGet a pl (m1 + 2))
                      (m1 + 1) (heapSet a pl (m1 + 2) (heapGet a pl 1)) 1 2
                      (m1 + 2)) (pl + p' - 1)) ≤ v (heapGet a pl 1)
                    rw [hout,
                      show (heapSet (heapSet a pl (m1 + 2)
                          (heapGet a pl 1)) pl 1
                          (heapGet a pl (m1 + 2))) (pl + p' - 1)
                        = (heapSet a pl (m1 + 2) (heapGet a pl 1))
                          (pl + p' - 1)
                        from setAt_get_other _ (pl + 1 - 1) _ _ (by omega),
                      show (heapSet a pl (m1 + 2) (heapGet a pl 1))
                          (pl + p' - 1) = heapGet a pl 1 from by
                        rw [hpe]
                        exact setAt_get_same _ (pl + (m1 + 2) - 1) _]
                  exact le_trans h6 (htail q' (by omega) hq')
                · -- both beyond the old heap: untouched, use the old order
                  have ho1 := segPerm_outside hperm (pl + p' - 1)
                    (Or.inr (by omega))
                  have ho2 := segPerm_outside hperm (pl + q' - 1)
                    (Or.inr (by omega))
                  show v ((siftDown v pl (heapGet a pl (m1 + 2)) (m1 + 1)
                      (heapSet a pl (m1 + 2) (heapGet a pl 1)) 1 2
                      (m1 + 2)) (pl + p' - 1)) ≤
                    v ((siftDown v pl (heapGet a pl (m1 + 2)) (m1 + 1)
                      (heapSet a pl (m1 + 2) (heapGet a pl 1)) 1 2
                      (m1 + 2)) (pl + q' - 1))
                  rw [ho1, ho2,
                    show (heapSet (heapSet a pl (m1 + 2) (heapGet a pl 1))
                        pl 1 (heapGet a pl (m1 + 2))) (pl + p' - 1)
                      = (heapSet a pl (m1 + 2) (heapGet a pl 1))
                        (pl + p' - 1)
                      from setAt_get_other _ (pl + 1 - 1) _ _ (by omega),
                    show (heapSet (heapSet a pl (m1 + 2) (heapGet a pl 1))
                        pl 1 (heapGet a pl (m1 + 2))) (pl + q' - 1)
                      = (heapSet a pl (m1 + 2) (heapGet a pl 1))
                        (pl + q' - 1)
                      from setAt_get_other _ (pl + 1 - 1) _ _ (by omega),
                    show (heapSet a pl (m1 + 2) (heapGet a pl 1))
                        (pl + p' - 1) = a (pl + p' - 1) from
                      setAt_get_other _ (pl + (m1 + 2) - 1) _ _ (by omega),
                    show (heapSet a pl (m1 + 2) (heapGet a pl 1))
                        (pl + q' - 1) = a (pl + q' - 1) from
                      setAt_get_other _ (pl + (m1 + 2) - 1) _ _
                        (by omega)]
                  exact hI2 p' q' (by omega) hpq' hq'
              · intro k p' hk1 hkm hp' hpn'
                exact le_trans (hupper k hk1 hkm) (htail p' hp' hpn')

theorem heapsortSeg_sorted (v : Nat → Int) (a : Nat → Nat) (pl n : Nat) :
    ∀ s t, pl ≤ s → s ≤ t → t ≤ pl + n - 1 →
      v (heapsortSeg v a pl n s) ≤ v (heapsortSeg v a pl n t) := by
  intro s t hs hst ht
  by_cases hset : s = t
  · rw [hset]
  · have hn1 : 1 ≤ n := by omega
    have hsorted := extractGo_sorted v pl n n
      (buildHeapGo v pl n a (n / 2))
      (le_refl n)
      (buildHeapGo_heap v pl n (n / 2) a (by omega))
      (fun p q hp hpq hq => by omega)
      (fun k p hk1 hkm hp hpn => by omega)
      (s - pl + 1) (t - pl + 1) (by omega) (by omega) (by omega)
    have he1 : pl + (s - pl + 1) - 1 = s := by omega
    have he2 : pl + (t - pl + 1) - 1 = t := by omega
    show v (extractGo v pl (buildHeapGo v pl n a (n / 2)) n s) ≤
      v (extractGo v pl (buildHeapGo v pl n a (n / 2)) n t)
    rw [← he1, ← he2]
    exact hsorted

theorem aswap_get_fst (a : Nat → Nat) (i j : Nat) : aswap a i j i = a j := by
  unfold aswap
  rw [if_pos rfl]

theorem aswap_get_snd (a : Nat → Nat) (i j : Nat) (h : j ≠ i) :
    aswap a i j j = a i := by
  unfold aswap
  rw [if_neg h, if_pos rfl]

theorem aswap_get_other (a : Nat → Nat) (i j r : Nat) (h1 : r ≠ i)
    (h2 : r ≠ j) : aswap a i j r = a r := by
  unfold aswap
  rw [if_neg h1, if_neg h2]

theorem scanUp_spec (v : Nat → Int) (a : Nat → Nat) (vp : Int)
    (stop : Nat) : ∀ (fuel cur : Nat), stop - cur ≤ fuel →
    (∀ k, cur ≤ k → k < scanUp v a vp stop cur fuel → v (a k) < vp) ∧
    (stop ≤ scanUp v a vp stop cur fuel ∨
      vp ≤ v (a (scanUp v a vp stop cur fuel))) := by
  intro fuel
  induction fuel with
  | zero =>
      intro cur hcur
      have hres : scanUp v a vp stop cur 0 = cur := rfl
      constructor
      · intro k h1 h2
        rw [hres] at h2
        omega
      · left
        rw [hres]
        omega
  | succ fuel ih =>
      intro cur hcur
      have heq : scanUp v a vp stop cur (fuel + 1) =
          if cur < stop ∧ v (a cur) < vp then
            scanUp v a vp stop (cur + 1) fuel
          else cur := rfl
      rw [heq]
      split_ifs with hc
      · obtain ⟨ih1, ih2⟩ := ih (cur + 1) (by omega)
        constructor
        · intro k h1 h2
          by_cases hk : k = cur
          · rw [hk]
            exact hc.2
          · exact ih1 k (by omega) h2
        · exact ih2
      · constructor
        · intro k h1 h2
          omega
        · by_cases h1 : cur < stop
          · right
            have h2 : ¬ v (a cur) < vp := fun hv => hc ⟨h1, hv⟩
            omega
          · left
            omega

theorem scanDown_ge (v : Nat → Int) (a : Nat → Nat) (vp : Int)
    (floor : Nat) : ∀ (fuel cur : Nat), floor ≤ cur →
    floor ≤ scanDown v a vp floor cur fuel := by
  intro fuel
  induction fuel with
  | zero =>
      intro cur h
      exact h
  | succ fuel ih =>
      intro cur h
      show floor ≤ (if floor < cur ∧ vp < v (a cur) then _ else _)
      split_ifs with hc
      · exact ih (cur - 1) (by omega)
      · exact h

theorem scanDown_spec (v : Nat → Int) (a : Nat → Nat) (vp : Int)
    (floor : Nat) : ∀ (fuel cur : Nat), cur - floor ≤ fuel →
    (∀ k, scanDown v a vp floor cur fuel < k → k ≤ cur → vp < v (a k)) ∧
    (scanDown v a vp floor cur fuel ≤ floor ∨
      v (a (scanDown v a vp floor cur fuel)) ≤ vp) := by
  intro fuel
  induction fuel with
  | zero =>
      intro cur hcur
      have hres : scanDown v a vp floor cur 0 = cur := rfl
      constructor
      · intro k h1 h2
        rw [hres] at h1
        omega
      · left
        rw [hres]
        omega
  | succ fuel ih =>
      intro cur hcur
      have heq : scanDown v a vp floor cur (fuel + 1) =
          if floor < cur ∧ vp < v (a cur) then
            scanDown v a vp floor (cur - 1) fuel
          else cur := rfl
      rw [heq]
      split_ifs with hc
      · obtain ⟨ih1, ih2⟩ := ih (cur - 1) (by omega)
        have hle := scanDown_le v a vp floor fuel (cur - 1)
        constructor
        · intro k h1 h2
          by_cases hk : k = cur
          · rw [hk]
            exact hc.2
          · exact ih1 k h1 (by omega)
        · exact ih2
      · constructor
        · intro k h1 h2
          omega
        · by_cases h1 : floor < cur
          · right
            have h2 : ¬ vp < v (a cur) := fun hv => hc ⟨h1, hv⟩
            omega
          · left
            omega

theorem partLoop_fence (v : Nat → Int) (vp : Int) (pl pr : Nat) :
    ∀ (fuel : Nat) (a : Nat → Nat) (p_i p_j : Nat),
      p_j - p_i ≤ fuel → pl ≤ p_i → p_i < p_j → p_j ≤ pr - 1 →
      pl + 2 ≤ pr → v (a (pr - 1)) = vp →
      (∀ k, pl ≤ k → k ≤ p_i → v (a k) ≤ vp) →
      (∀ k, p_j ≤ k → k ≤ pr → vp ≤ v (a k)) →
      (∀ k, pl ≤ k → k + 1 ≤ (partLoop v vp pl pr a p_i p_j fuel).2 →
        v ((partLoop v vp pl pr a p_i p_j fuel).1 k) ≤ vp) ∧
      (∀ k, (partLoop v vp pl pr a p_i p_j fuel).2 ≤ k → k ≤ pr →
        vp ≤ v ((partLoop v vp pl pr a p_i p_j fuel).1 k)) ∧
      v ((partLoop v vp pl pr a p_i p_j fuel).1 (pr - 1)) = vp ∧
      pl < (partLoop v vp pl pr a p_i p_j fuel).2 ∧
      (partLoop v vp pl pr a p_i p_j fuel).2 ≤ pr - 1 := by
  intro fuel
  induction fuel with
  | zero =>
      intro a p_i p_j hfuel h1 h2 h3 h4 hS hL hR
      exact False.elim (by omega)
  | succ fuel ih =>
      intro a p_i p_j hfuel h1 h2 h3 h4 hS hL hR
      have heq : partLoop v vp pl pr a p_i p_j (fuel + 1) =
          if scanDown v a vp pl (p_j - 1) (p_j - 1 - pl) ≤
              scanUp v a vp (pr - 1) (p_i + 1) (pr - 1 - (p_i + 1)) then
            (a, scanUp v a vp (pr - 1) (p_i + 1) (pr - 1 - (p_i + 1)))
          else
            partLoop v vp pl pr
              (aswap a (scanUp v a vp (pr - 1) (p_i + 1)
                  (pr - 1 - (p_i + 1)))
                (scanDown v a vp pl (p_j - 1) (p_j - 1 - pl)))
              (scanUp v a vp (pr - 1) (p_i + 1) (pr - 1 - (p_i + 1)))
              (scanDown v a vp pl (p_j - 1) (p_j - 1 - pl)) fuel := rfl
      rw [heq]
      set i2 := scanUp v a vp (pr - 1) (p_i + 1) (pr - 1 - (p_i + 1))
        with hi2def
      set j2 := scanDown v a vp pl (p_j - 1) (p_j - 1 - pl) with hj2def
      have hi2ge : p_i + 1 ≤ i2 := by
        rw [hi2def]
        exact scanUp_ge v a vp (pr - 1) _ (p_i + 1)
      have hi2le : i2 ≤ pr - 1 := by
        rw [hi2def]
        have := scanUp_le v a vp (pr - 1) (pr - 1 - (p_i + 1)) (p_i + 1)
        omega
      have hu := scanUp_spec v a vp (pr - 1) (pr - 1 - (p_i + 1))
        (p_i + 1) (le_refl _)
      have hu1 : ∀ k, p_i + 1 ≤ k → k < i2 → v (a k) < vp := by
        rw [hi2def]
        exact hu.1
      have hu2 : vp ≤ v (a i2) := by
        rcases hu.2 with h | h
        · rw [show i2 = pr - 1 from by omega, hS]
        · rw [hi2def]
          exact h
      have hj2le : j2 ≤ p_j - 1 := by
        rw [hj2def]
        exact scanDown_le v a vp pl _ (p_j - 1)
      have hj2ge : pl ≤ j2 := by
        rw [hj2def]
        exact scanDown_ge v a vp pl _ (p_j - 1) (by omega)
      have hd := scanDown_spec v a vp pl (p_j - 1 - pl) (p_j - 1)
        (le_refl _)
      have hd1 : ∀ k, j2 < k → k ≤ p_j - 1 → vp < v (a k) := by
        rw [hj2def]
        exact hd.1
      have hd2 : v (a j2) ≤ vp := by
        rcases hd.2 with h | h
        · have hj2pl : j2 = pl := by omega
          rw [hj2pl]
          exact hL pl (le_refl _) h1
        · rw [hj2def]
          exact h
      split_ifs with hbr
      · refine ⟨?_, ?_, hS, by omega, by omega⟩
        · intro k hk1 hk2
          have hk2' : k + 1 ≤ i2 := hk2
          by_cases hkp : k ≤ p_i
          · exact hL k hk1 hkp
          · exact le_of_lt (hu1 k (by omega) (by omega))
        · intro k hk1 hk2
          have hk1' : i2 ≤ k := hk1
          by_cases hke : k = i2
          · rw [hke]
            exact hu2
          · by_cases hkj : k ≤ p_j - 1
            · exact le_of_lt (hd1 k (by omega) hkj)
            · exact hR k (by omega) hk2
      · refine ih (aswap a i2 j2) i2 j2 (by omega) (by omega) (by omega)
          (by omega) (by omega) ?_ ?_ ?_
        · rw [aswap_get_other a i2 j2 (pr - 1) (by omega) (by omega)]
          exact hS
        · intro k hk1 hk2
          by_cases hke : k = i2
          · rw [hke, aswap_get_fst]
            exact hd2
          · rw [aswap_get_other a i2 j2 k (by omega) (by omega)]
            by_cases hkp : k ≤ p_i
            · exact hL k hk1 hkp
            · exact le_of_lt (hu1 k (by omega) (by omega))
        · intro k hk1 hk2
          by_cases hke : k = j2
          · rw [hke, aswap_get_snd a i2 j2 (by omega)]
            exact hu2
          · rw [aswap_get_other a i2 j2 k (by omega) (by omega)]
            by_cases hkj : k ≤ p_j - 1
            · exact le_of_lt (hd1 k (by omega) hkj)
            · exact hR k (by omega) hk2

theorem partitionSeg_fence (v : Nat → Int) (a : Nat → Nat) (pl pr : Nat)
    (h : 15 < pr - pl) :
    (∀ k, pl ≤ k → k < (partitionSeg v a pl pr).2 →
      v ((partitionSeg v a pl pr).1 k) ≤
        v ((partitionSeg v a pl pr).1 (partitionSeg v a pl pr).2)) ∧
    (∀ k, (partitionSeg v a pl pr).2 < k → k ≤ pr →
      v ((partitionSeg v a pl pr).1 (partitionSeg v a pl pr).2) ≤
        v ((partitionSeg v a pl pr).1 k)) ∧
    pl < (partitionSeg v a pl pr).2 ∧ (partitionSeg v a pl pr).2 < pr := by
  simp only [partitionSeg]
  set pm := pl + (pr - pl) / 2 with hpm
  have hpm1 : pl < pm := by omega
  have hpm2 : pm < pr - 1 := by omega
  set a0 := if v (a pm) < v (a pl) then aswap a pm pl else a with ha0
  set a1 := if v (a0 pr) < v (a0 pm) then aswap a0 pr pm else a0 with ha1
  set a2 := if v (a1 pm) < v (a1 pl) then aswap a1 pm pl else a1 with ha2
  set a3 := aswap a2 pm (pr - 1) with ha3
  set r := partLoop v (v (a2 pm)) pl pr a3 pl (pr - 1) (pr - 1 - pl)
    with hr
  have hs1 : v (a0 pl) ≤ v (a0 pm) ∧
      (∀ q, q ≠ pl → q ≠ pm → a0 q = a q) ∧
      (a0 pl = a pl ∧ a0 pm = a pm ∨ a0 pl = a pm ∧ a0 pm = a pl) := by
    rw [ha0]
    split_ifs with hc
    · rw [aswap_get_fst, aswap_get_snd a pm pl (by omega)]
      exact ⟨le_of_lt hc, fun q hq1 hq2 =>
        aswap_get_other a pm pl q hq2 hq1, Or.inr ⟨rfl, rfl⟩⟩
    · exact ⟨by omega, fun q _ _ => rfl, Or.inl ⟨rfl, rfl⟩⟩
  have hs2 : v (a1 pm) ≤ v (a1 pr) ∧
      (∀ q, q ≠ pm → q ≠ pr → a1 q = a0 q) ∧
      (a1 pm = a0 pm ∧ a1 pr = a0 pr ∨ a1 pm = a0 pr ∧ a1 pr = a0 pm) := by
    rw [ha1]
    split_ifs with hc
    · rw [aswap_get_fst, aswap_get_snd a0 pr pm (by omega)]
      exact ⟨le_of_lt hc, fun q hq1 hq2 =>
        aswap_get_other a0 pr pm q hq2 hq1, Or.inr ⟨rfl, rfl⟩⟩
    · exact ⟨by omega, fun q _ _ => rfl, Or.inl ⟨rfl, rfl⟩⟩
  have hs3 : v (a2 pl) ≤ v (a2 pm) ∧
      (∀ q, q ≠ pl → q ≠ pm → a2 q = a1 q) ∧
      (a2 pl = a1 pl ∧ a2 pm = a1 pm ∨ a2 pl = a1 pm ∧ a2 pm = a1 pl) := by
    rw [ha2]
    split_ifs with hc
    · rw [aswap_get_fst, aswap_get_snd a1 pm pl (by omega)]
      exact ⟨le_of_lt hc, fun q hq1 hq2 =>
        aswap_get_other a1 pm pl q hq2 hq1, Or.inr ⟨rfl, rfl⟩⟩
    · exact ⟨by omega, fun q _ _ => rfl, Or.inl ⟨rfl, rfl⟩⟩
  have hmed1 : v (a2 pl) ≤ v (a2 pm) := hs3.1
  have hmed2 : v (a2 pm) ≤ v (a2 pr) := by
    have e1 : a2 pr = a1 pr := hs3.2.1 pr (by omega) (by omega)
    have e2 : a1 pl = a0 pl := hs2.2.1 pl (by omega) (by omega)
    rcases hs3.2.2 with ⟨e3, e4⟩ | ⟨e3, e4⟩
    · rw [e4, e1]
      exact hs2.1
    · rw [e4, e1, e2]
      rcases hs2.2.2 with ⟨e5, e6⟩ | ⟨e5, e6⟩
      · refine le_trans hs1.1 ?_
        rw [← e5]
        exact hs2.1
      · rw [e6]
        exact hs1.1
  have hSd : v (a3 (pr - 1)) = v (a2 pm) := by
    rw [ha3, aswap_get_snd a2 pm (pr - 1) (by omega)]
  have hfence : (∀ k, pl ≤ k → k + 1 ≤ r.2 → v (r.1 k) ≤ v (a2 pm)) ∧
      (∀ k, r.2 ≤ k → k ≤ pr → v (a2 pm) ≤ v (r.1 k)) ∧
      v (r.1 (pr - 1)) = v (a2 pm) ∧ pl < r.2 ∧ r.2 ≤ pr - 1 := by
    rw [hr]
    refine partLoop_fence v (v (a2 pm)) pl pr (pr - 1 - pl) a3 pl (pr - 1)
      (le_refl _) (le_refl _) (by omega) (le_refl _) (by omega) hSd ?_ ?_
    · intro k hk1 hk2
      have hkpl : k = pl := by omega
      rw [hkpl, ha3, aswap_get_other a2 pm (pr - 1) pl (by omega)
        (by omega)]
      exact hmed1
    · intro k hk1 hk2
      by_cases hke : k = pr - 1
      · rw [hke, hSd]
      · have hkpr : k = pr := by omega
        rw [hkpr, ha3, aswap_get_other a2 pm (pr - 1) pr (by omega)
          (by omega)]
        exact hmed2
  obtain ⟨c1, c2, c3, c4, c5⟩ := hfence
  have hpivot : v ((aswap r.1 r.2 (pr - 1), r.2).1 (aswap r.1 r.2
      (pr - 1), r.2).2) = v (a2 pm) := by
    show v (aswap r.1 r.2 (pr - 1) r.2) = v (a2 pm)
    rw [aswap_get_fst]
    exact c3
  refine ⟨?_, ?_, c4, by omega⟩
  · intro k hk1 hk2
    have hk2' : k < r.2 := hk2
    rw [hpivot]
    show v (aswap r.1 r.2 (pr - 1) k) ≤ v (a2 pm)
    rw [aswap_get_other r.1 r.2 (pr - 1) k (by omega) (by omega)]
    exact c1 k hk1 (by omega)
  · intro k hk1 hk2
    have hk1' : r.2 < k := hk1
    rw [hpivot]
    show v (a2 pm) ≤ v (aswap r.1 r.2 (pr - 1) k)
    by_cases hke : k = pr - 1
    · rw [hke, aswap_get_snd r.1 r.2 (pr - 1) (by omega)]
      exact c2 r.2 (le_refl _) (by omega)
    · rw [aswap_get_other r.1 r.2 (pr - 1) k (by omega) (by omega)]
      exact c2 k (by omega) hk2

theorem insSortSeg_sorted (v : Nat → Int) (a : Nat → Nat) (pl pr : Nat) :
    ∀ i j, pl ≤ i → i ≤ j → j ≤ pr →
      v (insSortSeg v a pl pr i) ≤ v (insSortSeg v a pl pr j) := by
  intro i j h1 h2 h3
  refine insSortGo_sorted v pl pr (pr - pl) a (pl + 1) (le_refl _)
    (by omega) ?_ i j h1 h2 h3
  intro i' j' h1' h2' h3'
  have : i' = j' := by omega
  rw [this]

theorem qsLoop_sorted (v : Nat → Int) :
    ∀ (fuel : Nat) (a : Nat → Nat) (pl pr : Nat) (dl : Int),
      pr - pl < fuel →
      ∀ s t, pl ≤ s → s ≤ t → t ≤ pr →
        v ((qsLoop v a pl pr dl fuel).1 s) ≤
          v ((qsLoop v a pl pr dl fuel).1 t) := by
  intro fuel
  induction fuel with
  | zero =>
      intro a pl pr dl hfuel
      exact False.elim (by omega)
  | succ fuel ih =>
      intro a pl pr dl hfuel s t hs hst ht
      simp only [qsLoop]
      split_ifs with h16 hdl hside
      · exact heapsortSeg_sorted v a pl (pr - pl + 1) s t hs hst (by omega)
      · obtain ⟨f1, f2, f3, f4⟩ := partitionSeg_fence v a pl pr (by omega)
        set pi := (partitionSeg v a pl pr).2 with hpidef
        set b0 := (partitionSeg v a pl pr).1 with hb0def
        set r1 := qsLoop v b0 pl (pi - 1) (dl - 1) fuel with hr1def
        have hperm1 : SegPerm pl (pi - 1) b0 r1.1 := by
          rw [hr1def]
          exact qsLoop_segPerm v fuel b0 pl (pi - 1) (dl - 1)
        have hperm2 : SegPerm (pi + 1) pr r1.1
            (qsLoop v r1.1 (pi + 1) pr r1.2 fuel).1 :=
          qsLoop_segPerm v fuel r1.1 (pi + 1) pr r1.2
        have hs1 : ∀ u w, pl ≤ u → u ≤ w → w ≤ pi - 1 →
            v (r1.1 u) ≤ v (r1.1 w) := by
          rw [hr1def]
          intro u w h1 h2 h3
          exact ih b0 pl (pi - 1) (dl - 1) (by omega) u w h1 h2 h3
        have hs2 : ∀ u w, pi + 1 ≤ u → u ≤ w → w ≤ pr →
            v ((qsLoop v r1.1 (pi + 1) pr r1.2 fuel).1 u) ≤
              v ((qsLoop v r1.1 (pi + 1) pr r1.2 fuel).1 w) :=
          fun u w h1 h2 h3 =>
            ih r1.1 (pi + 1) pr r1.2 (by omega) u w h1 h2 h3
        have e1 : ∀ k, k ≤ pi →
            (qsLoop v r1.1 (pi + 1) pr r1.2 fuel).1 k = r1.1 k :=
          fun k hk => segPerm_outside hperm2 k (Or.inl (by omega))
        have e2 : ∀ k, pi ≤ k → r1.1 k = b0 k :=
          fun k hk => segPerm_outside hperm1 k (Or.inr (by omega))
        have hpiv : (qsLoop v r1.1 (pi + 1) pr r1.2 fuel).1 pi = b0 pi := by
          rw [e1 pi (le_refl _), e2 pi (le_refl _)]
        have hvL : ∀ k, pl ≤ k → k < pi →
            v ((qsLoop v r1.1 (pi + 1) pr r1.2 fuel).1 k) ≤ v (b0 pi) := by
          intro k hk1 hk2
          rw [e1 k (by omega)]
          exact segPerm_forall_seg v (fun x => x ≤ v (b0 pi)) hperm1
            (fun m hm1 hm2 => f1 m hm1 (by omega)) k hk1 (by omega)
        have hvR : ∀ k, pi < k → k ≤ pr →
            v (b0 pi) ≤ v ((qsLoop v r1.1 (pi + 1) pr r1.2 fuel).1 k) := by
          intro k hk1 hk2
          exact segPerm_forall_seg v (fun x => v (b0 pi) ≤ x) hperm2
            (fun m hm1 hm2 => by
              rw [e2 m (by omega)]
              exact f2 m (by omega) hm2) k (by omega) hk2
        by_cases htp : t < pi
        · rw [e1 s (by omega), e1 t (by omega)]
          exact hs1 s t hs hst (by omega)
        · by_cases hte : t = pi
          · rw [hte, hpiv]
            by_cases hse : s = pi
            · rw [hse, hpiv]
            · exact hvL s hs (by omega)
          · by_cases hsp : pi < s
            · exact hs2 s t (by omega) hst ht
            · by_cases hse : s = pi
              · rw [hse, hpiv]
                exact hvR t (by omega) ht
              · exact le_trans (hvL s hs (by omega)) (hvR t (by omega) ht)
      · obtain ⟨f1, f2, f3, f4⟩ := partitionSeg_fence v a pl pr (by omega)
        set pi := (partitionSeg v a pl pr).2 with hpidef
        set b0 := (partitionSeg v a pl pr).1 with hb0def
        set r1 := qsLoop v b0 (pi + 1) pr (dl - 1) fuel with hr1def
        have hperm1 : SegPerm (pi + 1) pr b0 r1.1 := by
          rw [hr1def]
          exact qsLoop_segPerm v fuel b0 (pi + 1) pr (dl - 1)
        have hperm2 : SegPerm pl (pi - 1) r1.1
            (qsLoop v r1.1 pl (pi - 1) r1.2 fuel).1 :=
          qsLoop_segPerm v fuel r1.1 pl (pi - 1) r1.2
        have hs1 : ∀ u w, pi + 1 ≤ u → u ≤ w → w ≤ pr →
            v (r1.1 u) ≤ v (r1.1 w) := by
          rw [hr1def]
          intro u w h1 h2 h3
          exact ih b0 (pi + 1) pr (dl - 1) (by omega) u w h1 h2 h3
        have hs2 : ∀ u w, pl ≤ u → u ≤ w → w ≤ pi - 1 →
            v ((qsLoop v r1.1 pl (pi - 1) r1.2 fuel).1 u) ≤
              v ((qsLoop v r1.1 pl (pi - 1) r1.2 fuel).1 w) :=
          fun u w h1 h2 h3 =>
            ih r1.1 pl (pi - 1) r1.2 (by omega) u w h1 h2 h3
        have e1 : ∀ k, pi ≤ k →
            (qsLoop v r1.1 pl (pi - 1) r1.2 fuel).1 k = r1.1 k :=
          fun k hk => segPerm_outside hperm2 k (Or.inr (by omega))
        have e2 : ∀ k, k ≤ pi → r1.1 k = b0 k :=
          fun k hk => segPerm_outside hperm1 k (Or.inl (by omega))
        have hpiv : (qsLoop v r1.1 pl (pi - 1) r1.2 fuel).1 pi = b0 pi := by
          rw [e1 pi (le_refl _), e2 pi (le_refl _)]
        have hvL : ∀ k, pl ≤ k → k < pi →
            v ((qsLoop v r1.1 pl (pi - 1) r1.2 fuel).1 k) ≤ v (b0 pi) := by
          intro k hk1 hk2
          exact segPerm_forall_seg v (fun x => x ≤ v (b0 pi)) hperm2
            (fun m hm1 hm2 => by
              rw [e2 m (by omega)]
              exact f1 m hm1 (by omega)) k hk1 (by omega)
        have hvR : ∀ k, pi < k → k ≤ pr →
            v (b0 pi) ≤ v ((qsLoop v r1.1 pl (pi - 1) r1.2 fuel).1 k) := by
          intro k hk1 hk2
          rw [e1 k (by omega)]
          exact segPerm_forall_seg v (fun x => v (b0 pi) ≤ x) hperm1
            (fun m hm1 hm2 => f2 m (by omega) hm2) k (by omega) hk2
        by_cases htp : t < pi
        · exact hs2 s t hs hst (by omega)
        · by_cases hte : t = pi
          · rw [hte, hpiv]
            by_cases hse : s = pi
            · rw [hse, hpiv]
            · exact hvL s hs (by omega)
          · by_cases hsp : pi < s
            · rw [e1 s (by omega), e1 t (by omega)]
              exact hs1 s t (by omega) hst ht
            · by_cases hse : s = pi
              · rw [hse, hpiv]
                exact hvR t (by omega) ht
              · exact le_trans (hvL s hs (by omega)) (hvR t (by omega) ht)
      · exact insSortSeg_sorted v a pl pr s t hs hst ht

theorem argsortNp_sorted (v : Nat → Int) (n : Nat) :
    ∀ s t, s ≤ t → t ≤ n - 1 →
      v (argsortNp v n s) ≤ v (argsortNp v n t) := by
  unfold argsortNp
  split_ifs with h
  · intro s t hst ht
    have hset : s = t := by omega
    rw [hset]
  · intro s t hst ht
    exact qsLoop_sorted v n id 0 (n - 1) (2 * Nat.log2 n) (by omega) s t
      (Nat.zero_le s) hst ht

theorem rowSum_nil (race_subset : List Nat) : rowSum [] race_subset = 0 := by
  induction race_subset with
  | nil => rfl
  | cons c cs ih =>
      unfold rowSum at ih ⊢
      rw [List.map_cons, List.sum_cons, ih, List.getD_nil]
      rfl

theorem getD_subsetScores (race_subset : List Nat) :
    ∀ (scores : List (List Int)) (m : Nat),
      (subsetScoresOf scores race_subset).getD m 0
        = rowSum (scores.getD m []) race_subset := by
  intro scores
  induction scores with
  | nil =>
      intro m
      show (List.getD [] m 0 : Int) = rowSum (List.getD [] m []) race_subset
      rw [List.getD_nil, List.getD_nil, rowSum_nil]
  | cons row rows ih =>
      intro m
      cases m with
      | zero =>
          show List.getD (rowSum row race_subset ::
            subsetScoresOf rows race_subset) 0 0 = _
          rw [List.getD_cons_zero, List.getD_cons_zero]
      | succ m0 =>
          show List.getD (rowSum row race_subset ::
            subsetScoresOf rows race_subset) (m0 + 1) 0 = _
          rw [List.getD_cons_succ, List.getD_cons_succ]
          exact ih m0

theorem argsort_range_perm (v : Nat → Int) (n : Nat) :
    ((List.range n).map (argsortNp v n)).Perm (List.range n) := by
  have hnodup : ((List.range n).map (argsortNp v n)).Nodup :=
    (List.nodup_range n).map (argsortNp_bijective v n).injective
  have hsub : ((List.range n).map (argsortNp v n)) ⊆ List.range n := by
    intro x hx
    rcases List.mem_map.mp hx with ⟨k, hk, hfk⟩
    rw [← hfk]
    exact List.mem_range.mpr (argsortNp_lt v n k (List.mem_range.mp hk))
  have hsp := List.subperm_of_subset hnodup hsub
  refine hsp.perm_of_length_le ?_
  rw [List.length_map]

theorem insShift_stable (v : Nat → Int) (vi pl : Nat) :
    ∀ (fuel : Nat) (a : Nat → Nat) (pj : Nat), pl ≤ pj → pj - pl ≤ fuel →
      (∀ i j, pl ≤ i → i < j → j + 1 ≤ pj →
        v (a i) < v (a j) ∨ (v (a i) = v (a j) ∧ a i < a j)) →
      (∀ k, pl ≤ k → k + 1 ≤ pj → a k < vi) →
      (∀ i j, pl ≤ i → i < j → j ≤ pj →
        v (insShift v vi pl a pj fuel i) < v (insShift v vi pl a pj fuel j)
          ∨ (v (insShift v vi pl a pj fuel i)
              = v (insShift v vi pl a pj fuel j) ∧
            insShift v vi pl a pj fuel i < insShift v vi pl a pj fuel j))
      ∧ (∀ k, pl ≤ k → k ≤ pj →
        insShift v vi pl a pj fuel k = vi ∨
        ∃ m, pl ≤ m ∧ m + 1 ≤ pj ∧
          insShift v vi pl a pj fuel k = a m) := by
  intro fuel
  induction fuel with
  | zero =>
      intro a pj hp hf hks hidx
      have hpj : pj = pl := by omega
      constructor
      · intro i j h1 h2 h3
        exact False.elim (by omega)
      · intro k h1 h2
        have hk : k = pj := by omega
        left
        rw [hk]
        exact setAt_get_same a pj vi
  | succ fuel ih =>
      intro a pj hp hf hks hidx
      have heq : insShift v vi pl a pj (fuel + 1) =
          if pl < pj ∧ v vi < v (a (pj - 1)) then
            insShift v vi pl (setAt a pj (a (pj - 1))) (pj - 1) fuel
          else setAt a pj vi := rfl
      rw [heq]
      split_ifs with hc
      · obtain ⟨ih1, ih2⟩ := ih (setAt a pj (a (pj - 1))) (pj - 1)
          (by omega) (by omega)
          (by
            intro i j h1 h2 h3
            rw [setAt_get_other a pj _ i (by omega),
              setAt_get_other a pj _ j (by omega)]
            exact hks i j h1 h2 (by omega))
          (by
            intro k h1 h2
            rw [setAt_get_other a pj _ k (by omega)]
            exact hidx k h1 (by omega))
        have hout : insShift v vi pl (setAt a pj (a (pj - 1))) (pj - 1)
            fuel pj = a (pj - 1) := by
          rw [insShift_outside v vi pl fuel (setAt a pj (a (pj - 1)))
            (pj - 1) pj (by omega) (by omega)]
          exact setAt_get_same a pj (a (pj - 1))
        constructor
        · intro i j h1 h2 h3
          by_cases hj : j = pj
          · rw [hj, hout]
            have hile : i ≤ pj - 1 := by omega
            rcases ih2 i h1 hile with hvi | ⟨m, hm1, hm2, hme⟩
            · rw [hvi]
              left
              exact hc.2
            · rw [hme, setAt_get_other a pj _ m (by omega)]
              exact hks m (pj - 1) hm1 (by omega) (by omega)
          · exact ih1 i j h1 h2 (by omega)
        · intro k h1 h2
          by_cases hk : k = pj
          · rw [hk, hout]
            right
            exact ⟨pj - 1, by omega, by omega, rfl⟩
          · rcases ih2 k h1 (by omega) with hvi | ⟨m, hm1, hm2, hme⟩
            · exact Or.inl hvi
            · right
              refine ⟨m, hm1, by omega, ?_⟩
              rw [hme, setAt_get_other a pj _ m (by omega)]
      · have hv2 : pl < pj → v (a (pj - 1)) ≤ v vi := by
          intro hlt
          by_contra hgt
          exact hc ⟨hlt, by omega⟩
        constructor
        · intro i j h1 h2 h3
          by_cases hj : j = pj
          · rw [hj, setAt_get_same a pj vi,
              setAt_get_other a pj vi i (by omega)]
            have hplpj : pl < pj := by omega
            have hvle : v (a i) ≤ v vi := by
              by_cases hij : i = pj - 1
              · rw [hij]
                exact hv2 hplpj
              · have hkey := hks i (pj - 1) h1 (by omega) (by omega)
                have := hv2 hplpj
                rcases hkey with h | ⟨h, _⟩ <;> omega
            by_cases hstrict : v (a i) < v vi
            · exact Or.inl hstrict
            · exact Or.inr ⟨by omega, hidx i h1 (by omega)⟩
          · rw [setAt_get_other a pj vi i (by omega),
              setAt_get_other a pj vi j (by omega)]
            exact hks i j h1 h2 (by omega)
        · intro k h1 h2
          by_cases hk : k = pj
          · rw [hk, setAt_get_same a pj vi]
            exact Or.inl rfl
          · right
            refine ⟨k, h1, by omega, ?_⟩
            rw [setAt_get_other a pj vi k (by omega)]

theorem insSortGo_stable (v : Nat → Int) (pl pr : Nat) :
    ∀ (fuel : Nat) (a : Nat → Nat) (pi : Nat), pl + 1 ≤ pi →
      pr + 1 ≤ pi + fuel →
      (∀ i j, pl ≤ i → i < j → j + 1 ≤ pi →
        v (a i) < v (a j) ∨ (v (a i) = v (a j) ∧ a i < a j)) →
      (∀ k, pi ≤ k → a k = k) →
      (∀ k, pl ≤ k → k + 1 ≤ pi → a k < pi) →
      ∀ i j, pl ≤ i → i < j → j ≤ pr →
        v (insSortGo v pl pr a pi fuel i) <
            v (insSortGo v pl pr a pi fuel j) ∨
          (v (insSortGo v pl pr a pi fuel i)
              = v (insSortGo v pl pr a pi fuel j) ∧
            insSortGo v pl pr a pi fuel i <
              insSortGo v pl pr a pi fuel j) := by
  intro fuel
  induction fuel with
  | zero =>
      intro a pi hp hfuel hks hid hsmall i j h1 h2 h3
      exact hks i j h1 h2 (by omega)
  | succ fuel ih =>
      intro a pi hp hfuel hks hid hsmall i j h1 h2 h3
      have heq : insSortGo v pl pr a pi (fuel + 1) =
          if pi ≤ pr then
            insSortGo v pl pr (insShift v (a pi) pl a pi (pi - pl)) (pi + 1)
              fuel
          else a := rfl
      rw [heq]
      split_ifs with hc
      · obtain ⟨st1, st2⟩ := insShift_stable v (a pi) pl (pi - pl) a pi
          (by omega) (le_refl _) (fun u w g1 g2 g3 => hks u w g1 g2 g3)
          (by
            intro k hk1 hk2
            rw [hid pi (le_refl _)]
            exact hsmall k hk1 hk2)
        refine ih (insShift v (a pi) pl a pi (pi - pl)) (pi + 1) (by omega)
          (by omega) (fun u w g1 g2 g3 => st1 u w g1 g2 (by omega))
          ?_ ?_ i j h1 h2 h3
        · intro k hk
          rw [insShift_outside v (a pi) pl (pi - pl) a pi k (by omega)
            (by omega)]
          exact hid k (by omega)
        · intro k hk1 hk2
          rcases st2 k hk1 (by omega) with hvi | ⟨m, hm1, hm2, hme⟩
          · rw [hvi, hid pi (le_refl _)]
            omega
          · rw [hme]
            have := hsmall m hm1 hm2
            omega
      · exact hks i j h1 h2 (by omega)

theorem insSortSeg_stable_id (v : Nat → Int) (pl pr : Nat) :
    ∀ i j, pl ≤ i → i < j → j ≤ pr →
      v (insSortSeg v id pl pr i) < v (insSortSeg v id pl pr j) ∨
        (v (insSortSeg v id pl pr i) = v (insSortSeg v id pl pr j) ∧
          insSortSeg v id pl pr i < insSortSeg v id pl pr j) := by
  intro i j h1 h2 h3
  refine insSortGo_stable v pl pr (pr - pl) id (pl + 1) (le_refl _)
    (by omega) ?_ ?_ ?_ i j h1 h2 h3
  · intro u w g1 g2 g3
    exact False.elim (by omega)
  · intro k _
    rfl
  · intro k hk1 hk2
    show k < pl + 1
    omega

theorem argsortNp_stable_small (v : Nat → Int) (n : Nat) (hn : n ≤ 16) :
    ∀ i j, i < j → j ≤ n - 1 →
      v (argsortNp v n i) < v (argsortNp v n j) ∨
        (v (argsortNp v n i) = v (argsortNp v n j) ∧
          argsortNp v n i < argsortNp v n j) := by
  by_cases h1 : n ≤ 1
  · intro i j hij hj
    exact False.elim (by omega)
  · have hunf : argsortNp v n = insSortSeg v id 0 (n - 1) := by
      unfold argsortNp
      rw [if_neg h1]
      obtain ⟨n0, rfl⟩ : ∃ n0, n = n0 + 1 := ⟨n - 1, by omega⟩
      show (qsLoop v id 0 (n0 + 1 - 1) (2 * Nat.log2 (n0 + 1))
        (n0 + 1)).1 = _
      simp only [qsLoop]
      rw [if_neg (by omega : ¬ 15 < n0 + 1 - 1 - 0)]
    intro i j hij hj
    rw [hunf]
    exact insSortSeg_stable_id v 0 (n - 1) i j (Nat.zero_le i) hij hj

/-- C2: for every drivers list, every points matrix with one row per
driver, and every non-empty race subset of valid column indices,
`calculate_standings` returns the drivers and the per-driver subset sums
gathered through one and the same permutation of the driver indices, with
the sums sorted in descending order, each sum being exactly that driver's
points total over the subset's columns. -/
theorem C2_calculate_standings (drivers : List String)
    (scores : List (List Int)) (race_subset : List Nat)
    (hrows : scores.length = drivers.length)
    (_hsub : race_subset ≠ [])
    (_hcols : ∀ c ∈ race_subset, ∀ row ∈ scores, c < row.length) :
    ∃ p : List Nat, p.Perm (List.range drivers.length) ∧
      (calculate_standings drivers scores race_subset).1
        = p.map (fun k => drivers.getD k "") ∧
      (calculate_standings drivers scores race_subset).2
        = p.map (fun k => rowSum (scores.getD k []) race_subset) ∧
      List.Pairwise (fun x y => y ≤ x)
        (calculate_standings drivers scores race_subset).2 := by
  have hlen : (subsetScoresOf scores race_subset).length = drivers.length := by
    unfold subsetScoresOf
    rw [List.length_map, hrows]
  refine ⟨(List.range (subsetScoresOf scores race_subset).length).map
      (argsortNp
        (fun i => -((subsetScoresOf scores race_subset).getD i 0))
        (subsetScoresOf scores race_subset).length), ?_, ?_, ?_, ?_⟩
  · rw [← hlen]
    exact argsort_range_perm _ _
  · show (List.range (subsetScoresOf scores race_subset).length).map
        (fun k => drivers.getD
          (argsortNp
            (fun i => -((subsetScoresOf scores race_subset).getD i 0))
            (subsetScoresOf scores race_subset).length k) "") = _
    rw [List.map_map]
    rfl
  · show (List.range (subsetScoresOf scores race_subset).length).map
        (fun k => (subsetScoresOf scores race_subset).getD
          (argsortNp
            (fun i => -((subsetScoresOf scores race_subset).getD i 0))
            (subsetScoresOf scores race_subset).length k) 0) = _
    rw [List.map_map]
    exact congrArg
      (fun F => List.map F
        (List.range (subsetScoresOf scores race_subset).length))
      (funext fun k => getD_subsetScores race_subset scores _)
  · show List.Pairwise (fun x y => y ≤ x)
      ((List.range (subsetScoresOf scores race_subset).length).map
        (fun k => (subsetScoresOf scores race_subset).getD
          (argsortNp
            (fun i => -((subsetScoresOf scores race_subset).getD i 0))
            (subsetScoresOf scores race_subset).length k) 0))
    rw [List.pairwise_iff_getElem]
    intro i j hi hj hij
    simp only [List.getElem_map, List.getElem_range]
    have hi' : i < (subsetScoresOf scores race_subset).length := by
      simpa using hi
    have hj' : j < (subsetScoresOf scores race_subset).length := by
      simpa using hj
    have hs := argsortNp_sorted
      (fun i => -((subsetScoresOf scores race_subset).getD i 0))
      (subsetScoresOf scores race_subset).length i j (le_of_lt hij)
      (by omega)
    have hs2 : -((subsetScoresOf scores race_subset).getD
        (argsortNp
          (fun i => -((subsetScoresOf scores race_subset).getD i 0))
          (subsetScoresOf scores race_subset).length i) 0) ≤
        -((subsetScoresOf scores race_subset).getD
        (argsortNp
          (fun i => -((subsetScoresOf scores race_subset).getD i 0))
          (subsetScoresOf scores race_subset).length j) 0) := hs
    omega

/-- Witness for C2 at a concrete two-driver, two-race input. -/
theorem C2_calculate_standings_witness :
    ∃ p : List Nat,
      p.Perm (List.range (["VER", "NOR"] : List String).length) ∧
      (calculate_standings ["VER", "NOR"] [[25, 18], [18, 25]] [0, 1]).1
        = p.map (fun k => (["VER", "NOR"] : List String).getD k "") ∧
      (calculate_standings ["VER", "NOR"] [[25, 18], [18, 25]] [0, 1]).2
        = p.map (fun k =>
            rowSum (([[25, 18], [18, 25]] : List (List Int)).getD k [])
              [0, 1]) ∧
      List.Pairwise (fun x y => y ≤ x)
        (calculate_standings ["VER", "NOR"] [[25, 18], [18, 25]]
          [0, 1]).2 :=
  C2_calculate_standings ["VER", "NOR"] [[25, 18], [18, 25]] [0, 1] rfl
    (by decide) (by decide)

/-- C3 (amended): for at most sixteen drivers, `calculate_standings` is a
stable descending sort — the returned order is the unique permutation of
the driver indices that sorts strictly by the key (negated subset score,
original index): ties keep the original driver-list order.  Above sixteen
drivers NumPy's default quicksort leaves the insertion-sort regime and
stability fails (see the seventeen-driver counterexample). -/
theorem C3_stable_tiebreak_upto_16 (drivers : List String)
    (scores : List (List Int)) (race_subset : List Nat)
    (hrows : scores.length = drivers.length)
    (hn : drivers.length ≤ 16) :
    ∃ p : List Nat, p.Perm (List.range drivers.length) ∧
      (calculate_standings drivers scores race_subset).1
        = p.map (fun k => drivers.getD k "") ∧
      (calculate_standings drivers scores race_subset).2
        = p.map (fun k => rowSum (scores.getD k []) race_subset) ∧
      List.Pairwise (fun i j =>
        rowSum (scores.getD j []) race_subset <
            rowSum (scores.getD i []) race_subset ∨
          (rowSum (scores.getD i []) race_subset
              = rowSum (scores.getD j []) race_subset ∧ i < j)) p := by
  have hlen : (subsetScoresOf scores race_subset).length
      = drivers.length := by
    unfold subsetScoresOf
    rw [List.length_map, hrows]
  refine ⟨(List.range (subsetScoresOf scores race_subset).length).map
      (argsortNp
        (fun i => -((subsetScoresOf scores race_subset).getD i 0))
        (subsetScoresOf scores race_subset).length), ?_, ?_, ?_, ?_⟩
  · rw [← hlen]
    exact argsort_range_perm _ _
  · show (List.range (subsetScoresOf scores race_subset).length).map
        (fun k => drivers.getD
          (argsortNp
            (fun i => -((subsetScoresOf scores race_subset).getD i 0))
            (subsetScoresOf scores race_subset).length k) "") = _
    rw [List.map_map]
    rfl
  · show (List.range (subsetScoresOf scores race_subset).length).map
        (fun k => (subsetScoresOf scores race_subset).getD
          (argsortNp
            (fun i => -((subsetScoresOf scores race_subset).getD i 0))
            (subsetScoresOf scores race_subset).length k) 0) = _
    rw [List.map_map]
    exact congrArg
      (fun F => List.map F
        (List.range (subsetScoresOf scores race_subset).length))
      (funext fun k => getD_subsetScores race_subset scores _)
  · rw [List.pairwise_iff_getElem]
    intro i j hi hj hij
    simp only [List.getElem_map, List.getElem_range]
    have hi' : i < (subsetScoresOf scores race_subset).length := by
      simpa using hi
    have hj' : j < (subsetScoresOf scores race_subset).length := by
      simpa using hj
    have hkey := argsortNp_stable_small
      (fun i => -((subsetScoresOf scores race_subset).getD i 0))
      (subsetScoresOf scores race_subset).length (by omega) i j hij
      (by omega)
    have e1 := getD_subsetScores race_subset scores
      (argsortNp
        (fun i => -((subsetScoresOf scores race_subset).getD i 0))
        (subsetScoresOf scores race_subset).length i)
    have e2 := getD_subsetScores race_subset scores
      (argsortNp
        (fun i => -((subsetScoresOf scores race_subset).getD i 0))
        (subsetScoresOf scores race_subset).length j)
    rcases hkey with h | ⟨h, hidx⟩
    · left
      have h' : -((subsetScoresOf scores race_subset).getD
          (argsortNp
            (fun i => -((subsetScoresOf scores race_subset).getD i 0))
            (subsetScoresOf scores race_subset).length i) 0) <
          -((subsetScoresOf scores race_subset).getD
          (argsortNp
            (fun i => -((subsetScoresOf scores race_subset).getD i 0))
            (subsetScoresOf scores race_subset).length j) 0) := h
      omega
    · right
      have h' : -((subsetScoresOf scores race_subset).getD
          (argsortNp
            (fun i => -((subsetScoresOf scores race_subset).getD i 0))
            (subsetScoresOf scores race_subset).length i) 0) =
          -((subsetScoresOf scores race_subset).getD
          (argsortNp
            (fun i => -((subsetScoresOf scores race_subset).getD i 0))
            (subsetScoresOf scores race_subset).length j) 0) := h
      exact ⟨by omega, hidx⟩

/-- Witness for the amended C3 at Scenario A's tied full season. -/
theorem C3_stable_tiebreak_upto_16_witness :
    ∃ p : List Nat,
      p.Perm (List.range (["VER", "NOR", "LEC"] : List String).length) ∧
      (calculate_standings ["VER", "NOR", "LEC"]
          [[25, 18], [18, 25], [15, 15]] [0, 1]).1
        = p.map (fun k => (["VER", "NOR", "LEC"] : List String).getD k "") ∧
      (calculate_standings ["VER", "NOR", "LEC"]
          [[25, 18], [18, 25], [15, 15]] [0, 1]).2
        = p.map (fun k =>
            rowSum
              (([[25, 18], [18, 25], [15, 15]] : List (List Int)).getD k [])
              [0, 1]) ∧
      List.Pairwise (fun i j =>
        rowSum
            (([[25, 18], [18, 25], [15, 15]] : List (List Int)).getD j [])
            [0, 1] <
          rowSum
            (([[25, 18], [18, 25], [15, 15]] : List (List Int)).getD i [])
            [0, 1] ∨
        (rowSum
            (([[25, 18], [18, 25], [15, 15]] : List (List Int)).getD i [])
            [0, 1]
          = rowSum
            (([[25, 18], [18, 25], [15, 15]] : List (List Int)).getD j [])
            [0, 1] ∧ i < j)) p :=
  C3_stable_tiebreak_upto_16 ["VER", "NOR", "LEC"]
    [[25, 18], [18, 25], [15, 15]] [0, 1] rfl (by decide)

theorem statsFind_nil (d : String) : statsFind [] d = none := rfl

theorem statsFind_cons (e : String × StatInfo)
    (es : List (String × StatInfo)) (d : String) :
    statsFind (e :: es) d
      = if (e.1 == d) = true then some e.2 else statsFind es d := by
  cases he : e.1 == d <;>
    simp [statsFind, List.find?_cons, he]

theorem statsUpdate_cons (e : String × StatInfo)
    (es : List (String × StatInfo)) (d : String) (f : StatInfo → StatInfo) :
    statsUpdate (e :: es) d f
      = (if (e.1 == d) = true then (e.1, f e.2) else e) :: statsUpdate es d f
    := rfl

theorem statsFind_update_self (stats : List (String × StatInfo))
    (d : String) (f : StatInfo → StatInfo) :
    statsFind (statsUpdate stats d f) d = (statsFind stats d).map f := by
  induction stats with
  | nil => rfl
  | cons e es ih =>
      rw [statsUpdate_cons]
      cases he : e.1 == d with
      | true => simp [statsFind_cons, he]
      | false => simp [statsFind_cons, he, ih]

theorem statsFind_update_other (stats : List (String × StatInfo))
    (d d' : String) (f : StatInfo → StatInfo) (h : d' ≠ d) :
    statsFind (statsUpdate stats d f) d' = statsFind stats d' := by
  induction stats with
  | nil => rfl
  | cons e es ih =>
      rw [statsUpdate_cons]
      cases he : e.1 == d with
      | true =>
          have he' : e.1 = d := by simpa using he
          have hne : (e.1 == d') = false := by
            rw [he']
            simpa using fun hc => h hc.symm
          simp [statsFind_cons, hne, ih]
      | false =>
          cases he2 : e.1 == d' with
          | true => simp [statsFind_cons, he, he2]
          | false => simp [statsFind_cons, he, he2, ih]

theorem statsFind_append_absent (stats : List (String × StatInfo))
    (d : String) (x : String × StatInfo) (h : statsFind stats d = none) :
    statsFind (stats ++ [x]) d
      = if (x.1 == d) = true then some x.2 else none := by
  induction stats with
  | nil =>
      rw [List.nil_append, statsFind_cons, statsFind_nil]
  | cons e es ih =>
      rw [statsFind_cons] at h
      by_cases he : (e.1 == d) = true
      · rw [if_pos he] at h
        exact Option.noConfusion h
      · rw [if_neg he] at h
        rw [List.cons_append, statsFind_cons, if_neg he]
        exact ih h

theorem statsFind_append_other (stats : List (String × StatInfo))
    (d d' : String) (y : StatInfo) (h : d' ≠ d) :
    statsFind (stats ++ [(d, y)]) d' = statsFind stats d' := by
  induction stats with
  | nil =>
      have hne : (d == d') = false := by
        simpa using fun hc => h hc.symm
      simp [statsFind_cons, statsFind_nil, hne]
  | cons e es ih =>
      rw [List.cons_append, statsFind_cons, statsFind_cons, ih]

theorem scanDriver_find_other (cid nr : Nat)
    (stats : List (String × StatInfo)) (pos : Nat) (d d' : String)
    (h : d' ≠ d) :
    statsFind (scanDriver cid nr stats pos d) d' = statsFind stats d' := by
  unfold scanDriver
  cases hfind : statsFind stats d with
  | none => exact statsFind_append_other stats d d' _ h
  | some s =>
      dsimp only
      split_ifs with h1 h2
      · exact statsFind_update_other stats d d' _ h
      · exact statsFind_update_other stats d d' _ h
      · rfl

theorem scanDriver_find_self (cid nr : Nat)
    (stats : List (String × StatInfo)) (pos : Nat) (d : String) :
    ∃ s', statsFind (scanDriver cid nr stats pos d) d = some s' ∧
      s'.highest_position ≤ pos ∧
      (∀ s, statsFind stats d = some s →
        s'.highest_position ≤ s.highest_position) ∧
      (s'.highest_position = pos ∨
        ∃ s, statsFind stats d = some s ∧
          s'.highest_position = s.highest_position) := by
  unfold scanDriver
  cases hfind : statsFind stats d with
  | none =>
      refine ⟨⟨pos, nr, cid, none, none, 0⟩, ?_, le_refl _, ?_, Or.inl rfl⟩
      · rw [statsFind_append_absent stats d _ hfind]
        simp
      · intro s hs
        exact Option.noConfusion hs
  | some s =>
      dsimp only
      split_ifs with h1 h2
      · refine ⟨⟨pos, nr, cid, s.best_margin,
          s.best_margin_championship_id, s.win_count⟩, ?_, le_refl _, ?_,
          Or.inl rfl⟩
        · rw [statsFind_update_self, hfind]
          rfl
        · intro s0 hs0
          have hss : s0 = s := (Option.some.inj hs0).symm
          rw [hss]
          exact le_of_lt h1
      · refine ⟨⟨s.highest_position, nr, cid, s.best_margin,
          s.best_margin_championship_id, s.win_count⟩, ?_, ?_, ?_, ?_⟩
        · rw [statsFind_update_self, hfind]
          rfl
        · show s.highest_position ≤ pos
          omega
        · intro s0 hs0
          have hss : s0 = s := (Option.some.inj hs0).symm
          rw [hss]
        · exact Or.inr ⟨s, rfl, rfl⟩
      · refine ⟨s, hfind, by omega, ?_, Or.inr ⟨s, rfl, rfl⟩⟩
        intro s0 hs0
        have hss : s0 = s := (Option.some.inj hs0).symm
        rw [hss]

theorem scanRowGo_mono (cid nr : Nat) (d : String) :
    ∀ (l : List String) (i0 : Nat) (stats : List (String × StatInfo))
      (s : StatInfo), statsFind stats d = some s →
      ∃ s', statsFind ((l.enumFrom i0).foldl
          (fun acc pe => scanDriver cid nr acc (pe.1 + 1) pe.2) stats) d
        = some s' ∧ s'.highest_position ≤ s.highest_position := by
  intro l
  induction l with
  | nil =>
      intro i0 stats s h
      exact ⟨s, h, le_refl _⟩
  | cons x xs ih =>
      intro i0 stats s h
      rw [List.enumFrom_cons, List.foldl_cons]
      by_cases hx : x = d
      · subst hx
        obtain ⟨s1, hfind1, _, hmono1, _⟩ :=
          scanDriver_find_self cid nr stats (i0 + 1) x
        obtain ⟨s', hfind', hle'⟩ := ih (i0 + 1) _ s1 hfind1
        exact ⟨s', hfind', le_trans hle' (hmono1 s h)⟩
      · have hother := scanDriver_find_other cid nr stats (i0 + 1) x d
          (fun hc => hx hc.symm)
        rw [← hother] at h
        exact ih (i0 + 1) _ s h

theorem scanRowGo_upper (cid nr : Nat) (d : String) :
    ∀ (l : List String) (i0 : Nat) (stats : List (String × StatInfo))
      (j : Nat) (hj : j < l.length), l.get ⟨j, hj⟩ = d →
      ∃ s', statsFind ((l.enumFrom i0).foldl
          (fun acc pe => scanDriver cid nr acc (pe.1 + 1) pe.2) stats) d
        = some s' ∧ s'.highest_position ≤ i0 + j + 1 := by
  intro l
  induction l with
  | nil =>
      intro i0 stats j hj
      rw [List.length_nil] at hj
      exact absurd hj (by omega)
  | cons x xs ih =>
      intro i0 stats j hj hget
      rw [List.enumFrom_cons, List.foldl_cons]
      cases j with
      | zero =>
          have hx : x = d := hget
          subst hx
          obtain ⟨s1, hfind1, hup1, _, _⟩ :=
            scanDriver_find_self cid nr stats (i0 + 1) x
          obtain ⟨s', hfind', hle'⟩ := scanRowGo_mono cid nr x xs (i0 + 1)
            _ s1 hfind1
          exact ⟨s', hfind', by omega⟩
      | succ j0 =>
          have hj2 : j0 < xs.length := by
            rw [List.length_cons] at hj
            omega
          have hget' : xs.get ⟨j0, hj2⟩ = d := hget
          obtain ⟨s', hfind', hle'⟩ := ih (i0 + 1) _ j0 hj2 hget'
          exact ⟨s', hfind', by omega⟩

theorem scanRowGo_origin (cid nr : Nat) (d : String) :
    ∀ (l : List String) (i0 : Nat) (stats : List (String × StatInfo))
      (s' : StatInfo),
      statsFind ((l.enumFrom i0).foldl
          (fun acc pe => scanDriver cid nr acc (pe.1 + 1) pe.2) stats) d
        = some s' →
      (∃ s, statsFind stats d = some s ∧
        s'.highest_position = s.highest_position) ∨
      (∃ j, ∃ hj : j < l.length, l.get ⟨j, hj⟩ = d ∧
        s'.highest_position = i0 + j + 1) := by
  intro l
  induction l with
  | nil =>
      intro i0 stats s' h
      exact Or.inl ⟨s', h, rfl⟩
  | cons x xs ih =>
      intro i0 stats s' h
      rw [List.enumFrom_cons, List.foldl_cons] at h
      rcases ih (i0 + 1) _ s' h with ⟨s1, hs1, he⟩ | ⟨j, hj, hxj, he⟩
      · by_cases hx : x = d
        · subst hx
          obtain ⟨s1', hfind', _, _, horig'⟩ :=
            scanDriver_find_self cid nr stats (i0 + 1) x
          rw [hfind'] at hs1
          have hss : s1 = s1' := (Option.some.inj hs1).symm
          rcases horig' with hcase | ⟨s0, hs0, he0⟩
          · right
            refine ⟨0, by rw [List.length_cons]; omega, rfl, ?_⟩
            rw [he, hss, hcase]
          · left
            refine ⟨s0, hs0, ?_⟩
            rw [he, hss, he0]
        · have hother := scanDriver_find_other cid nr stats (i0 + 1) x d
            (fun hc => hx hc.symm)
          rw [hother] at hs1
          exact Or.inl ⟨s1, hs1, he⟩
      · right
        refine ⟨j + 1, by rw [List.length_cons]; omega, hxj, by omega⟩

theorem scanRow_mono (stats : List (String × StatInfo))
    (row : ChampionshipRow) (d : String) (s : StatInfo)
    (h : statsFind stats d = some s) :
    ∃ s', statsFind (scanRow stats row) d = some s' ∧
      s'.highest_position ≤ s.highest_position :=
  scanRowGo_mono row.championship_id row.num_races d row.standings 0 stats
    s h

theorem scanRow_upper (stats : List (String × StatInfo))
    (row : ChampionshipRow) (d : String) (j : Nat)
    (hj : j < row.standings.length) (hget : row.standings.get ⟨j, hj⟩ = d) :
    ∃ s', statsFind (scanRow stats row) d = some s' ∧
      s'.highest_position ≤ j + 1 := by
  obtain ⟨s', h1, h2⟩ := scanRowGo_upper row.championship_id row.num_races
    d row.standings 0 stats j hj hget
  exact ⟨s', h1, by omega⟩

theorem scanRow_origin (stats : List (String × StatInfo))
    (row : ChampionshipRow) (d : String) (s' : StatInfo)
    (h : statsFind (scanRow stats row) d = some s') :
    (∃ s, statsFind stats d = some s ∧
      s'.highest_position = s.highest_position) ∨
    (∃ j, ∃ hj : j < row.standings.length,
      row.standings.get ⟨j, hj⟩ = d ∧ s'.highest_position = j + 1) := by
  rcases scanRowGo_origin row.championship_id row.num_races d
    row.standings 0 stats s' h with hc | ⟨j, hj, hg, he⟩
  · exact Or.inl hc
  · exact Or.inr ⟨j, hj, hg, by omega⟩

theorem scanRows_mono (d : String) :
    ∀ (rows : List ChampionshipRow) (stats : List (String × StatInfo))
      (s : StatInfo), statsFind stats d = some s →
      ∃ s', statsFind (rows.foldl scanRow stats) d = some s' ∧
        s'.highest_position ≤ s.highest_position := by
  intro rows
  induction rows with
  | nil =>
      intro stats s h
      exact ⟨s, h, le_refl _⟩
  | cons r rs ih =>
      intro stats s h
      rw [List.foldl_cons]
      obtain ⟨s1, h1, hle1⟩ := scanRow_mono stats r d s h
      obtain ⟨s', h', hle'⟩ := ih _ s1 h1
      exact ⟨s', h', le_trans hle' hle1⟩

theorem scanRows_upper (d : String) :
    ∀ (rows : List ChampionshipRow) (stats : List (String × StatInfo))
      (r : ChampionshipRow), r ∈ rows →
      ∀ (j : Nat) (hj : j < r.standings.length),
        r.standings.get ⟨j, hj⟩ = d →
      ∃ s', statsFind (rows.foldl scanRow stats) d = some s' ∧
        s'.highest_position ≤ j + 1 := by
  intro rows
  induction rows with
  | nil =>
      intro stats r hr
      exact absurd hr (List.not_mem_nil r)
  | cons r0 rs ih =>
      intro stats r hr j hj hget
      rw [List.foldl_cons]
      rcases List.mem_cons.mp hr with rfl | hr2
      · obtain ⟨s1, h1, hle1⟩ := scanRow_upper stats r d j hj hget
        obtain ⟨s', h', hle'⟩ := scanRows_mono d rs _ s1 h1
        exact ⟨s', h', le_trans hle' hle1⟩
      · exact ih _ r hr2 j hj hget

theorem scanRows_origin (d : String) :
    ∀ (rows : List ChampionshipRow) (stats : List (String × StatInfo))
      (s' : StatInfo),
      statsFind (rows.foldl scanRow stats) d = some s' →
      (∃ s, statsFind stats d = some s ∧
        s'.highest_position = s.highest_position) ∨
      (∃ r, r ∈ rows ∧ ∃ j, ∃ hj : j < r.standings.length,
        r.standings.get ⟨j, hj⟩ = d ∧ s'.highest_position = j + 1) := by
  intro rows
  induction rows with
  | nil =>
      intro stats s' h
      exact Or.inl ⟨s', h, rfl⟩
  | cons r0 rs ih =>
      intro stats s' h
      rw [List.foldl_cons] at h
      rcases ih _ s' h with ⟨s1, hs1, he⟩ | ⟨r, hrmem, j, hj, hg, he⟩
      · rcases scanRow_origin stats r0 d s1 hs1 with ⟨s0, hs0, he0⟩ |
          ⟨j, hj, hg, he0⟩
        · exact Or.inl ⟨s0, hs0, by omega⟩
        · exact Or.inr ⟨r0, List.mem_cons_self r0 rs, j, hj, hg, by omega⟩
      · exact Or.inr ⟨r, List.mem_cons_of_mem r0 hrmem, j, hj, hg, he⟩

theorem insertByIdDesc_perm (x : ChampionshipRow) :
    ∀ l, (insertByIdDesc x l).Perm (x :: l) := by
  intro l
  induction l with
  | nil => exact List.Perm.refl _
  | cons y ys ih =>
      show (if y.championship_id ≤ x.championship_id then x :: y :: ys
        else y :: insertByIdDesc x ys).Perm (x :: y :: ys)
      split_ifs with hc
      · exact List.Perm.refl _
      · exact (List.Perm.cons y ih).trans (List.Perm.swap x y ys)

theorem sortByIdDesc_perm : ∀ l, (sortByIdDesc l).Perm l := by
  intro l
  induction l with
  | nil => exact List.Perm.refl _
  | cons x xs ih =>
      show (insertByIdDesc x (sortByIdDesc xs)).Perm _
      exact (insertByIdDesc_perm x _).trans (List.Perm.cons x ih)

theorem scanQuery_subset (table : List ChampionshipRow) (season nr : Nat)
    (r : ChampionshipRow) (h : r ∈ scanQuery table season nr) :
    r ∈ table.filter (fun c => c.num_races == nr && c.season == season) := by
  unfold scanQuery at h
  exact (sortByIdDesc_perm _).mem_iff.mp (List.mem_of_mem_take h)

theorem scanQuery_complete (table : List ChampionshipRow) (season nr : Nat)
    (r : ChampionshipRow)
    (hlen : (table.filter
      (fun c => c.num_races == nr && c.season == season)).length ≤ 10000)
    (h : r ∈ table.filter
      (fun c => c.num_races == nr && c.season == season)) :
    r ∈ scanQuery table season nr := by
  unfold scanQuery
  rw [List.take_of_length_le]
  · exact (sortByIdDesc_perm _).mem_iff.mpr h
  · rw [(sortByIdDesc_perm _).length_eq]
    exact hlen

theorem allFoundP1_found (all_drivers : List String)
    (stats : List (String × StatInfo)) (d : String)
    (hall : allFoundP1 all_drivers stats = true) (hd : d ∈ all_drivers) :
    ∃ s, statsFind stats d = some s ∧ s.highest_position = 1 := by
  unfold allFoundP1 at hall
  have hone := List.all_eq_true.mp hall d hd
  cases hfind : statsFind stats d with
  | none =>
      rw [hfind] at hone
      exact Bool.noConfusion hone
  | some s =>
      rw [hfind] at hone
      exact ⟨s, rfl, by simpa using hone⟩

theorem foldl_max_init : ∀ (l : List Nat) (a b : Nat), a ≤ b →
    a ≤ l.foldl max b := by
  intro l
  induction l with
  | nil =>
      intro a b h
      exact h
  | cons y ys ih =>
      intro a b h
      exact ih a (max b y) (le_trans h (le_max_left b y))

theorem foldl_max_le_mem : ∀ (l : List Nat) (a x : Nat), x ∈ l →
    x ≤ l.foldl max a := by
  intro l
  induction l with
  | nil =>
      intro a x h
      exact absurd h (List.not_mem_nil x)
  | cons y ys ih =>
      intro a x h
      rcases List.mem_cons.mp h with rfl | h2
      · exact foldl_max_init ys x (max a x) (le_max_right a x)
      · exact ih (max a y) x h2

theorem scanLengths_mono (table : List ChampionshipRow) (season : Nat)
    (all_drivers : List String) (d : String) :
    ∀ (nrb : Nat) (stats : List (String × StatInfo)) (s : StatInfo),
      statsFind stats d = some s →
      ∃ s', statsFind (scanLengths table season all_drivers nrb stats) d
          = some s' ∧ s'.highest_position ≤ s.highest_position := by
  intro nrb
  induction nrb with
  | zero =>
      intro stats s h
      exact ⟨s, h, le_refl _⟩
  | succ nr ih =>
      intro stats s h
      have heq : scanLengths table season all_drivers (nr + 1) stats =
          if allFoundP1 all_drivers stats then stats
          else scanLengths table season all_drivers nr
            ((scanQuery table season (nr + 1)).foldl scanRow stats) := rfl
      rw [heq]
      split_ifs with hf
      · exact ⟨s, h, le_refl _⟩
      · obtain ⟨s1, h1, hle1⟩ := scanRows_mono d
          (scanQuery table season (nr + 1)) stats s h
        obtain ⟨s', h', hle'⟩ := ih _ s1 h1
        exact ⟨s', h', le_trans hle' hle1⟩

theorem scanLengths_origin (table : List ChampionshipRow) (season : Nat)
    (all_drivers : List String) (d : String) :
    ∀ (nrb : Nat) (stats : List (String × StatInfo)) (s' : StatInfo),
      statsFind (scanLengths table season all_drivers nrb stats) d
        = some s' →
      (∃ s, statsFind stats d = some s ∧
        s'.highest_position = s.highest_position) ∨
      (∃ nr r, r ∈ scanQuery table season nr ∧
        ∃ j, ∃ hj : j < r.standings.length,
          r.standings.get ⟨j, hj⟩ = d ∧ s'.highest_position = j + 1) := by
  intro nrb
  induction nrb with
  | zero =>
      intro stats s' h
      exact Or.inl ⟨s', h, rfl⟩
  | succ nr ih =>
      intro stats s' h
      have heq : scanLengths table season all_drivers (nr + 1) stats =
          if allFoundP1 all_drivers stats then stats
          else scanLengths table season all_drivers nr
            ((scanQuery table season (nr + 1)).foldl scanRow stats) := rfl
      rw [heq] at h
      split_ifs at h with hf
      · exact Or.inl ⟨s', h, rfl⟩
      · rcases ih _ s' h with ⟨s1, hs1, he1⟩ | hdeep
        · rcases scanRows_origin d (scanQuery table season (nr + 1)) stats
            s1 hs1 with ⟨s0, hs0, he0⟩ | ⟨r, hrmem, j, hj, hg, he0⟩
          · exact Or.inl ⟨s0, hs0, by omega⟩
          · exact Or.inr ⟨nr + 1, r, hrmem, j, hj, hg, by omega⟩
        · exact Or.inr hdeep

theorem scanLengths_cover (table : List ChampionshipRow) (season : Nat)
    (all_drivers : List String) (d : String) :
    ∀ (nrb : Nat) (stats : List (String × StatInfo)),
      (∀ nr, (table.filter
        (fun c => c.num_races == nr && c.season == season)).length
          ≤ 10000) →
      d ∈ all_drivers →
      ∀ (r : ChampionshipRow), r ∈ table → r.season = season →
        1 ≤ r.num_races → r.num_races ≤ nrb →
      ∀ (j : Nat) (hj : j < r.standings.length),
        r.standings.get ⟨j, hj⟩ = d →
      ∃ s', statsFind (scanLengths table season all_drivers nrb stats) d
          = some s' ∧ s'.highest_position ≤ j + 1 := by
  intro nrb
  induction nrb with
  | zero =>
      intro stats hbatch hdall r hr hrs hnr1 hnrb
      exact absurd hnrb (by omega)
  | succ nr ih =>
      intro stats hbatch hdall r hr hrs hnr1 hnrb j hj hget
      have heq : scanLengths table season all_drivers (nr + 1) stats =
          if allFoundP1 all_drivers stats then stats
          else scanLengths table season all_drivers nr
            ((scanQuery table season (nr + 1)).foldl scanRow stats) := rfl
      rw [heq]
      split_ifs with hf
      · obtain ⟨s, hfind, h1⟩ := allFoundP1_found all_drivers stats d hf
          hdall
        exact ⟨s, hfind, by omega⟩
      · by_cases hcase : r.num_races = nr + 1
        · have hmem : r ∈ table.filter
              (fun c => c.num_races == nr + 1 && c.season == season) := by
            rw [List.mem_filter]
            refine ⟨hr, ?_⟩
            simp [hcase, hrs]
          have hq := scanQuery_complete table season (nr + 1) r
            (hbatch (nr + 1)) hmem
          obtain ⟨s1, hf1, hle1⟩ := scanRows_upper d
            (scanQuery table season (nr + 1)) stats r hq j hj hget
          obtain ⟨s', hf', hle'⟩ := scanLengths_mono table season
            all_drivers d nr _ s1 hf1
          exact ⟨s', hf', le_trans hle' hle1⟩
        · exact ih _ hbatch hdall r hr hrs hnr1 (by omega) j hj hget

theorem statsFind_wcmap (seasonRows : List ChampionshipRow) :
    ∀ (stats1 : List (String × StatInfo)) (d : String),
    statsFind (stats1.map (fun e => (e.1, { e.2 with
        win_count := seasonRows.countP (fun r => r.winner == e.1) }))) d
      = (statsFind stats1 d).map (fun s => { s with
          win_count := seasonRows.countP (fun r => r.winner == d) }) := by
  intro stats1 d
  induction stats1 with
  | nil => rfl
  | cons e es ih =>
      rw [List.map_cons, statsFind_cons, statsFind_cons]
      dsimp only
      by_cases he : (e.1 == d) = true
      · have he' : e.1 = d := by simpa using he
        rw [if_pos he, if_pos he, he']
        rfl
      · rw [if_neg he, if_neg he]
        exact ih

theorem marginStep_find (winners : List String)
    (stats : List (String × StatInfo)) (row : ChampionshipRow)
    (d : String) :
    (statsFind (marginStep winners stats row) d).map
        (fun s => (s.highest_position, s.highest_position_max_races,
          s.highest_position_championship_id, s.win_count))
      = (statsFind stats d).map
        (fun s => (s.highest_position, s.highest_position_max_races,
          s.highest_position_championship_id, s.win_count)) := by
  unfold marginStep
  split_ifs with hw
  · cases hpts : row.points with
    | nil => rfl
    | cons p0 rest =>
        cases rest with
        | nil => rfl
        | cons p1 rest2 =>
            dsimp only
            cases hfind : statsFind stats row.winner with
            | none => rfl
            | some s =>
                dsimp only
                by_cases hd : d = row.winner
                · cases hbm : s.best_margin with
                  | none =>
                      dsimp only
                      rw [hd, statsFind_update_self, hfind]
                      rfl
                  | some cur =>
                      dsimp only
                      split_ifs with hlt
                      · rw [hd, statsFind_update_self, hfind]
                        rfl
                      · rfl
                · cases hbm : s.best_margin with
                  | none =>
                      dsimp only
                      rw [statsFind_update_other stats row.winner d _ hd]
                  | some cur =>
                      dsimp only
                      split_ifs with hlt
                      · rw [statsFind_update_other stats row.winner d _ hd]
                      · rfl
  · rfl

theorem marginFold_find (winners : List String) (d : String) :
    ∀ (rows : List ChampionshipRow) (stats : List (String × StatInfo)),
    (statsFind (rows.foldl (marginStep winners) stats) d).map
        (fun s => (s.highest_position, s.highest_position_max_races,
          s.highest_position_championship_id, s.win_count))
      = (statsFind stats d).map
        (fun s => (s.highest_position, s.highest_position_max_races,
          s.highest_position_championship_id, s.win_count)) := by
  intro rows
  induction rows with
  | nil => intro stats; rfl
  | cons r rs ih =>
      intro stats
      rw [List.foldl_cons, ih _, marginStep_find]

theorem find?_append_none {α : Type} (p : α → Bool) :
    ∀ (l1 l2 : List α), (∀ x ∈ l1, p x = false) →
      (l1 ++ l2).find? p = l2.find? p := by
  intro l1
  induction l1 with
  | nil => intro l2 h; rfl
  | cons x xs ih =>
      intro l2 h
      rw [List.cons_append,
        List.find?_cons_of_neg _ (by simp [h x (List.mem_cons_self x xs)]),
        ih l2 (fun y hy => h y (List.mem_cons_of_mem x hy))]

theorem statsFind_eq_some_elim (stats : List (String × StatInfo))
    (d : String) (s' : StatInfo) (h : statsFind stats d = some s') :
    ∃ e, stats.find? (fun e => e.1 == d) = some e ∧ e.1 = d ∧ e.2 = s' := by
  unfold statsFind at h
  cases hf : stats.find? (fun e => e.1 == d) with
  | none =>
      rw [hf] at h
      exact Option.noConfusion h
  | some e =>
      rw [hf] at h
      refine ⟨e, rfl, ?_, Option.some.inj h⟩
      have := List.find?_some hf
      simpa using this

theorem find?_map_local {α β : Type} (f : α → β) (p : β → Bool) :
    ∀ l : List α, (l.map f).find? p = (l.find? (fun a => p (f a))).map f := by
  intro l
  induction l with
  | nil => rfl
  | cons x xs ih =>
      rw [List.map_cons]
      cases hp : p (f x) with
      | true => simp [List.find?, hp]
      | false => simp [List.find?, hp, ih]

set_option maxHeartbeats 1000000 in
/-- C5 (amended): after the aggregation pass, the stored
`highest_position` is the minimum position the driver holds across the
season's championship records, and the stored `win_count` its number of
wins, provided the season's records share one driver set, every record
has at least one race, and no season length holds more than the 10000-row
scan batch.  Beyond the batch the scan misses records (see the
counterexample). -/
theorem C5_stats_min_position_and_wins (st : DbState) (season : Nat)
    (d : String)
    (hne : st.championship_results.filter (fun c => c.season == season)
      ≠ [])
    (hdset : ∀ r ∈ st.championship_results.filter
        (fun c => c.season == season),
      ∀ r' ∈ st.championship_results.filter (fun c => c.season == season),
      ∀ x, x ∈ r.standings → x ∈ r'.standings)
    (hnr : ∀ r ∈ st.championship_results.filter
        (fun c => c.season == season), 1 ≤ r.num_races)
    (hbatch : ∀ nr, (st.championship_results.filter
      (fun c => c.num_races == nr && c.season == season)).length ≤ 10000)
    (hd : ∃ r ∈ st.championship_results.filter
        (fun c => c.season == season), d ∈ r.standings) :
    ∃ row : StatRow,
      (compute_stats_for_season st season).1.driver_statistics.find?
          (fun r => r.driver_code == d && r.season == season) = some row ∧
      (∀ r ∈ st.championship_results.filter (fun c => c.season == season),
        ∀ j, ∀ hj : j < r.standings.length,
          r.standings.get ⟨j, hj⟩ = d → row.highest_position ≤ j + 1) ∧
      (∃ r ∈ st.championship_results.filter (fun c => c.season == season),
        ∃ j, ∃ hj : j < r.standings.length,
          r.standings.get ⟨j, hj⟩ = d ∧ row.highest_position = j + 1) ∧
      row.win_count = (st.championship_results.filter
        (fun c => c.season == season)).countP (fun c => c.winner == d)
    := by
  cases hsr : st.championship_results.filter (fun c => c.season == season)
    with
  | nil => exact absurd hsr hne
  | cons sample rest =>
      rw [hsr] at hdset hnr hd
      obtain ⟨rd, hrdmem, hdrd⟩ := hd
      have hdall : d ∈ sample.standings :=
        hdset rd hrdmem sample (List.mem_cons_self sample rest) d hdrd
      have hmem_table : ∀ r, r ∈ sample :: rest →
          r ∈ st.championship_results ∧ r.season = season := by
        intro r hr
        rw [← hsr] at hr
        have h2 := List.mem_filter.mp hr
        exact ⟨h2.1, by simpa using h2.2⟩
      have hmax : ∀ r, r ∈ sample :: rest → r.num_races ≤
          ((sample :: rest).map (fun c : ChampionshipRow => c.num_races)).foldl max 0 :=
        fun r hr => foldl_max_le_mem _ 0 r.num_races
          (List.mem_map_of_mem _ hr)
      obtain ⟨⟨j0, hj0⟩, hget0⟩ := List.mem_iff_get.mp hdrd
      obtain ⟨s1, hfind1, hle0⟩ := scanLengths_cover
        st.championship_results season sample.standings d
        (((sample :: rest).map (fun c : ChampionshipRow => c.num_races)).foldl max 0) []
        hbatch hdall rd (hmem_table rd hrdmem).1 (hmem_table rd hrdmem).2
        (hnr rd hrdmem) (hmax rd hrdmem) j0 hj0 hget0
      have hupper1 : ∀ r, r ∈ sample :: rest →
          ∀ j, ∀ hj : j < r.standings.length,
          r.standings.get ⟨j, hj⟩ = d → s1.highest_position ≤ j + 1 := by
        intro r hr j hj hget
        obtain ⟨s1', hfind1', hle'⟩ := scanLengths_cover
          st.championship_results season sample.standings d
          (((sample :: rest).map (fun c : ChampionshipRow => c.num_races)).foldl max 0) []
          hbatch hdall r (hmem_table r hr).1 (hmem_table r hr).2
          (hnr r hr) (hmax r hr) j hj hget
        rw [hfind1] at hfind1'
        have hss := Option.some.inj hfind1'
        rw [← hss] at hle'
        exact hle'
      have horigin1 : ∃ r ∈ sample :: rest, ∃ j,
          ∃ hj : j < r.standings.length,
          r.standings.get ⟨j, hj⟩ = d ∧ s1.highest_position = j + 1 := by
        rcases scanLengths_origin st.championship_results season
          sample.standings d
          (((sample :: rest).map (fun c : ChampionshipRow => c.num_races)).foldl max 0)
          [] s1 hfind1 with ⟨s0, hs0, _⟩ | ⟨nr, r, hrq, j, hj, hg, he⟩
        · rw [statsFind_nil] at hs0
          exact absurd hs0 (by simp)
        · have hrf := scanQuery_subset st.championship_results season nr r
            hrq
          have h2 := List.mem_filter.mp hrf
          have hseason : r.season = season := by
            have hband := (Bool.and_eq_true _ _).mp h2.2
            simpa using hband.2
          refine ⟨r, ?_, j, hj, hg, he⟩
          rw [← hsr, List.mem_filter]
          exact ⟨h2.1, by simpa using hseason⟩
      have hfind2 := statsFind_wcmap (sample :: rest) (scanLengths st.championship_results season sample.standings (((sample :: rest).map (fun c : ChampionshipRow => c.num_races)).foldl max 0) []) d
      rw [hfind1] at hfind2
      have hfold := marginFold_find ((((scanLengths st.championship_results season sample.standings (((sample :: rest).map (fun c : ChampionshipRow => c.num_races)).foldl max 0) []).map (fun e : String × StatInfo => (e.1, { e.2 with win_count := (sample :: rest).countP (fun r : ChampionshipRow => r.winner == e.1) }))).filter (fun e : String × StatInfo => e.2.highest_position == 1)).map (fun e : String × StatInfo => e.1)) d (sample :: rest) ((scanLengths st.championship_results season sample.standings (((sample :: rest).map (fun c : ChampionshipRow => c.num_races)).foldl max 0) []).map (fun e : String × StatInfo => (e.1, { e.2 with win_count := (sample :: rest).countP (fun r : ChampionshipRow => r.winner == e.1) })))
      rw [hfind2] at hfold
      cases hfind3 : statsFind ((sample :: rest).foldl (marginStep ((((scanLengths st.championship_results season sample.standings (((sample :: rest).map (fun c : ChampionshipRow => c.num_races)).foldl max 0) []).map (fun e : String × StatInfo => (e.1, { e.2 with win_count := (sample :: rest).countP (fun r : ChampionshipRow => r.winner == e.1) }))).filter (fun e : String × StatInfo => e.2.highest_position == 1)).map (fun e : String × StatInfo => e.1))) ((scanLengths st.championship_results season sample.standings (((sample :: rest).map (fun c : ChampionshipRow => c.num_races)).foldl max 0) []).map (fun e : String × StatInfo => (e.1, { e.2 with win_count := (sample :: rest).countP (fun r : ChampionshipRow => r.winner == e.1) })))) d with
      | none =>
          rw [hfind3] at hfold
          exact absurd hfold (by simp)
      | some s3 =>
          rw [hfind3] at hfold
          have hproj := Option.some.inj hfold
          have hhp : s3.highest_position = s1.highest_position :=
            congrArg (fun t => t.1) hproj
          have hwc : s3.win_count
              = (sample :: rest).countP (fun c => c.winner == d) :=
            congrArg (fun t => t.2.2.2) hproj
          obtain ⟨e, hfe, hek, hev⟩ := statsFind_eq_some_elim _ d s3 hfind3
          have hskip : ∀ x ∈ st.driver_statistics.filter
              (fun r => r.season ≠ season),
              (x.driver_code == d && x.season == season) = false := by
            intro x hx
            have h2 := (List.mem_filter.mp hx).2
            have hne2 : x.season ≠ season := by simpa using h2
            have h3 : (x.season == season) = false := by simpa using hne2
            rw [h3, Bool.and_false]
          simp only [compute_stats_for_season]
          rw [hsr]
          refine ⟨(⟨e.1, season, e.2.highest_position, e.2.highest_position_max_races, e.2.highest_position_championship_id, e.2.best_margin, e.2.best_margin_championship_id, e.2.win_count⟩ : StatRow), ?_, ?_, ?_, ?_⟩
          · show ((st.driver_statistics.filter (fun r => r.season ≠ season)) ++ ((sample :: rest).foldl (marginStep ((((scanLengths st.championship_results season sample.standings (((sample :: rest).map (fun c : ChampionshipRow => c.num_races)).foldl max 0) []).map (fun e : String × StatInfo => (e.1, { e.2 with win_count := (sample :: rest).countP (fun r : ChampionshipRow => r.winner == e.1) }))).filter (fun e : String × StatInfo => e.2.highest_position == 1)).map (fun e : String × StatInfo => e.1))) ((scanLengths st.championship_results season sample.standings (((sample :: rest).map (fun c : ChampionshipRow => c.num_races)).foldl max 0) []).map (fun e : String × StatInfo => (e.1, { e.2 with win_count := (sample :: rest).countP (fun r : ChampionshipRow => r.winner == e.1) })))).map (fun e : String × StatInfo => (⟨e.1, season, e.2.highest_position, e.2.highest_position_max_races, e.2.highest_position_championship_id, e.2.best_margin, e.2.best_margin_championship_id, e.2.win_count⟩ : StatRow))).find? (fun r => r.driver_code == d && r.season == season) = some (⟨e.1, season, e.2.highest_position, e.2.highest_position_max_races, e.2.highest_position_championship_id, e.2.best_margin, e.2.best_margin_championship_id, e.2.win_count⟩ : StatRow)
            rw [find?_append_none _ _ _ hskip, find?_map_local]
            show (((sample :: rest).foldl (marginStep ((((scanLengths st.championship_results season sample.standings (((sample :: rest).map (fun c : ChampionshipRow => c.num_races)).foldl max 0) []).map (fun e : String × StatInfo => (e.1, { e.2 with win_count := (sample :: rest).countP (fun r : ChampionshipRow => r.winner == e.1) }))).filter (fun e : String × StatInfo => e.2.highest_position == 1)).map (fun e : String × StatInfo => e.1))) ((scanLengths st.championship_results season sample.standings (((sample :: rest).map (fun c : ChampionshipRow => c.num_races)).foldl max 0) []).map (fun e : String × StatInfo => (e.1, { e.2 with win_count := (sample :: rest).countP (fun r : ChampionshipRow => r.winner == e.1) })))).find? (fun a => (a.1 == d) && (season == season))).map (fun e : String × StatInfo => (⟨e.1, season, e.2.highest_position, e.2.highest_position_max_races, e.2.highest_position_championship_id, e.2.best_margin, e.2.best_margin_championship_id, e.2.win_count⟩ : StatRow)) = some (⟨e.1, season, e.2.highest_position, e.2.highest_position_max_races, e.2.highest_position_championship_id, e.2.best_margin, e.2.best_margin_championship_id, e.2.win_count⟩ : StatRow)
            rw [show (fun a : String × StatInfo =>
                (a.1 == d) && (season == season))
                = (fun a : String × StatInfo => a.1 == d) from
              funext fun a => by rw [beq_self_eq_true, Bool.and_true]]
            rw [hfe]
            rfl
          · intro r hr j hj hg
            show e.2.highest_position ≤ j + 1
            rw [hev, hhp]
            exact hupper1 r hr j hj hg
          · obtain ⟨r, hr, j, hj, hg, he1⟩ := horigin1
            refine ⟨r, hr, j, hj, hg, ?_⟩
            show e.2.highest_position = j + 1
            rw [hev, hhp]
            exact he1
          · show e.2.win_count
              = (sample :: rest).countP (fun c => c.winner == d)
            rw [hev]
            exact hwc

/-- C3 counterexample: with seventeen drivers on identical points the sort
leaves the insertion-sort regime of NumPy's default quicksort and is no
longer stable: every pair of drivers is tied, yet the returned driver
order differs from the original driver-list order. -/
theorem C3_counterexample_17_tied_drivers :
    (∀ x ∈ subsetScoresOf tiedScores17 [0], x = 1) ∧
    (calculate_standings tiedDrivers17 tiedScores17 [0]).1
      ≠ tiedDrivers17 := by
  decide


/-- A fold over a list of fixed points of the accumulator is the identity. -/
theorem foldl_fixed {α β : Type} (g : α → β → α) (s : α) :
    ∀ l : List β, (∀ x ∈ l, g s x = s) → l.foldl g s = s := by
  intro l
  induction l with
  | nil => intro; rfl
  | cons x xs ih =>
      intro h
      rw [List.foldl_cons, h x (List.mem_cons_self x xs)]
      exact ih (fun y hy => h y (List.mem_cons_of_mem x hy))

/-- Inserting a row whose id is below everything in the list lands at the
end. -/
theorem insertByIdDesc_append (x : ChampionshipRow) :
    ∀ l : List ChampionshipRow,
      (∀ y ∈ l, x.championship_id < y.championship_id) →
      insertByIdDesc x l = l ++ [x] := by
  intro l
  induction l with
  | nil => intro; rfl
  | cons y ys ih =>
      intro h
      show (if y.championship_id ≤ x.championship_id then x :: y :: ys
        else y :: insertByIdDesc x ys) = (y :: ys) ++ [x]
      rw [if_neg (by
        have hy := h y (List.mem_cons_self y ys)
        omega)]
      rw [ih (fun z hz => h z (List.mem_cons_of_mem y hz))]
      rfl

/-- On a list with strictly ascending ids, the descending id sort is the
reverse. -/
theorem sortByIdDesc_ascending :
    ∀ l : List ChampionshipRow,
      List.Pairwise
        (fun a b => a.championship_id < b.championship_id) l →
      sortByIdDesc l = l.reverse := by
  intro l
  induction l with
  | nil => intro; rfl
  | cons x xs ih =>
      intro h
      have hp := List.pairwise_cons.mp h
      show insertByIdDesc x (sortByIdDesc xs) = (x :: xs).reverse
      rw [ih hp.2]
      rw [insertByIdDesc_append x xs.reverse
        (fun y hy => hp.1 y (List.mem_reverse.mp hy))]
      rw [List.reverse_cons]

/-- Witness: the amended C5 applied to Scenario A's stored season, driver
VER. -/
theorem C5_stats_min_position_and_wins_witness :
    ∃ row : StatRow,
      (compute_stats_for_season scenarioAState 2025).1.driver_statistics.find?
          (fun r => r.driver_code == "VER" && r.season == 2025) = some row ∧
      (∀ r ∈ scenarioAState.championship_results.filter
          (fun c => c.season == 2025),
        ∀ j, ∀ hj : j < r.standings.length,
          r.standings.get ⟨j, hj⟩ = "VER" → row.highest_position ≤ j + 1) ∧
      (∃ r ∈ scenarioAState.championship_results.filter
          (fun c => c.season == 2025),
        ∃ j, ∃ hj : j < r.standings.length,
          r.standings.get ⟨j, hj⟩ = "VER" ∧ row.highest_position = j + 1) ∧
      row.win_count = (scenarioAState.championship_results.filter
        (fun c => c.season == 2025)).countP (fun c => c.winner == "VER") :=
  C5_stats_min_position_and_wins scenarioAState 2025 "VER"
    (by decide) (by decide) (by decide)
    (fun nr => le_trans (List.length_filter_le _ _) (by decide))
    (by decide)

set_option maxHeartbeats 1000000 in
/-- C5 counterexample: the per-length scan reads at most 10000 rows
(`ORDER BY championship_id DESC LIMIT 10000`).  In a season holding 10001
one-race records where driver B is first only in the oldest record, the
scan misses that record and stores highest_position 2 for B, although B
holds position 1 in a record of the season — so the claim fails for
datasets larger than the scan batch. -/
theorem C5_counterexample_scan_batch :
    (∃ row : StatRow,
      (compute_stats_for_season c5State 2025).1.driver_statistics.find?
          (fun r => r.driver_code == "B" && r.season == 2025) = some row ∧
      row.highest_position = 2) ∧
    c5Row1 ∈ c5State.championship_results ∧
    c5Row1.season = 2025 ∧
    c5Row1.standings.getD 0 "" = "B" := by
  refine ⟨?_, List.mem_cons_self _ _, rfl, rfl⟩
  have hfilter : c5State.championship_results.filter
      (fun c => c.season == 2025) = c5Row1 :: c5Bulk := by
    show (c5Row1 :: c5Bulk).filter (fun c => c.season == 2025)
      = c5Row1 :: c5Bulk
    apply List.filter_eq_self.mpr
    intro a ha
    rcases List.mem_cons.mp ha with h1 | hb
    · subst h1; rfl
    · have hb2 : a ∈ (List.range 10000).map (fun i : Nat => (⟨i + 2, 2025, 1, [1], ["A", "B"], "A", [1]⟩ : ChampionshipRow)) := hb
      obtain ⟨i, _, rfl⟩ := List.mem_map.mp hb2
      rfl
  have hf2 : c5State.championship_results.filter
      (fun c => c.num_races == 1 && c.season == 2025) = c5Row1 :: c5Bulk := by
    show (c5Row1 :: c5Bulk).filter
      (fun c => c.num_races == 1 && c.season == 2025) = c5Row1 :: c5Bulk
    apply List.filter_eq_self.mpr
    intro a ha
    rcases List.mem_cons.mp ha with h1 | hb
    · subst h1; rfl
    · have hb2 : a ∈ (List.range 10000).map (fun i : Nat => (⟨i + 2, 2025, 1, [1], ["A", "B"], "A", [1]⟩ : ChampionshipRow)) := hb
      obtain ⟨i, _, rfl⟩ := List.mem_map.mp hb2
      rfl
  have hasc : List.Pairwise
      (fun a b : ChampionshipRow =>
        a.championship_id < b.championship_id) (c5Row1 :: c5Bulk) := by
    rw [List.pairwise_cons]
    constructor
    · intro y hy
      have hy2 : y ∈ (List.range 10000).map (fun i : Nat => (⟨i + 2, 2025, 1, [1], ["A", "B"], "A", [1]⟩ : ChampionshipRow)) := hy
      obtain ⟨i, _, rfl⟩ := List.mem_map.mp hy2
      show 1 < i + 2
      omega
    · show List.Pairwise
        (fun a b : ChampionshipRow =>
          a.championship_id < b.championship_id)
        ((List.range 10000).map (fun i : Nat => (⟨i + 2, 2025, 1, [1], ["A", "B"], "A", [1]⟩ : ChampionshipRow)))
      rw [List.pairwise_map]
      refine List.Pairwise.imp ?_ (List.pairwise_lt_range 10000)
      intro a b hab
      show a + 2 < b + 2
      omega
  have hlen : c5Bulk.reverse.length = 10000 := by
    rw [List.length_reverse]
    show ((List.range 10000).map (fun i : Nat => (⟨i + 2, 2025, 1, [1], ["A", "B"], "A", [1]⟩ : ChampionshipRow))).length = 10000
    rw [List.length_map, List.length_range]
  have hq : scanQuery c5State.championship_results 2025 1
      = c5Bulk.reverse := by
    show (sortByIdDesc (c5State.championship_results.filter
      (fun c => c.num_races == 1 && c.season == 2025))).take 10000
      = c5Bulk.reverse
    rw [hf2, sortByIdDesc_ascending _ hasc, List.reverse_cons]
    exact List.take_left' hlen
  have hrevmap : c5Bulk.reverse
      = (List.range 10000).reverse.map (fun i : Nat => (⟨i + 2, 2025, 1, [1], ["A", "B"], "A", [1]⟩ : ChampionshipRow)) :=
    (List.map_reverse (fun i : Nat => (⟨i + 2, 2025, 1, [1], ["A", "B"], "A", [1]⟩ : ChampionshipRow)) (List.range 10000)).symm
  have h9 : (List.range 10000).reverse
      = 9999 :: (List.range 9999).reverse := by
    show (List.range (Nat.succ 9999)).reverse
      = 9999 :: (List.range 9999).reverse
    rw [List.range_succ, List.reverse_append, List.reverse_singleton,
      List.singleton_append]
  have hhead : scanRow [] ((fun i : Nat => (⟨i + 2, 2025, 1, [1], ["A", "B"], "A", [1]⟩ : ChampionshipRow)) 9999) = [("A", (⟨1, 1, 10001, none, none, 0⟩ : StatInfo)), ("B", (⟨2, 1, 10001, none, none, 0⟩ : StatInfo))] := by decide
  have hscan : scanLengths c5State.championship_results 2025
      c5Row1.standings 1 [] = [("A", (⟨1, 1, 10001, none, none, 0⟩ : StatInfo)), ("B", (⟨2, 1, 10001, none, none, 0⟩ : StatInfo))] := by
    have h1 : scanLengths c5State.championship_results 2025
        c5Row1.standings 1 []
        = (scanQuery c5State.championship_results 2025 1).foldl scanRow [] :=
      rfl
    rw [h1, hq, hrevmap, h9, List.map_cons, List.foldl_cons, hhead]
    refine foldl_fixed _ _ _ ?_
    intro x hx
    obtain ⟨i, _, rfl⟩ := List.mem_map.mp hx
    rfl
  have hmaxr : (((c5Row1 :: c5Bulk).map (fun c : ChampionshipRow => c.num_races)).foldl max 0) = 1 := by
    rw [List.map_cons]
    show List.foldl max 0
      ((1 : Nat) :: c5Bulk.map (fun c : ChampionshipRow => c.num_races)) = 1
    rw [List.foldl_cons]
    show (c5Bulk.map (fun c : ChampionshipRow => c.num_races)).foldl max 1 = 1
    refine foldl_fixed _ _ _ ?_
    intro x hx
    have hx2 : x ∈ ((List.range 10000).map (fun i : Nat => (⟨i + 2, 2025, 1, [1], ["A", "B"], "A", [1]⟩ : ChampionshipRow))).map
      (fun c : ChampionshipRow => c.num_races) := hx
    obtain ⟨c, hc, rfl⟩ := List.mem_map.mp hx2
    obtain ⟨i, _, rfl⟩ := List.mem_map.mp hc
    rfl
  have hstep1 : marginStep ((([("A", (⟨1, 1, 10001, none, none, 0⟩ : StatInfo)), ("B", (⟨2, 1, 10001, none, none, 0⟩ : StatInfo))].map (fun e : String × StatInfo => (e.1, { e.2 with win_count := (c5Row1 :: c5Bulk).countP (fun r : ChampionshipRow => r.winner == e.1) }))).filter (fun e : String × StatInfo => e.2.highest_position == 1)).map (fun e : String × StatInfo => e.1)) ([("A", (⟨1, 1, 10001, none, none, 0⟩ : StatInfo)), ("B", (⟨2, 1, 10001, none, none, 0⟩ : StatInfo))].map (fun e : String × StatInfo => (e.1, { e.2 with win_count := (c5Row1 :: c5Bulk).countP (fun r : ChampionshipRow => r.winner == e.1) }))) c5Row1 = ([("A", (⟨1, 1, 10001, none, none, 0⟩ : StatInfo)), ("B", (⟨2, 1, 10001, none, none, 0⟩ : StatInfo))].map (fun e : String × StatInfo => (e.1, { e.2 with win_count := (c5Row1 :: c5Bulk).countP (fun r : ChampionshipRow => r.winner == e.1) }))) := rfl
  have hfold3 : (c5Row1 :: c5Bulk).foldl (marginStep ((([("A", (⟨1, 1, 10001, none, none, 0⟩ : StatInfo)), ("B", (⟨2, 1, 10001, none, none, 0⟩ : StatInfo))].map (fun e : String × StatInfo => (e.1, { e.2 with win_count := (c5Row1 :: c5Bulk).countP (fun r : ChampionshipRow => r.winner == e.1) }))).filter (fun e : String × StatInfo => e.2.highest_position == 1)).map (fun e : String × StatInfo => e.1))) ([("A", (⟨1, 1, 10001, none, none, 0⟩ : StatInfo)), ("B", (⟨2, 1, 10001, none, none, 0⟩ : StatInfo))].map (fun e : String × StatInfo => (e.1, { e.2 with win_count := (c5Row1 :: c5Bulk).countP (fun r : ChampionshipRow => r.winner == e.1) })))
      = ([("A", (⟨1, 1, 10001, none, none, 0⟩ : StatInfo)), ("B", (⟨2, 1, 10001, none, none, 0⟩ : StatInfo))].map (fun e : String × StatInfo => (e.1, { e.2 with win_count := (c5Row1 :: c5Bulk).countP (fun r : ChampionshipRow => r.winner == e.1) }))) := by
    rw [List.foldl_cons, hstep1]
    refine foldl_fixed _ _ _ ?_
    intro x hx
    have hx2 : x ∈ (List.range 10000).map (fun i : Nat => (⟨i + 2, 2025, 1, [1], ["A", "B"], "A", [1]⟩ : ChampionshipRow)) := hx
    obtain ⟨i, _, rfl⟩ := List.mem_map.mp hx2
    rfl
  simp only [compute_stats_for_season]
  rw [hfilter]
  refine ⟨((fun e : String × StatInfo => (⟨e.1, 2025, e.2.highest_position, e.2.highest_position_max_races, e.2.highest_position_championship_id, e.2.best_margin, e.2.best_margin_championship_id, e.2.win_count⟩ : StatRow)) ((fun e : String × StatInfo => (e.1, { e.2 with win_count := (c5Row1 :: c5Bulk).countP (fun r : ChampionshipRow => r.winner == e.1) })) ("B", (⟨2, 1, 10001, none, none, 0⟩ : StatInfo)))), ?_, rfl⟩
  show ((c5State.driver_statistics.filter (fun r => r.season ≠ 2025)) ++ ((c5Row1 :: c5Bulk).foldl (marginStep ((((scanLengths c5State.championship_results 2025 c5Row1.standings (((c5Row1 :: c5Bulk).map (fun c : ChampionshipRow => c.num_races)).foldl max 0) []).map (fun e : String × StatInfo => (e.1, { e.2 with win_count := (c5Row1 :: c5Bulk).countP (fun r : ChampionshipRow => r.winner == e.1) }))).filter (fun e : String × StatInfo => e.2.highest_position == 1)).map (fun e : String × StatInfo => e.1))) ((scanLengths c5State.championship_results 2025 c5Row1.standings (((c5Row1 :: c5Bulk).map (fun c : ChampionshipRow => c.num_races)).foldl max 0) []).map (fun e : String × StatInfo => (e.1, { e.2 with win_count := (c5Row1 :: c5Bulk).countP (fun r : ChampionshipRow => r.winner == e.1) })))).map (fun e : String × StatInfo => (⟨e.1, 2025, e.2.highest_position, e.2.highest_position_max_races, e.2.highest_position_championship_id, e.2.best_margin, e.2.best_margin_championship_id, e.2.win_count⟩ : StatRow))).find? (fun r => r.driver_code == "B" && r.season == 2025) = some ((fun e : String × StatInfo => (⟨e.1, 2025, e.2.highest_position, e.2.highest_position_max_races, e.2.highest_position_championship_id, e.2.best_margin, e.2.best_margin_championship_id, e.2.win_count⟩ : StatRow)) ((fun e : String × StatInfo => (e.1, { e.2 with win_count := (c5Row1 :: c5Bulk).countP (fun r : ChampionshipRow => r.winner == e.1) })) ("B", (⟨2, 1, 10001, none, none, 0⟩ : StatInfo))))
  rw [hmaxr]
  rw [hscan]
  rw [hfold3]
  have hds : c5State.driver_statistics.filter (fun r => r.season ≠ 2025)
      = ([] : List StatRow) := rfl
  rw [hds, List.nil_append]
  rfl

end F1
